import Mathlib

/-!
# Verification of the `tic-tac` bytecode toolchain

A shallow embedding of the Rust repository `a2aaron/tic-tac`:

* `src/bytecode/mod.rs` — the value model (`Val`), instruction set (`Instr`)
  and the execution engine (`Program::eval`), embedded here as a fuel-indexed
  step machine (`step` / `evalLoop` / `Program.evalFuel`);
* `src/lib.rs` — the older copy of the engine at the crate root
  (`OldInstr`, `oldStep`, `OldProgram.evalFuel`);
* `src/bytecode/parse.rs` together with `src/parse_util.rs` — the textual
  assembly parser (`Buffer`, `parse`);
* the `Display` implementations of `src/bytecode/mod.rs` (`renderInstr`,
  `renderVal`, `renderProgram`);
* `src/ast/mod.rs` — the tree compiler and register allocator
  (`FunctionCtx`, `compileExpr`, `compileStmt`).

Modelling conventions:

* Rust `u8`/`u16`/`usize` index values become `Nat`; where a claim needs the
  source's 8/16-bit bounds they appear as explicit hypotheses or explicit
  `% 256`-style arithmetic at the cast sites of the source.
* Rust `i64` becomes `Int`; the `checked_*` operations are modelled by
  explicit range tests against `[-2^63, 2^63-1]` (`checkedI64`).
* Rust `f64` becomes `FloatVal`: an exact rational plus the IEEE special
  values `inf`, `-inf` and `nan`.  IEEE rounding is not modelled (rational
  arithmetic is exact); every fact proved below about floats is
  rounding-independent (totality, special-value production, and exactly
  representable small values such as `5.0 / 2.0 = 2.5`).
* A Rust panic (an out-of-bounds `Vec` index, a failed `assert_eq!`, an
  arithmetic-overflow check, an `unimplemented!()`) is a distinct outcome
  from a returned `Err(EvalError)`.  In the engine it is the `EvalRes.panic`
  outcome; in the compiler it is `Option.none`.
* Strings are `List Char`; `Buffer::text` is the suffix list.
-/

namespace TicTac

/-! ## Floating point model -/

/-- Model of Rust `f64`: an exact rational (`finite`), the two infinities and
`nan`.  Signed zero is not modelled (there is a single rational `0`); no fact
proved in this development depends on the sign of a zero. -/
inductive FloatVal
  | finite (q : ℚ)
  | inf
  | negInf
  | nan
deriving DecidableEq

namespace FloatVal

/-- IEEE-754 addition on the model (exact, no rounding). -/
def add : FloatVal → FloatVal → FloatVal
  | finite a, finite b => finite (a + b)
  | finite _, inf => inf
  | finite _, negInf => negInf
  | inf, finite _ => inf
  | negInf, finite _ => negInf
  | inf, inf => inf
  | negInf, negInf => negInf
  | inf, negInf => nan
  | negInf, inf => nan
  | nan, _ => nan
  | _, nan => nan

/-- IEEE-754 subtraction on the model (exact, no rounding). -/
def sub : FloatVal → FloatVal → FloatVal
  | finite a, finite b => finite (a - b)
  | finite _, inf => negInf
  | finite _, negInf => inf
  | inf, finite _ => inf
  | negInf, finite _ => negInf
  | inf, inf => nan
  | negInf, negInf => nan
  | inf, negInf => inf
  | negInf, inf => negInf
  | nan, _ => nan
  | _, nan => nan

/-- IEEE-754 multiplication on the model (exact, no rounding). -/
def mul : FloatVal → FloatVal → FloatVal
  | finite a, finite b => finite (a * b)
  | finite a, inf => if a = 0 then nan else if 0 < a then inf else negInf
  | finite a, negInf => if a = 0 then nan else if 0 < a then negInf else inf
  | inf, finite b => if b = 0 then nan else if 0 < b then inf else negInf
  | negInf, finite b => if b = 0 then nan else if 0 < b then negInf else inf
  | inf, inf => inf
  | negInf, negInf => inf
  | inf, negInf => negInf
  | negInf, inf => negInf
  | nan, _ => nan
  | _, nan => nan

/-- IEEE-754 division on the model (exact, no rounding; `x / 0` with the
single unsigned model zero takes the positive-zero branch of IEEE). -/
def div : FloatVal → FloatVal → FloatVal
  | finite a, finite b =>
      if b = 0 then (if a = 0 then nan else if 0 < a then inf else negInf)
      else finite (a / b)
  | finite _, inf => finite 0
  | finite _, negInf => finite 0
  | inf, finite b => if b < 0 then negInf else inf
  | negInf, finite b => if b < 0 then inf else negInf
  | inf, inf => nan
  | negInf, negInf => nan
  | inf, negInf => nan
  | negInf, inf => nan
  | nan, _ => nan
  | _, nan => nan

/-- IEEE-754 equality (`PartialEq` on `f64`): `nan` compares unequal to
everything, including itself. -/
def beqIEEE : FloatVal → FloatVal → Bool
  | finite a, finite b => a == b
  | inf, inf => true
  | negInf, negInf => true
  | _, _ => false

/-- IEEE-754 partial comparison (`PartialOrd` on `f64`): `none` whenever an
operand is `nan`. -/
def cmp : FloatVal → FloatVal → Option Ordering
  | nan, _ => none
  | _, nan => none
  | finite a, finite b => some (compare a b)
  | finite _, inf => some .lt
  | finite _, negInf => some .gt
  | inf, finite _ => some .gt
  | negInf, finite _ => some .lt
  | inf, inf => some .eq
  | negInf, negInf => some .eq
  | inf, negInf => some .gt
  | negInf, inf => some .lt

end FloatVal

/-! ## Value model (`Val` in `src/bytecode/mod.rs` and `src/lib.rs`) -/

/-- `enum Val { B(bool), I(i64), F(f64), T(Vec<Val>), C(FnId) }`.
`src/lib.rs` declares the identical enum; one Lean type serves both. -/
inductive Val
  | B (b : Bool)
  | I (i : Int)
  | F (f : FloatVal)
  | T (t : List Val)
  | C (c : Nat)

mutual
/-- The Rust `#[derive(PartialEq)]` equality on `Val`: variant-wise, with
IEEE equality on floats (so `F(nan) != F(nan)`) and element-wise comparison
on tuples. -/
def valEq : Val → Val → Bool
  | .B a, .B b => a == b
  | .I a, .I b => a == b
  | .F a, .F b => a.beqIEEE b
  | .C a, .C b => a == b
  | .T as', .T bs => valListEq as' bs
  | _, _ => false

/-- Element-wise `valEq` on tuple contents. -/
def valListEq : List Val → List Val → Bool
  | [], [] => true
  | a :: as', b :: bs => valEq a b && valListEq as' bs
  | _, _ => false
end

/-- `i64::MIN`. -/
def i64Min : Int := -(2 ^ 63)

/-- `i64::MAX`. -/
def i64Max : Int := 2 ^ 63 - 1

/-- The result of a `checked_*` arithmetic operation on `i64`: the exact
integer result if it fits, otherwise `None`. -/
def checkedI64 (n : Int) : Option Int :=
  if i64Min ≤ n ∧ n ≤ i64Max then some n else none

/-- `impl Add for &Val` (identical in `src/bytecode/mod.rs:283` and
`src/lib.rs:160`): checked integer addition, IEEE float addition, otherwise
`Err(EvalError)` (modelled as `none`). -/
def valAdd : Val → Val → Option Val
  | .I b, .I c => (checkedI64 (b + c)).map .I
  | .F b, .F c => some (.F (b.add c))
  | _, _ => none

/-- `impl Sub for &Val`. -/
def valSub : Val → Val → Option Val
  | .I b, .I c => (checkedI64 (b - c)).map .I
  | .F b, .F c => some (.F (b.sub c))
  | _, _ => none

/-- `impl Mul for &Val`. -/
def valMul : Val → Val → Option Val
  | .I b, .I c => (checkedI64 (b * c)).map .I
  | .F b, .F c => some (.F (b.mul c))
  | _, _ => none

/-- `i64::checked_div`: `None` on a zero divisor or on `MIN / -1`, otherwise
truncating division. -/
def checkedDivI64 (b c : Int) : Option Int :=
  if c = 0 ∨ (b = i64Min ∧ c = -1) then none else some (b.tdiv c)

/-- `i64::checked_rem`: `None` on a zero divisor or on `MIN % -1`, otherwise
the truncating remainder. -/
def checkedRemI64 (b c : Int) : Option Int :=
  if c = 0 ∨ (b = i64Min ∧ c = -1) then none else some (b.tmod c)

/-- `impl Div for &Val` (`src/bytecode/mod.rs:319`, `src/lib.rs:196`). -/
def valDiv : Val → Val → Option Val
  | .I b, .I c => (checkedDivI64 b c).map .I
  | .F b, .F c => some (.F (b.div c))
  | _, _ => none

/-- `impl Rem for &Val` (`src/bytecode/mod.rs:331`, `src/lib.rs:208`).
Note the float arm of the source reads `(&F(b), &F(c)) => Ok(F(b / c))`:
it divides instead of taking a remainder.  The embedding reproduces that. -/
def valRem : Val → Val → Option Val
  | .I b, .I c => (checkedRemI64 b c).map .I
  | .F b, .F c => some (.F (b.div c))
  | _, _ => none

/-- `impl BitAnd for &Val`: bitwise on integers, logical on booleans. -/
def valAnd : Val → Val → Option Val
  | .I b, .I c => some (.I (Int.land b c))
  | .B b, .B c => some (.B (b && c))
  | _, _ => none

/-- `impl BitOr for &Val`. -/
def valOrr : Val → Val → Option Val
  | .I b, .I c => some (.I (Int.lor b c))
  | .B b, .B c => some (.B (b || c))
  | _, _ => none

/-- `impl BitXor for &Val`: integers only. -/
def valXor : Val → Val → Option Val
  | .I b, .I c => some (.I (Int.xor b c))
  | _, _ => none

/-- `impl PartialOrd for Val` (`src/bytecode/mod.rs:378`): defined on two
integers, two floats or two booleans, `None` on every other pairing. -/
def partialCmp : Val → Val → Option Ordering
  | .I b, .I c => some (compare b c)
  | .F b, .F c => b.cmp c
  | .B b, .B c => some (compare b c)
  | _, _ => none

/-- Rust `<` via `PartialOrd::lt`: true exactly on `Some(Less)`; in
particular it is `false` (not an error) when `partial_cmp` is `None`. -/
def valLtB (a b : Val) : Bool := partialCmp a b == some .lt

/-- Rust `>` via `PartialOrd::gt`. -/
def valGtB (a b : Val) : Bool := partialCmp a b == some .gt

/-- Rust `<=` via `PartialOrd::le`: true on `Some(Less | Equal)`. -/
def valLeB (a b : Val) : Bool :=
  partialCmp a b == some .lt || partialCmp a b == some .eq

/-- Rust `>=` via `PartialOrd::ge`. -/
def valGeB (a b : Val) : Bool :=
  partialCmp a b == some .gt || partialCmp a b == some .eq

/-! ## Instruction set and program representation (`src/bytecode/mod.rs`) -/

/-- `enum Instr` of `src/bytecode/mod.rs`.  Register addresses (`Addr = u8`)
and constant indices are `Nat`; `Jump` carries an `i16` offset and `CondJump`
two `i8` offsets, both as `Int`. -/
inductive Instr
  | Const (a b : Nat)
  | Copy (a b : Nat)
  | Add (a b c : Nat)
  | Sub (a b c : Nat)
  | Mul (a b c : Nat)
  | Div (a b c : Nat)
  | Rem (a b c : Nat)
  | And (a b c : Nat)
  | Orr (a b c : Nat)
  | Xor (a b c : Nat)
  | Eq (a b c : Nat)
  | Neq (a b c : Nat)
  | Lt (a b c : Nat)
  | Gt (a b c : Nat)
  | Leq (a b c : Nat)
  | Geq (a b c : Nat)
  | Jump (off : Int)
  | CondJump (a : Nat) (b c : Int)
  | MkTup (a b c : Nat)
  | IdxTup (a b c : Nat)
  | Call (a b c : Nat)
  | Return (a : Option Nat)
  | Read (a : Nat)
  | Write (a : Nat)

/-- `struct Defn { consts, code, local_count }`. -/
structure Defn where
  consts : List Val
  code : List Instr
  local_count : Nat

/-- `struct Program { defns, entry_point }`. -/
structure Program where
  defns : List Defn
  entry_point : Nat

/-! ## The execution engine (`Program::eval`, `src/bytecode/mod.rs:184`) -/

/-- Outcome of one evaluation: `Ok(value)`, `Err(EvalError)`, or a Rust
panic (an unchecked out-of-bounds index). -/
inductive EvalRes
  | ok (v : Val)
  | err
  | panic

/-- The engine's mutable state.  The Rust loop holds a borrowed `&Defn`; the
program being immutable, the embedding stores the index `fn'` of the current
definition instead.  A stack entry `(addr, fn, locals, iptr)` mirrors the
tuple pushed by `Call`.  The I/O streams are byte lists (`inp` is the
remaining input, `out` the bytes written so far). -/
structure EvalState where
  stack : List (Nat × Nat × List Val × Nat)
  fn' : Nat
  locals : List Val
  iptr : Nat
  inp : List Nat
  out : List Nat

/-- Result of one iteration of the interpreter loop: continue in a new
state, or stop with an outcome and the output produced so far. -/
inductive StepOut
  | cont (s : EvalState)
  | stop (r : EvalRes) (out : List Nat)

/-- Rust `locals[i]` (read): the value, or a panic when out of bounds. -/
def readReg (locals : List Val) (i : Nat) : Option Val := locals.get? i

/-- Rust `locals[i] = v`: panics (here `none`) when out of bounds. -/
def writeReg (locals : List Val) (i : Nat) (v : Val) : Option (List Val) :=
  if i < locals.length then some (locals.set i v) else none

/-- `fn sum(a: usize, b: isize) -> usize` (`src/bytecode/mod.rs:275`):
`if b > 0 { a + b as usize } else { a - b.abs() as usize }`.  The `usize`
subtraction underflows (panics) when `|b| > a`; that is the `none` case. -/
def sumIdx (a : Nat) (b : Int) : Option Nat :=
  if 0 < b then some (a + b.toNat)
  else if b.natAbs ≤ a then some (a - b.natAbs) else none

/-- Shared shape of `locals[a] = (&locals[b] op &locals[c])?`: read the two
operands (a panic if either index is out of range), apply the fallible
operation (`Err` propagates), then store (a panic if `a` is out of range). -/
def arithStep (op : Val → Val → Option Val) (s : EvalState) (a b c : Nat) : StepOut :=
  match readReg s.locals b with
  | none => .stop .panic s.out
  | some vb =>
    match readReg s.locals c with
    | none => .stop .panic s.out
    | some vc =>
      match op vb vc with
      | none => .stop .err s.out
      | some v =>
        match writeReg s.locals a v with
        | none => .stop .panic s.out
        | some l => .cont { s with locals := l, iptr := s.iptr + 1 }

/-- Shared shape of `locals[a] = B(f(&locals[b], &locals[c]))` for the
comparison opcodes, which always produce a boolean. -/
def cmpStep (f : Val → Val → Bool) (s : EvalState) (a b c : Nat) : StepOut :=
  match readReg s.locals b with
  | none => .stop .panic s.out
  | some vb =>
    match readReg s.locals c with
    | none => .stop .panic s.out
    | some vc =>
      match writeReg s.locals a (.B (f vb vc)) with
      | none => .stop .panic s.out
      | some l => .cont { s with locals := l, iptr := s.iptr + 1 }

/-- The `Return` arm (also used for the implicit return synthesized when the
instruction pointer runs past the end of the code): `res` is the value being
returned.  Pops the stack and stores into the caller's destination register
(`new_locals[addr] = res`, a panic when out of range), or terminates. -/
def returnStep (s : EvalState) (res : Val) : StepOut :=
  match s.stack with
  | [] => .stop (.ok res) s.out
  | (addr, cfn, clocals, ciptr) :: rest =>
    match writeReg clocals addr res with
    | none => .stop .panic s.out
    | some l =>
      .cont { stack := rest, fn' := cfn, locals := l, iptr := ciptr + 1,
              inp := s.inp, out := s.out }

/-- One iteration of the `loop` in `Program::eval` of `src/bytecode/mod.rs`,
dispatching on `code.code.get(iptr).unwrap_or(&Return(None))`. -/
def execInstr (p : Program) (d : Defn) (s : EvalState) : Instr → StepOut
  | .Const a k =>
    match d.consts.get? k with
    | none => .stop .panic s.out
    | some v =>
      match writeReg s.locals a v with
      | none => .stop .panic s.out
      | some l => .cont { s with locals := l, iptr := s.iptr + 1 }
  | .Copy a b =>
    match readReg s.locals b with
    | none => .stop .panic s.out
    | some v =>
      match writeReg s.locals a v with
      | none => .stop .panic s.out
      | some l => .cont { s with locals := l, iptr := s.iptr + 1 }
  | .Add a b c => arithStep valAdd s a b c
  | .Sub a b c => arithStep valSub s a b c
  | .Mul a b c => arithStep valMul s a b c
  | .Div a b c => arithStep valDiv s a b c
  | .Rem a b c => arithStep valRem s a b c
  | .And a b c => arithStep valAnd s a b c
  | .Orr a b c => arithStep valOrr s a b c
  | .Xor a b c => arithStep valXor s a b c
  | .Eq a b c => cmpStep (fun x y => valEq x y) s a b c
  | .Neq a b c => cmpStep (fun x y => !valEq x y) s a b c
  | .Lt a b c => cmpStep valLtB s a b c
  | .Gt a b c => cmpStep valGtB s a b c
  | .Leq a b c => cmpStep valLeB s a b c
  | .Geq a b c => cmpStep valGeB s a b c
  | .MkTup a b c =>
    -- `locals[a] = T(locals[b as usize..(b + c) as usize].into())`; the
    -- slice panics unless `b + c <= locals.len()` (`local_count` is a `u8`,
    -- so the `u8` overflow of `b + c` is subsumed by this bound).
    if b + c ≤ s.locals.length then
      match writeReg s.locals a (.T ((s.locals.drop b).take c)) with
      | none => .stop .panic s.out
      | some l => .cont { s with locals := l, iptr := s.iptr + 1 }
    else .stop .panic s.out
  | .IdxTup a t i =>
    match readReg s.locals t with
    | none => .stop .panic s.out
    | some vt =>
      match readReg s.locals i with
      | none => .stop .panic s.out
      | some vi =>
        match vt, vi with
        | .T ts, .I iv =>
          -- `t[i as usize]`: a negative `i` reinterprets as a huge `usize`;
          -- either way an index outside the tuple panics.
          if h : 0 ≤ iv ∧ iv.toNat < ts.length then
            match writeReg s.locals a (ts.get ⟨iv.toNat, h.2⟩) with
            | none => .stop .panic s.out
            | some l => .cont { s with locals := l, iptr := s.iptr + 1 }
          else .stop .panic s.out
        | _, _ => .stop .err s.out
  | .Call a f c =>
    -- `let new_code = &self.defns[f as usize]`: the register operand `f` is
    -- used directly as a definition index (the register's contents are not
    -- read); out of range panics.
    match p.defns.get? f with
    | none => .stop .panic s.out
    | some nd =>
      match readReg s.locals c with
      | none => .stop .panic s.out
      | some vc =>
        match writeReg (List.replicate nd.local_count (.I 0)) 0 vc with
        | none => .stop .panic s.out
        | some nl =>
          .cont { stack := (a, s.fn', s.locals, s.iptr) :: s.stack, fn' := f,
                  locals := nl, iptr := 0, inp := s.inp, out := s.out }
  | .Return oa =>
    match oa with
    | none => returnStep s (.T [])
    | some a =>
      -- `locals.remove(a)` panics when `a` is out of range and otherwise
      -- yields `locals[a]` (the shifted vector is immediately discarded).
      match readReg s.locals a with
      | none => .stop .panic s.out
      | some res => returnStep s res
  | .Read a =>
    -- `input.read(&mut buf)?`: on an empty stream Rust's `read` returns
    -- `Ok(0)` and the zero-initialized buffer is stored unchanged.
    match s.inp with
    | [] =>
      match writeReg s.locals a (.I 0) with
      | none => .stop .panic s.out
      | some l => .cont { s with locals := l, iptr := s.iptr + 1 }
    | b :: rest =>
      match writeReg s.locals a (.I b) with
      | none => .stop .panic s.out
      | some l => .cont { s with locals := l, iptr := s.iptr + 1, inp := rest }
  | .Write a =>
    match readReg s.locals a with
    | none => .stop .panic s.out
    | some v =>
      match v with
      | .I x => .cont { s with iptr := s.iptr + 1, out := s.out ++ [(x.emod 256).toNat] }
      | _ => .stop .err s.out
  | .Jump off =>
    match sumIdx s.iptr off with
    | none => .stop .panic s.out
    | some j => .cont { s with iptr := j }
  | .CondJump a b c =>
    match readReg s.locals a with
    | none => .stop .panic s.out
    | some v =>
      match v with
      | .B true =>
        match sumIdx s.iptr b with
        | none => .stop .panic s.out
        | some j => .cont { s with iptr := j }
      | .B false =>
        match sumIdx s.iptr c with
        | none => .stop .panic s.out
        | some j => .cont { s with iptr := j }
      | _ => .stop .err s.out

/-- Fetch-and-execute: the body of the interpreter loop.  `s.fn'` is always
the index of a valid definition when reached from `Program.evalFuel`
(the defensive `none` branch is unreachable from a valid entry). -/
def step (p : Program) (s : EvalState) : StepOut :=
  match p.defns.get? s.fn' with
  | none => .stop .panic s.out
  | some d =>
    match d.code.get? s.iptr with
    | none => returnStep s (.T [])
    | some i => execInstr p d s i

/-- The interpreter loop, indexed by fuel (`none` = fuel exhausted; the Rust
loop has no step bound and simply keeps running). -/
def evalLoop (p : Program) : Nat → EvalState → Option (EvalRes × List Nat)
  | 0, _ => none
  | fuel + 1, s =>
    match step p s with
    | .stop r out => some (r, out)
    | .cont s' => evalLoop p fuel s'

/-- The initial state of `Program::eval`: `&self.defns[self.entry_point]`
(a panic when out of range, hence `Option`), a zero-initialized locals
vector, instruction pointer `0` and an empty stack. -/
def initState (p : Program) (inp : List Nat) : Option EvalState :=
  (p.defns.get? p.entry_point).map fun d =>
    { stack := [], fn' := p.entry_point,
      locals := List.replicate d.local_count (.I 0), iptr := 0,
      inp := inp, out := [] }

/-- `Program::eval` with `fuel` loop iterations: `none` when the fuel runs
out, otherwise the outcome together with the bytes written to the output. -/
def Program.evalFuel (p : Program) (fuel : Nat) (inp : List Nat) :
    Option (EvalRes × List Nat) :=
  match initState p inp with
  | none => some (.panic, [])
  | some s => evalLoop p fuel s

/-! ## The older engine at the crate root (`src/lib.rs`)

`src/lib.rs` carries its own `Instr`/`Val`/`Defn`/`Program` and an earlier
`Program::eval`.  Its `Val` and the arithmetic `impl`s are textually
identical to the ones above, so only the instruction set and the evaluator
differ and are embedded separately. -/

/-- `enum Instr` of `src/lib.rs`: the new set minus the logical/bitwise and
comparison opcodes, and with `MkTup(a, b, c)` documented as `a = (b..c)`
(an inclusive register range, not a count). -/
inductive OldInstr
  | Const (a b : Nat)
  | Copy (a b : Nat)
  | Add (a b c : Nat)
  | Sub (a b c : Nat)
  | Mul (a b c : Nat)
  | Div (a b c : Nat)
  | Rem (a b c : Nat)
  | Jump (off : Int)
  | CondJump (a : Nat) (b c : Int)
  | MkTup (a b c : Nat)
  | IdxTup (a b c : Nat)
  | Call (a b c : Nat)
  | Return (a : Option Nat)
  | Read (a : Nat)
  | Write (a : Nat)

/-- `struct Defn` of `src/lib.rs`. -/
structure OldDefn where
  consts : List Val
  code : List OldInstr
  local_count : Nat

/-- `struct Program` of `src/lib.rs`. -/
structure OldProgram where
  defns : List OldDefn
  entry_point : Nat

/-- The old `Jump`/`CondJump` arithmetic: `iptr += off as usize`.  For a
non-negative offset this is a plain addition (the `usize` overflow check
could only fire at an instruction pointer near `2^64`, which no execution
starting from instruction `0` of a real program reaches; it is not
modelled).  For a negative offset, `off as usize` reinterprets the sign bit,
and the release-mode wrapping addition amounts to addition of `2^64 + off`
modulo `2^64`. -/
def oldJump (iptr : Nat) (off : Int) : Nat :=
  if 0 ≤ off then iptr + off.toNat
  else (iptr + (2 ^ 64 - off.natAbs)) % 2 ^ 64

/-- One iteration of the `loop` in the `Program::eval` of `src/lib.rs`. -/
def execOldInstr (p : OldProgram) (d : OldDefn) (s : EvalState) : OldInstr → StepOut
  | .Const a k =>
    match d.consts.get? k with
    | none => .stop .panic s.out
    | some v =>
      match writeReg s.locals a v with
      | none => .stop .panic s.out
      | some l => .cont { s with locals := l, iptr := s.iptr + 1 }
  | .Copy a b =>
    match readReg s.locals b with
    | none => .stop .panic s.out
    | some v =>
      match writeReg s.locals a v with
      | none => .stop .panic s.out
      | some l => .cont { s with locals := l, iptr := s.iptr + 1 }
  | .Add a b c => arithStep valAdd s a b c
  | .Sub a b c => arithStep valSub s a b c
  | .Mul a b c => arithStep valMul s a b c
  | .Div a b c => arithStep valDiv s a b c
  | .Rem a b c => arithStep valRem s a b c
  | .MkTup a b c =>
    -- `locals[a] = T(locals[b as usize..c as usize + 1].into())`: an
    -- inclusive range of registers; the slice panics unless
    -- `b <= c + 1 && c + 1 <= locals.len()`.
    if b ≤ c + 1 ∧ c + 1 ≤ s.locals.length then
      match writeReg s.locals a (.T ((s.locals.drop b).take (c + 1 - b))) with
      | none => .stop .panic s.out
      | some l => .cont { s with locals := l, iptr := s.iptr + 1 }
    else .stop .panic s.out
  | .IdxTup a t i =>
    match readReg s.locals t with
    | none => .stop .panic s.out
    | some vt =>
      match readReg s.locals i with
      | none => .stop .panic s.out
      | some vi =>
        match vt, vi with
        | .T ts, .I iv =>
          if h : 0 ≤ iv ∧ iv.toNat < ts.length then
            match writeReg s.locals a (ts.get ⟨iv.toNat, h.2⟩) with
            | none => .stop .panic s.out
            | some l => .cont { s with locals := l, iptr := s.iptr + 1 }
          else .stop .panic s.out
        | _, _ => .stop .err s.out
  | .Call a f c =>
    match p.defns.get? f with
    | none => .stop .panic s.out
    | some nd =>
      match readReg s.locals c with
      | none => .stop .panic s.out
      | some vc =>
        match writeReg (List.replicate nd.local_count (.I 0)) 0 vc with
        | none => .stop .panic s.out
        | some nl =>
          .cont { stack := (a, s.fn', s.locals, s.iptr) :: s.stack, fn' := f,
                  locals := nl, iptr := 0, inp := s.inp, out := s.out }
  | .Return oa =>
    match oa with
    | none => returnStep s (.T [])
    | some a =>
      match readReg s.locals a with
      | none => .stop .panic s.out
      | some res => returnStep s res
  | .Read a =>
    match s.inp with
    | [] =>
      match writeReg s.locals a (.I 0) with
      | none => .stop .panic s.out
      | some l => .cont { s with locals := l, iptr := s.iptr + 1 }
    | b :: rest =>
      match writeReg s.locals a (.I b) with
      | none => .stop .panic s.out
      | some l => .cont { s with locals := l, iptr := s.iptr + 1, inp := rest }
  | .Write a =>
    match readReg s.locals a with
    | none => .stop .panic s.out
    | some v =>
      match v with
      | .I x => .cont { s with iptr := s.iptr + 1, out := s.out ++ [(x.emod 256).toNat] }
      | _ => .stop .err s.out
  | .Jump off => .cont { s with iptr := oldJump s.iptr off }
  | .CondJump a b c =>
    match readReg s.locals a with
    | none => .stop .panic s.out
    | some v =>
      match v with
      | .B true => .cont { s with iptr := oldJump s.iptr b }
      | .B false => .cont { s with iptr := oldJump s.iptr c }
      | _ => .stop .err s.out

/-- Fetch-and-execute for the old engine. -/
def oldStep (p : OldProgram) (s : EvalState) : StepOut :=
  match p.defns.get? s.fn' with
  | none => .stop .panic s.out
  | some d =>
    match d.code.get? s.iptr with
    | none => returnStep s (.T [])
    | some i => execOldInstr p d s i

/-- The old interpreter loop, indexed by fuel. -/
def evalOldLoop (p : OldProgram) : Nat → EvalState → Option (EvalRes × List Nat)
  | 0, _ => none
  | fuel + 1, s =>
    match oldStep p s with
    | .stop r out => some (r, out)
    | .cont s' => evalOldLoop p fuel s'

/-- The initial state of the old `Program::eval`. -/
def oldInitState (p : OldProgram) (inp : List Nat) : Option EvalState :=
  (p.defns.get? p.entry_point).map fun d =>
    { stack := [], fn' := p.entry_point,
      locals := List.replicate d.local_count (.I 0), iptr := 0,
      inp := inp, out := [] }

/-- The old `Program::eval` with a fuel bound. -/
def OldProgram.evalFuel (p : OldProgram) (fuel : Nat) (inp : List Nat) :
    Option (EvalRes × List Nat) :=
  match oldInitState p inp with
  | none => some (.panic, [])
  | some s => evalOldLoop p fuel s

/-- The instruction-wise injection of the old instruction set into the new
one (the constructors shared by `src/lib.rs` and `src/bytecode/mod.rs`). -/
def OldInstr.toNew : OldInstr → Instr
  | .Const a b => .Const a b
  | .Copy a b => .Copy a b
  | .Add a b c => .Add a b c
  | .Sub a b c => .Sub a b c
  | .Mul a b c => .Mul a b c
  | .Div a b c => .Div a b c
  | .Rem a b c => .Rem a b c
  | .Jump off => .Jump off
  | .CondJump a b c => .CondJump a b c
  | .MkTup a b c => .MkTup a b c
  | .IdxTup a b c => .IdxTup a b c
  | .Call a b c => .Call a b c
  | .Return a => .Return a
  | .Read a => .Read a
  | .Write a => .Write a

/-- Carrying a whole old program over to the new representation. -/
def OldDefn.toNew (d : OldDefn) : Defn :=
  ⟨d.consts, d.code.map OldInstr.toNew, d.local_count⟩

/-- Carrying a whole old program over to the new representation. -/
def OldProgram.toNew (p : OldProgram) : Program :=
  ⟨p.defns.map OldDefn.toNew, p.entry_point⟩

/-- The instructions on which the two engines are claimed to agree: the
shared constructors except `MkTup` (whose third operand the two engines
interpret differently), with `Jump`/`CondJump` restricted to non-negative
offsets. -/
def OldInstr.shared : OldInstr → Bool
  | .MkTup _ _ _ => false
  | .Jump off => decide (0 ≤ off)
  | .CondJump _ b c => decide (0 ≤ b) && decide (0 ≤ c)
  | _ => true

/-- A program built only from shared instructions. -/
def OldProgram.shared (p : OldProgram) : Prop :=
  ∀ d ∈ p.defns, ∀ i ∈ d.code, i.shared = true

/-! ## The tree compiler and register allocator (`src/ast/mod.rs`) -/

/-- `enum Unop`. -/
inductive Unop
  | Negate
  | Not

/-- `enum Binop`. -/
inductive Binop
  | Add
  | Sub
  | Mul
  | Div
  | Rem
  | And
  | Orr
  | Xor
  | Gt
  | Lt
  | Geq
  | Leq
  | Eq
  | Neq

mutual
/-- `Expr<Name>` with `Name` as `Nat` (`struct Name { id: usize }`).
`Vec<Expr>` fields are the isomorphic `ExprList` to keep the mutual
recursion structural. -/
inductive Expr
  | Lit (v : Val)
  | Var (n : Nat)
  | Unop (op : Unop) (e : Expr)
  | Binop (op : Binop) (l r : Expr)
  | Call (f : Expr) (args : ExprList)
  | Index (t i : Expr)
  | Mktup (parts : ExprList)
/-- Spine type for `Vec<Expr>`. -/
inductive ExprList
  | nil
  | cons (e : Expr) (tl : ExprList)
end

mutual
/-- `Stmt<Name>`, with `Vec<Stmt>` as `StmtList`. -/
inductive Stmt
  | Declare (n : Nat)
  | RawExpr (e : Expr)
  | Assign (n : Nat) (e : Expr)
  | If (cond : Expr) (t f : StmtList)
  | While (cond : Expr) (body : StmtList)
  | Continue
  | Break
  | Return (e : Expr)
  | Defn (params : List Nat) (body : StmtList)
/-- Spine type for `Vec<Stmt>`. -/
inductive StmtList
  | nil
  | cons (s : Stmt) (tl : StmtList)
end

/-- The instructions emitted by the compiler.  The `Unop` arm of
`compile_expr` names `Instr::Neg` and `Instr::Not`, which do not exist in
`bytecode::Instr` (the `ast` module does not compile against it as
committed); they are modelled as the two extra constructors so the
register-accounting behaviour of the arm can still be stated. -/
inductive AInstr
  | bc (i : Instr)
  | Neg (a b : Nat)
  | Not (a b : Nat)

/-- The register addresses appearing in an emitted instruction (every
`Addr`-typed operand; constant indices, jump offsets and the `MkTup`
length immediate are not register addresses). -/
def AInstr.regs : AInstr → List Nat
  | .bc (.Const a _) => [a]
  | .bc (.Copy a b) => [a, b]
  | .bc (.Add a b c) => [a, b, c]
  | .bc (.Sub a b c) => [a, b, c]
  | .bc (.Mul a b c) => [a, b, c]
  | .bc (.Div a b c) => [a, b, c]
  | .bc (.Rem a b c) => [a, b, c]
  | .bc (.And a b c) => [a, b, c]
  | .bc (.Orr a b c) => [a, b, c]
  | .bc (.Xor a b c) => [a, b, c]
  | .bc (.Eq a b c) => [a, b, c]
  | .bc (.Neq a b c) => [a, b, c]
  | .bc (.Lt a b c) => [a, b, c]
  | .bc (.Gt a b c) => [a, b, c]
  | .bc (.Leq a b c) => [a, b, c]
  | .bc (.Geq a b c) => [a, b, c]
  | .bc (.Jump _) => []
  | .bc (.CondJump a _ _) => [a]
  | .bc (.MkTup a b _) => [a, b]
  | .bc (.IdxTup a b c) => [a, b, c]
  | .bc (.Call a b c) => [a, b, c]
  | .bc (.Return none) => []
  | .bc (.Return (some a)) => [a]
  | .bc (.Read a) => [a]
  | .bc (.Write a) => [a]
  | .Neg a b => [a, b]
  | .Not a b => [a, b]

/-- `struct FunctionCtx { vars, consts, free_reg, max_reg }`.  The
`HashMap<Name, Addr>` is an association list with at most one entry per
key; `vars.length` is `HashMap::len`. -/
structure FunctionCtx where
  vars : List (Nat × Nat)
  consts : List Val
  free_reg : Nat
  max_reg : Nat

/-- `FunctionCtx::new()`. -/
def FunctionCtx.new : FunctionCtx := ⟨[], [], 0, 0⟩

/-- `HashMap::insert`: replace the value under an existing key, otherwise
add the binding (so the length grows only for a fresh key). -/
def varsInsert (vars : List (Nat × Nat)) (n r : Nat) : List (Nat × Nat) :=
  match vars with
  | [] => [(n, r)]
  | (k, v) :: rest => if k = n then (k, r) :: rest else (k, v) :: varsInsert rest n r

/-- `HashMap` lookup (`self.vars[name]` panics on a missing key, hence the
`Option`). -/
def varsGet? (vars : List (Nat × Nat)) (n : Nat) : Option Nat :=
  match vars with
  | [] => none
  | (k, v) :: rest => if k = n then some v else varsGet? rest n

/-- `FunctionCtx::push_tmp`: hand out `free_reg`, increment it and raise the
high-water mark.  `free_reg` is a `u8`, so the increment at `255` is an
overflow panic (`none`). -/
def pushTmp (ctx : FunctionCtx) : Option (Nat × FunctionCtx) :=
  if ctx.free_reg < 255 then
    let f := ctx.free_reg + 1
    some (ctx.free_reg,
      { ctx with free_reg := f, max_reg := if ctx.max_reg < f then f else ctx.max_reg })
  else none

/-- `FunctionCtx::pop_tmp`: a no-op on addresses below `vars.len()`;
otherwise `assert_eq!(free_reg, addr + 1)` (a panic when it fails, hence
`none`) and the cursor drops to `addr`. -/
def popTmp (ctx : FunctionCtx) (addr : Nat) : Option FunctionCtx :=
  if addr < ctx.vars.length then some ctx
  else if ctx.free_reg = addr + 1 then some { ctx with free_reg := addr }
  else none

/-- `FunctionCtx::get_const`: the index of the first equal constant
(`PartialEq`, i.e. `valEq`), or append and return the new index; both
returned `as u8`. -/
def getConst (ctx : FunctionCtx) (v : Val) : Nat × FunctionCtx :=
  match ctx.consts.findIdx? (fun k => valEq k v) with
  | some i => (i % 256, ctx)
  | none => (ctx.consts.length % 256, { ctx with consts := ctx.consts ++ [v] })

/-- The opcode selected for a `Binop`. -/
def binopInstr : Binop → Nat → Nat → Nat → Instr
  | .Add, a, b, c => .Add a b c
  | .Sub, a, b, c => .Sub a b c
  | .Mul, a, b, c => .Mul a b c
  | .Div, a, b, c => .Div a b c
  | .Rem, a, b, c => .Rem a b c
  | .And, a, b, c => .And a b c
  | .Orr, a, b, c => .Orr a b c
  | .Xor, a, b, c => .Xor a b c
  | .Gt, a, b, c => .Gt a b c
  | .Lt, a, b, c => .Lt a b c
  | .Geq, a, b, c => .Geq a b c
  | .Leq, a, b, c => .Leq a b c
  | .Eq, a, b, c => .Eq a b c
  | .Neq, a, b, c => .Neq a b c

/-- Sequential `pop_tmp` over a list of addresses. -/
def popAll : List Nat → FunctionCtx → Option FunctionCtx
  | [], ctx => some ctx
  | a :: rest, ctx => do popAll rest (← popTmp ctx a)

/-- `for addr in part_addrs.iter().rev() { self.pop_tmp(*addr) }`. -/
def popAllRev (addrs : List Nat) (ctx : FunctionCtx) : Option FunctionCtx :=
  popAll addrs.reverse ctx

/-- Length of an `ExprList`. -/
def ExprList.len : ExprList → Nat
  | .nil => 0
  | .cons _ tl => tl.len + 1

mutual
/-- `FunctionCtx::compile_expr` (`src/ast/mod.rs:108`): the destination
register and the emitted instructions, state-passing over the context;
`none` is a panic (`unimplemented!()` for `Call`, a missing variable, a
failed `pop_tmp` assertion, or `u8` overflow of the cursor). -/
def compileExpr : Expr → FunctionCtx → Option (Nat × FunctionCtx × List AInstr)
  | .Lit v, ctx => do
    let (reg, ctx) ← pushTmp ctx
    let (k, ctx) := getConst ctx v
    pure (reg, ctx, [.bc (.Const reg k)])
  | .Var n, ctx => do
    let r ← varsGet? ctx.vars n
    pure (r, ctx, [])
  | .Unop op e, ctx => do
    let (reg, ctx) ← pushTmp ctx
    let (ad, ctx, acode) ← compileExpr e ctx
    let instr : AInstr := match op with
      | .Negate => .Neg reg ad
      | .Not => .Not reg ad
    let ctx ← popTmp ctx ad
    pure (reg, ctx, acode ++ [instr])
  | .Binop op l r, ctx => do
    let (reg, ctx) ← pushTmp ctx
    let (ld, ctx, lcode) ← compileExpr l ctx
    let (rd, ctx, rcode) ← compileExpr r ctx
    let ctx ← popTmp ctx rd
    let ctx ← popTmp ctx ld
    pure (reg, ctx, lcode ++ rcode ++ [.bc (binopInstr op reg ld rd)])
  | .Call _ _, _ => none
  | .Index t i, ctx => do
    let (reg, ctx) ← pushTmp ctx
    let (td, ctx, tcode) ← compileExpr t ctx
    let (idxd, ctx, icode) ← compileExpr i ctx
    let ctx ← popTmp ctx idxd
    let ctx ← popTmp ctx td
    pure (reg, ctx, tcode ++ icode ++ [.bc (.IdxTup reg td idxd)])
  | .Mktup parts, ctx => do
    let (reg, ctx) ← pushTmp ctx
    let (ctx, addrs, code) ← compileParts parts ctx
    let start := addrs.headD 0
    let ctx ← popAllRev addrs ctx
    pure (reg, ctx, code ++ [.bc (.MkTup reg start (parts.len % 256))])

/-- The element loop of the `Mktup` arm: compile each part in order,
concatenating code and collecting the destination addresses. -/
def compileParts : ExprList → FunctionCtx → Option (FunctionCtx × List Nat × List AInstr)
  | .nil, ctx => some (ctx, [], [])
  | .cons e tl, ctx => do
    let (d, ctx, c) ← compileExpr e ctx
    let (ctx, ds, cs) ← compileParts tl ctx
    pure (ctx, d :: ds, c ++ cs)
end

mutual
/-- `FunctionCtx::compile_stmt` (`src/ast/mod.rs:197`); `none` is a panic,
including the `unimplemented!()` arms. -/
def compileStmt : Stmt → FunctionCtx → Option (FunctionCtx × List AInstr)
  | .Declare n, ctx => do
    let (reg, ctx) ← pushTmp ctx
    pure ({ ctx with vars := varsInsert ctx.vars n reg }, [])
  | .RawExpr e, ctx => do
    let (reg, ctx, code) ← compileExpr e ctx
    let ctx ← popTmp ctx reg
    pure (ctx, code)
  | .Assign n e, ctx => do
    let dest ← varsGet? ctx.vars n
    let (reg, ctx, code) ← compileExpr e ctx
    let ctx ← popTmp ctx reg
    pure (ctx, code ++ [.bc (.Copy dest reg)])
  | .If cond t f, ctx => do
    let (cd, ctx, code) ← compileExpr cond ctx
    let ctx ← popTmp ctx cd
    let (ctx, tcode) ← compileList t ctx
    let (ctx, fcode) ← compileList f ctx
    pure (ctx, code ++ [.bc (.CondJump cd 2 1)]
      ++ [.bc (.Jump (Int.bmod ((tcode.length : Int) + 2) 65536))] ++ tcode
      ++ [.bc (.Jump (Int.bmod ((fcode.length : Int) + 1) 65536))] ++ fcode)
  | .While _ _, _ => none
  | .Continue, _ => none
  | .Break, _ => none
  | .Return _, _ => none
  | .Defn _ _, _ => none

/-- `FunctionCtx::compile` (the statement-list fold, `src/ast/mod.rs:245`). -/
def compileList : StmtList → FunctionCtx → Option (FunctionCtx × List AInstr)
  | .nil, ctx => some (ctx, [])
  | .cons s tl, ctx => do
    let (ctx, c) ← compileStmt s ctx
    let (ctx, cs) ← compileList tl ctx
    pure (ctx, c ++ cs)
end

/-! ## Parsing utilities (`src/parse_util.rs`)

Strings are `List Char`.  A `Buffer` is the remaining text of one line plus
the 1-based row and the column reached so far. -/

/-- Shorthand: the character list of a string literal. -/
def lc (s : String) : List Char := s.data

/-- `struct Buffer<'a> { text, row, col }`. -/
structure Buffer where
  text : List Char
  row : Nat
  col : Nat
deriving DecidableEq

/-- `enum ParseError::Expected { msg, row, span }`. -/
structure ParseError where
  msg : List Char
  row : Nat
  span : Option (Nat × Nat)
deriving DecidableEq

/-- `Buffer::expected(message)`: an error at this buffer's position
(`impl IntoSpan for usize` turns `col` into `Some((col, col))`). -/
def Buffer.expected (b : Buffer) (msg : List Char) : ParseError :=
  ⟨msg, b.row, some (b.col, b.col)⟩

/-- `Buffer::advance(offset)` (clamped to the text length). -/
def Buffer.advance (b : Buffer) (offset : Nat) : Buffer :=
  let o := min offset b.text.length
  ⟨b.text.drop o, b.row, b.col + o⟩

/-- `Buffer::trim_left`: advance past the leading whitespace (the source
finds the first non-whitespace index and advances there; this recursion is
the same function).  Rust's `char::is_whitespace` is the Unicode class, of
which `Char.isWhitespace` covers the ASCII part — the only part any text in
this development contains. -/
def trimLeftAux : List Char → Nat → Nat → Buffer
  | [], r, c => ⟨[], r, c⟩
  | ch :: cs, r, c =>
    if ch.isWhitespace then trimLeftAux cs r (c + 1) else ⟨ch :: cs, r, c⟩

/-- `Buffer::trim_left`, as the list recursion above. -/
def Buffer.trimLeft (b : Buffer) : Buffer := trimLeftAux b.text b.row b.col

/-- `Buffer::trim_right` (the column is unchanged). -/
def Buffer.trimRight (b : Buffer) : Buffer :=
  ⟨(b.text.reverse.dropWhile Char.isWhitespace).reverse, b.row, b.col⟩

/-- `Buffer::trim`. -/
def Buffer.trim (b : Buffer) : Buffer := b.trimLeft.trimRight

/-- `Buffer::end`: succeeds only on an empty buffer. -/
def Buffer.done (b : Buffer) : Except ParseError Buffer :=
  if b.text = [] then .ok b else .error (b.expected (lc "end of input"))

/-- `Buffer::space`: `trim_left` must make progress. -/
def Buffer.space (b : Buffer) : Except ParseError Buffer :=
  let n := b.trimLeft
  if n = b then .error (b.expected (lc "whitespace")) else .ok n

/-- `Buffer::space_or_end`. -/
def Buffer.spaceOrEnd (b : Buffer) : Except ParseError Buffer :=
  if b.text = [] then .ok b else b.space

/-- `Buffer::starts_with`. -/
def Buffer.startsWith (b : Buffer) (pre : List Char) : Bool :=
  pre.isPrefixOf b.text

/-- `Buffer::token`: strip an expected literal prefix. -/
def Buffer.token (b : Buffer) (tok : List Char) : Except ParseError Buffer :=
  if b.startsWith tok then .ok (b.advance tok.length)
  else .error (b.expected ('"' :: tok ++ ['"']))

/-- The error message of `first_token_of` (`Buffer::first_token_err`). -/
def firstTokenErrMsg (tokens : List (List Char)) : List Char :=
  match tokens with
  | [t] => '"' :: t ++ ['"']
  | [t1, t2] => lc "either \"" ++ t1 ++ lc "\" or \"" ++ t2 ++ ['"']
  | _ =>
    let pre := (tokens.dropLast.map fun t => '"' :: t ++ ['"']).intersperse (lc ", ")
    lc "one of " ++ pre.flatten ++ lc ", or \"" ++ (tokens.getLast?.getD []) ++ ['"']

/-- `Buffer::first_token_of`: the first token of the list that is a prefix
is stripped and returned. -/
def Buffer.firstTokenOf (b : Buffer) (tokens : List (List Char)) :
    Except ParseError (Buffer × List Char) :=
  match tokens with
  | [] => .ok (b, [])
  | _ =>
    match tokens.find? (fun t => b.startsWith t) with
    | some t => .ok (b.advance t.length, t)
    | none => .error (b.expected (firstTokenErrMsg tokens))

/-- `Buffer::til(pat)`: split at the first character satisfying `pat` (the
whole text when none does).  The source returns `Ok` in both branches, so
the embedding returns a plain pair. -/
def tilAux (p : Char → Bool) : List Char → Nat → Nat → Buffer × List Char
  | [], r, c => (⟨[], r, c⟩, [])
  | ch :: cs, r, c =>
    if p ch then (⟨ch :: cs, r, c⟩, [])
    else
      let (buf, tok) := tilAux p cs r (c + 1)
      (buf, ch :: tok)

/-- `Buffer::til`, as the list recursion above. -/
def Buffer.til (p : Char → Bool) (b : Buffer) : Buffer × List Char :=
  tilAux p b.text b.row b.col

/-- The numeric value of a digit string. -/
def digitsVal (cs : List Char) : Nat :=
  cs.foldl (fun a c => a * 10 + (c.toNat - 48)) 0

/-- `FromStr` for the unsigned integer types (`u8`, `u16`, `usize`):
an optional `+` sign, then one or more digits, rejecting values above
`bound`. -/
def parseUInt (bound : Nat) (cs : List Char) : Option Nat :=
  let ds := match cs with
    | '+' :: rest => rest
    | _ => cs
  if ds ≠ [] ∧ ds.all Char.isDigit ∧ digitsVal ds ≤ bound then some (digitsVal ds)
  else none

/-- `FromStr` for `i64`: an optional sign, then one or more digits,
rejecting values outside `[i64Min, i64Max]`. -/
def parseI64 (cs : List Char) : Option Int :=
  match cs with
  | '-' :: rest =>
    if rest ≠ [] ∧ rest.all Char.isDigit ∧ (digitsVal rest : Int) ≤ -i64Min then
      some (-(digitsVal rest : Int))
    else none
  | '+' :: rest =>
    if rest ≠ [] ∧ rest.all Char.isDigit ∧ (digitsVal rest : Int) ≤ i64Max then
      some (digitsVal rest)
    else none
  | _ =>
    if cs ≠ [] ∧ cs.all Char.isDigit ∧ (digitsVal cs : Int) ≤ i64Max then
      some (digitsVal cs)
    else none

/-- `Buffer::parse_til` at an unsigned integer type: `til`, then parse the
token (the error carries a fixed marker in place of the `FromStr` error's
display text, which no theorem inspects). -/
def Buffer.parseTilUInt (b : Buffer) (bound : Nat) (p : Char → Bool) :
    Except ParseError (Buffer × Nat) :=
  let (buf, tok) := b.til p
  match parseUInt bound tok with
  | some n => .ok (buf, n)
  | none => .error (b.expected (lc "error parsing token: " ++ tok))

/-- The `addr` extension method of `src/bytecode/parse.rs`:
`trim_left`, the register/constant sigil, then a `u8` read up to the first
non-digit. -/
def Buffer.addr (b : Buffer) (pre : List Char) : Except ParseError (Buffer × Nat) := do
  let b ← b.trimLeft.token pre
  b.parseTilUInt 255 (fun c => !c.isDigit)

/-! ## The assembly parser (`src/bytecode/parse.rs`) -/

/-- `parse_const`: `true`/`false`, a float (mandatory `.`), a function
reference `f<n>`, else an `i64`.  Rust parses the float branch with
`f64::from_str`; the model accepts plain decimal forms (optional sign,
digits, `.`, digits) with their exact rational value — sufficient because
no rendered boolean/integer/function-reference constant contains a `.`. -/
def parseFloatText (cs : List Char) : Option FloatVal :=
  let (sgn, body) := match cs with
    | '-' :: rest => (true, rest)
    | '+' :: rest => (false, rest)
    | _ => (false, cs)
  match body.splitOn '.' with
  | [ip, fp] =>
    if ip ≠ [] ∧ fp ≠ [] ∧ ip.all Char.isDigit ∧ fp.all Char.isDigit then
      let q : ℚ := (digitsVal ip : ℚ) + (digitsVal fp : ℚ) / ((10 : ℚ) ^ fp.length)
      some (.finite (if sgn then -q else q))
    else none
  | _ => none

/-- `parse_const` of `src/bytecode/parse.rs:12`. -/
def parseConst (cs : List Char) : Option Val :=
  if cs = lc "true" then some (.B true)
  else if cs = lc "false" then some (.B false)
  else if cs.contains '.' then (parseFloatText cs).map .F
  else if cs.head? = some 'f' then (parseUInt 65535 (cs.drop 1)).map .C
  else (parseI64 cs).map .I

/-- The loop body of `parse_constants`, with fuel for the shrinking buffer
(each iteration strictly consumes text; `parseConstants` supplies enough
fuel for any input). -/
def parseConstantsF : Nat → Buffer → List Val → Except ParseError (Buffer × List Val)
  | 0, b, acc => .ok (b, acc)
  | fuel + 1, b, acc =>
    if b.text = [] then .ok (b, acc)
    else
      let (buf, tok) := b.trimLeft.til Char.isWhitespace
      match parseConst tok with
      | some c => parseConstantsF fuel buf (acc ++ [c])
      | none => .error (buf.expected (lc "a constant"))

/-- `parse_constants` of `src/bytecode/parse.rs:26`. -/
def parseConstants (b : Buffer) : Except ParseError (Buffer × List Val) :=
  parseConstantsF (b.text.length + 1) b []

/-- Append an instruction to the definition under construction
(`defns.last_mut()` in the source). -/
def pushInstr (defns : List Defn) (i : Instr) : List Defn :=
  match defns.getLast? with
  | none => defns
  | some d => defns.dropLast ++ [{ d with code := d.code ++ [i] }]

/-- The handling of one line of the `for (row, line)` loop of `parse`
(`src/bytecode/parse.rs:55`), threading the definitions parsed so far. -/
def parseLine (row : Nat) (line : List Char) (defns : List Defn) :
    Except ParseError (List Defn) := do
  let buf := (Buffer.mk line row 0).trim
  if buf.startsWith (lc "#") ∨ buf.text = [] then
    pure defns
  else if buf.startsWith (lc "defn") then do
    let buf ← buf.token (lc "defn")
    let buf ← buf.space
    let buf ← buf.token (lc "f")
    let (buf, fn_number) ← buf.parseTilUInt (2 ^ 64 - 1) Char.isWhitespace
    if fn_number ≠ defns.length then
      throw (buf.expected (lc "function id f" ++ Nat.toDigits 10 defns.length ++
        lc ", got f" ++ Nat.toDigits 10 fn_number))
    else do
      let (buf, local_count) ← buf.trimLeft.parseTilUInt 255 Char.isWhitespace
      let buf ← buf.trimLeft.token (lc ":")
      let (buf, consts) ← parseConstants buf.trimLeft
      let _ ← buf.done
      pure (defns ++ [⟨consts, [], local_count⟩])
  else if defns.isEmpty then
    throw (buf.expected (lc "to be inside a definition"))
  else if buf.startsWith (lc "return") then do
    let buf ← buf.token (lc "return")
    let buf ← buf.spaceOrEnd
    if buf.text = [] then do
      let _ ← buf.done
      pure (pushInstr defns (.Return none))
    else do
      let (buf, a) ← buf.addr (lc "x")
      let _ ← buf.done
      pure (pushInstr defns (.Return (some a)))
  else if buf.startsWith (lc "write") then do
    let buf ← buf.token (lc "write")
    let buf ← buf.space
    let (buf, a) ← buf.addr (lc "x")
    let _ ← buf.done
    pure (pushInstr defns (.Write a))
  else do
    let (buf, dest) ← buf.addr (lc "x")
    let buf ← buf.trimLeft.token (lc ":=")
    let buf := buf.trimLeft
    if buf.startsWith (lc "k") then do
      let (buf, k) ← buf.addr (lc "k")
      let _ ← buf.done
      pure (pushInstr defns (.Const dest k))
    else if buf.startsWith (lc "(") then do
      let buf ← buf.trimLeft.token (lc "(")
      let (buf, b) ← buf.addr (lc "x")
      let buf ← buf.trimLeft.token (lc "..")
      let (buf, c) ← buf.addr (lc "x")
      let buf ← buf.trimLeft.token (lc ")")
      let _ ← buf.done
      pure (pushInstr defns (.MkTup dest b c))
    else if buf.startsWith (lc "read") then do
      let buf ← buf.token (lc "read")
      let _ ← buf.done
      pure (pushInstr defns (.Read dest))
    else do
      let (buf, b) ← buf.addr (lc "x")
      let buf := buf.trimLeft
      if buf.text = [] then
        pure (pushInstr defns (.Copy dest b))
      else do
        let (buf, op) ← buf.firstTokenOf
          [lc "+", lc "-", lc "*", lc "/", lc "%", lc "(", lc "["]
        if op = lc "(" then do
          let (buf, c) ← buf.addr (lc "x")
          let buf ← buf.trimLeft.token (lc ")")
          let _ ← buf.done
          pure (pushInstr defns (.Call dest b c))
        else if op = lc "[" then do
          let (buf, c) ← buf.addr (lc "x")
          let buf ← buf.trimLeft.token (lc "]")
          let _ ← buf.done
          pure (pushInstr defns (.IdxTup dest b c))
        else do
          let (buf, c) ← buf.addr (lc "x")
          let _ ← buf.done
          pure (pushInstr defns
            (if op = lc "+" then .Add dest b c
             else if op = lc "-" then .Sub dest b c
             else if op = lc "*" then .Mul dest b c
             else if op = lc "/" then .Div dest b c
             else .Rem dest b c))

/-- The line fold of `parse`: lines paired with their 1-based row. -/
def parseLines : List (Nat × List Char) → List Defn → Except ParseError (List Defn)
  | [], defns => .ok defns
  | (row, line) :: rest, defns => do
    parseLines rest (← parseLine row line defns)

/-- Split on `'\n'` (every occurrence separates two pieces). -/
def splitNL : List Char → List (List Char)
  | [] => [[]]
  | '\n' :: rest => [] :: splitNL rest
  | ch :: rest =>
    match splitNL rest with
    | [] => [[ch]]
    | l :: ls => (ch :: l) :: ls

/-- Drop a trailing `'\r'` (the line terminator handling of
`str::lines`). -/
def stripCR (cs : List Char) : List Char :=
  if cs.getLast? = some '\r' then cs.dropLast else cs

/-- Rust `str::lines`: split on `'\n'`, drop a final empty piece (an empty
string yields no lines), strip a trailing `'\r'` from each line. -/
def rustLines (cs : List Char) : List (List Char) :=
  match cs with
  | [] => []
  | _ =>
    let parts := splitNL cs
    (if parts.getLast? = some [] then parts.dropLast else parts).map stripCR

/-- `pub fn parse` of `src/bytecode/parse.rs:51`: fold the lines, then wrap
the definitions with entry point `0`. -/
def parse (cs : List Char) : Except ParseError Program := do
  let defns ← parseLines ((rustLines cs).enum.map fun (i, l) => (i + 1, l)) []
  pure ⟨defns, 0⟩

/-- `true` exactly on a parse error (no theorem inspects the message). -/
def isErr {ε α : Type} : Except ε α → Bool
  | .error _ => true
  | .ok _ => false

/-! ## The pretty-printer (`impl fmt::Display`, `src/bytecode/mod.rs`) -/

/-- Decimal digits of a natural number (fuelled so that it evaluates by
kernel reduction; `renderNat` supplies sufficient fuel). -/
def renderNatAux : Nat → Nat → List Char → List Char
  | 0, _, acc => acc
  | fuel + 1, n, acc =>
    let d := Char.ofNat (48 + n % 10)
    if n < 10 then d :: acc else renderNatAux fuel (n / 10) (d :: acc)

/-- The decimal rendering of a natural number (Rust `{}` on an unsigned
integer). -/
def renderNat (n : Nat) : List Char := renderNatAux (n + 1) n []

/-- Rust `{}` on a signed integer. -/
def renderInt (z : Int) : List Char :=
  if z < 0 then '-' :: renderNat z.natAbs else renderNat z.toNat

/-- Rust `{}` on a finite `f64`, for the fragment this development needs:
an integral value renders without a decimal point (the `Display` for `Val`
then appends `.0`); a non-integral value renders as its exact decimal
expansion, truncated at 17 fractional digits (Rust prints a shortest
round-tripping form; no theorem below touches this case). -/
def renderFiniteFloat (q : ℚ) : List Char :=
  if q.den = 1 then renderInt q.num
  else
    let sgn : List Char := if q < 0 then ['-'] else []
    let aq := |q|
    let ip := aq.floor.toNat
    let frac : List Char := (List.range 17).foldl
      (fun (st : List Char × ℚ) _ =>
        let r := st.2 * 10
        (st.1 ++ renderNat r.floor.toNat, r - r.floor)) ([], aq - aq.floor) |>.1
    sgn ++ renderNat ip ++ '.' :: frac

/-- Rust `{}` on a non-finite `f64`. -/
def renderFloat : FloatVal → List Char
  | .finite q => renderFiniteFloat q
  | .inf => lc "inf"
  | .negInf => lc "-inf"
  | .nan => lc "NaN"

mutual
/-- `impl fmt::Display for Val` (`src/bytecode/mod.rs:116`): floats gain a
`.0` suffix when their rendering has no `.`; tuples render as
`(v1, v2, ...)`. -/
def renderVal : Val → List Char
  | .B true => lc "true"
  | .B false => lc "false"
  | .I i => renderInt i
  | .F f =>
    let t := renderFloat f
    if t.contains '.' then t else t ++ lc ".0"
  | .T vs => '(' :: renderVals vs ++ [')']
  | .C c => 'f' :: renderNat c

/-- The `", "`-joined element renderings of a tuple. -/
def renderVals : List Val → List Char
  | [] => []
  | [v] => renderVal v
  | v :: vs => renderVal v ++ lc ", " ++ renderVals vs
end

/-- `impl fmt::Display for Instr` (`src/bytecode/mod.rs:74`). -/
def renderInstr : Instr → List Char
  | .Const a b => lc "x" ++ renderNat a ++ lc " := k" ++ renderNat b
  | .Copy a b => lc "x" ++ renderNat a ++ lc " := x" ++ renderNat b
  | .Add a b c => lc "x" ++ renderNat a ++ lc " := x" ++ renderNat b ++ lc " + x" ++ renderNat c
  | .Sub a b c => lc "x" ++ renderNat a ++ lc " := x" ++ renderNat b ++ lc " - x" ++ renderNat c
  | .Mul a b c => lc "x" ++ renderNat a ++ lc " := x" ++ renderNat b ++ lc " * x" ++ renderNat c
  | .Div a b c => lc "x" ++ renderNat a ++ lc " := x" ++ renderNat b ++ lc " / x" ++ renderNat c
  | .Rem a b c => lc "x" ++ renderNat a ++ lc " := x" ++ renderNat b ++ lc " % x" ++ renderNat c
  | .And a b c => lc "x" ++ renderNat a ++ lc " := x" ++ renderNat b ++ lc " & x" ++ renderNat c
  | .Orr a b c => lc "x" ++ renderNat a ++ lc " := x" ++ renderNat b ++ lc " | x" ++ renderNat c
  | .Xor a b c => lc "x" ++ renderNat a ++ lc " := x" ++ renderNat b ++ lc " ^ x" ++ renderNat c
  | .Eq a b c => lc "x" ++ renderNat a ++ lc " := x" ++ renderNat b ++ lc " == x" ++ renderNat c
  | .Neq a b c => lc "x" ++ renderNat a ++ lc " := x" ++ renderNat b ++ lc " != x" ++ renderNat c
  | .Lt a b c => lc "x" ++ renderNat a ++ lc " := x" ++ renderNat b ++ lc " < x" ++ renderNat c
  | .Gt a b c => lc "x" ++ renderNat a ++ lc " := x" ++ renderNat b ++ lc " > x" ++ renderNat c
  | .Leq a b c => lc "x" ++ renderNat a ++ lc " := x" ++ renderNat b ++ lc " <= x" ++ renderNat c
  | .Geq a b c => lc "x" ++ renderNat a ++ lc " := x" ++ renderNat b ++ lc " >= x" ++ renderNat c
  | .Jump off => lc "jump " ++ renderInt off
  | .CondJump a b c => lc "cond x" ++ renderNat a ++ lc " " ++ renderInt b ++ lc " " ++ renderInt c
  | .MkTup a b c => lc "x" ++ renderNat a ++ lc " := (x" ++ renderNat b ++ lc "; " ++ renderNat c ++ lc ")"
  | .IdxTup a b c => lc "x" ++ renderNat a ++ lc " := x" ++ renderNat b ++ lc "[x" ++ renderNat c ++ lc "]"
  | .Call a b c => lc "x" ++ renderNat a ++ lc " := x" ++ renderNat b ++ lc "(x" ++ renderNat c ++ lc ")"
  | .Return none => lc "return"
  | .Return (some a) => lc "return x" ++ renderNat a
  | .Read a => lc "x" ++ renderNat a ++ lc " := read"
  | .Write a => lc "write x" ++ renderNat a

/-- One definition block of `impl fmt::Display for Program`
(`src/bytecode/mod.rs:157`): the header
`defn f<i> <local_count> :<consts>` followed by each instruction on a
`"\n    "`-prefixed line. -/
def renderDefn (i : Nat) (d : Defn) : List Char :=
  lc "defn f" ++ renderNat i ++ lc " " ++ renderNat d.local_count ++ lc " :"
    ++ (d.consts.map fun k => ' ' :: renderVal k).flatten
    ++ (d.code.map fun ins => lc "\n    " ++ renderInstr ins).flatten

/-- `impl fmt::Display for Program`: the definition blocks separated by
`writeln!(fmt, "\n")`, i.e. by a blank line. -/
def renderProgram (p : Program) : List Char :=
  ((p.defns.enum.map fun (i, d) => renderDefn i d).intersperse (lc "\n\n")).flatten

/-! ## Helper lemmas -/

theorem writeReg_lt {l : List Val} {i : Nat} (v : Val) (h : i < l.length) :
    writeReg l i v = some (l.set i v) := by
  simp [writeReg, h]

/-- "The two operands are of one comparable kind": both integers, both
floats, or both booleans (the pairings `Lt`/`Gt`/`Leq`/`Geq` are claimed to
be defined on). -/
def bothCmpKind : Val → Val → Bool
  | .I _, .I _ => true
  | .F _, .F _ => true
  | .B _, .B _ => true
  | _, _ => false

theorem partialCmp_none_of_mismatch {v w : Val} (h : bothCmpKind v w = false) :
    partialCmp v w = none := by
  cases v <;> cases w <;> simp_all [bothCmpKind, partialCmp]

/-! ## Claim theorems -/

/-- A `Const` whose constant index has no entry in the (empty) pool: the
very first instruction indexes `consts[0]` out of bounds. -/
def c1ConstProg : Program := ⟨[⟨[], [.Const 0 0], 1⟩], 0⟩

/-- A `Copy` reading register `x1` of a function with a single local. -/
def c1RegProg : Program := ⟨[⟨[], [.Copy 0 1], 1⟩], 0⟩

/-- A `Call` whose callee operand `5` indexes a one-element `defns`. -/
def c1CallProg : Program := ⟨[⟨[], [.Call 0 5 0], 1⟩], 0⟩

/-- C1: `Program::eval` does **not** validate register, constant-pool or
callee indices: each out-of-range use is an unchecked `Vec` index, a Rust
panic (`EvalRes.panic`), not a structured `EvalError` (`EvalRes.err`).
The first program is even obtained from `parse` on plain text, so the
crash is reachable from untrusted input. -/
theorem C1_unchecked_indices_panic :
    parse (lc "defn f0 1 :\nx0 := k0") = .ok c1ConstProg ∧
    c1ConstProg.evalFuel 2 [] = some (.panic, []) ∧
    c1RegProg.evalFuel 2 [] = some (.panic, []) ∧
    c1CallProg.evalFuel 2 [] = some (.panic, []) ∧
    (∀ out, c1ConstProg.evalFuel 2 [] ≠ some (.err, out)) := by
  refine ⟨rfl, rfl, rfl, rfl, ?_⟩
  intro out h
  rw [show c1ConstProg.evalFuel 2 [] = some (.panic, []) from rfl] at h
  simp at h

/-- The text of the repository's own `test_jump` parser test
(`src/bytecode/tests.rs:176`). -/
def c3JumpText : List Char :=
  lc "\ndefn f0 2 : 3 5\njump 1\nx0 := k0\nx0 := k1\nreturn x0\n"

/-- The text of the repository's own `test_cond_jump_false` parser test
(`src/bytecode/tests.rs:55`), abridged to the failing line. -/
def c3CondText : List Char :=
  lc "\ndefn f0 3 : false 3 5\nx0 := k0\ncond x0 1 2\nreturn x1\n"

/-- C3: `parse` has no `jump` or `cond` alternative at all (the dispatch in
`src/bytecode/parse.rs:89` tries only `return`, `write`, then generic
assignment), so a `jump <int>` line and a `cond x<a> <int> <int>` line are
parse errors — the error is `expected "x"` from the assignment branch.
The repository's own tests assert the opposite. -/
theorem C3_jump_cond_lines_rejected :
    parse c3JumpText = .error ⟨lc "\"x\"", 3, some (0, 0)⟩ ∧
    parse c3CondText = .error ⟨lc "\"x\"", 4, some (0, 0)⟩ ∧
    isErr (parse c3JumpText) = true ∧ isErr (parse c3CondText) = true :=
  ⟨rfl, rfl, rfl, rfl⟩

/-- A program applying `Lt` to an integer and a boolean. -/
def c4Prog : Program :=
  ⟨[⟨[.I 0, .B true], [.Const 0 0, .Const 1 1, .Lt 2 0 1, .Return (some 2)], 3⟩], 0⟩

/-- C4 counterexample: `Lt` on `I(0)` and `B(true)` — operands that are not
both integers, not both floats, not both booleans — does **not** raise an
evaluation failure; the program runs to completion and returns the silently
stored `B(false)`. -/
theorem C4_counterexample : c4Prog.evalFuel 10 [] = some (.ok (.B false), []) := rfl

/-- C4 (amended): on operands of mismatched kinds `partial_cmp` is `None`,
so each of `Lt`/`Gt`/`Leq`/`Geq` stores `B(false)` and execution continues;
no failure is raised. -/
theorem C4_cmp_mismatch_stores_false (p : Program) (d : Defn) (s : EvalState)
    (a b c : Nat) (vb vc : Val)
    (hb : readReg s.locals b = some vb) (hc : readReg s.locals c = some vc)
    (hk : bothCmpKind vb vc = false) (ha : a < s.locals.length) :
    partialCmp vb vc = none ∧
    valLtB vb vc = false ∧ valGtB vb vc = false ∧
    valLeB vb vc = false ∧ valGeB vb vc = false ∧
    execInstr p d s (.Lt a b c)
      = .cont { s with locals := s.locals.set a (.B false), iptr := s.iptr + 1 } ∧
    execInstr p d s (.Gt a b c)
      = .cont { s with locals := s.locals.set a (.B false), iptr := s.iptr + 1 } ∧
    execInstr p d s (.Leq a b c)
      = .cont { s with locals := s.locals.set a (.B false), iptr := s.iptr + 1 } ∧
    execInstr p d s (.Geq a b c)
      = .cont { s with locals := s.locals.set a (.B false), iptr := s.iptr + 1 } := by
  have hn := partialCmp_none_of_mismatch hk
  have hlt : valLtB vb vc = false := by simp [valLtB, hn]
  have hgt : valGtB vb vc = false := by simp [valGtB, hn]
  have hle : valLeB vb vc = false := by simp [valLeB, hn]
  have hge : valGeB vb vc = false := by simp [valGeB, hn]
  refine ⟨hn, hlt, hgt, hle, hge, ?_, ?_, ?_, ?_⟩ <;>
    simp [execInstr, cmpStep, hb, hc, hlt, hgt, hle, hge, writeReg_lt _ ha]

/-- Witness for `C4_cmp_mismatch_stores_false` at `locals = [I 0, B true, I 5]`. -/
theorem C4_cmp_mismatch_stores_false_witness :
    execInstr ⟨[], 0⟩ ⟨[], [], 0⟩ ⟨[], 0, [.I 0, .B true, .I 5], 0, [], []⟩ (.Lt 2 0 1)
      = .cont ⟨[], 0, [.I 0, .B true, .B false], 1, [], []⟩ :=
  (C4_cmp_mismatch_stores_false ⟨[], 0⟩ ⟨[], [], 0⟩ ⟨[], 0, [.I 0, .B true, .I 5], 0, [], []⟩
    2 0 1 (.I 0) (.B true) rfl rfl rfl (by decide)).2.2.2.2.2.1

/-- C5: in the float arm of `impl Rem for &Val` the source computes `b / c`
(its own doc comment on `Instr::Rem` reads `a = b % c`).  On `F(5.0)` and
`F(2.0)` the operation succeeds — float `Rem` indeed never fails — but it
stores the quotient `2.5`, not the IEEE remainder `1.0`
(both values exact in `f64`, so the rational model is faithful here). -/
theorem C5_float_rem_is_division :
    (∀ f g : FloatVal, (valRem (.F f) (.F g)).isSome = true) ∧
    valRem (.F (.finite 5)) (.F (.finite 2)) = some (.F (.finite (5 / 2))) ∧
    (5 / 2 : ℚ) = 2.5 ∧ (5 / 2 : ℚ) ≠ 1 := by
  refine ⟨fun f g => rfl, ?_, by norm_num, by norm_num⟩
  norm_num [valRem, FloatVal.div]

/-- A program that executes `Read` against an exhausted input stream. -/
def c6Prog : Program := ⟨[⟨[], [.Read 0, .Return (some 0)], 1⟩], 0⟩

/-- C6 counterexample: at end-of-stream, `Read` does **not** fail:
`Read::read` returns `Ok(0)` bytes and the zero-initialized buffer is
stored, so the program returns `I(0)` (outcome `ok`, not `err`). -/
theorem C6_counterexample : c6Prog.evalFuel 10 [] = some (.ok (.I 0), []) := rfl

/-- C6 (amended): with a byte available, `Read` consumes exactly that one
byte and stores it as an integer in `0..=255`; at end-of-stream it does not
fail but stores `I(0)` (only a stream error — impossible for the modelled
pure byte streams — would fail). -/
theorem C6_read_byte_or_zero (p : Program) (d : Defn) (s : EvalState) (a : Nat)
    (ha : a < s.locals.length) :
    (s.inp = [] → execInstr p d s (.Read a)
        = .cont { s with locals := s.locals.set a (.I 0), iptr := s.iptr + 1 }) ∧
    (∀ b rest, s.inp = b :: rest → b < 256 →
      execInstr p d s (.Read a)
        = .cont { s with locals := s.locals.set a (.I b), iptr := s.iptr + 1, inp := rest }
      ∧ 0 ≤ (b : Int) ∧ (b : Int) ≤ 255) := by
  constructor
  · intro he
    simp [execInstr, he, writeReg_lt _ ha]
  · intro b rest he hb
    refine ⟨?_, by positivity, by exact_mod_cast Nat.le_of_lt_succ hb⟩
    simp [execInstr, he, writeReg_lt _ ha]

/-- Witness for `C6_read_byte_or_zero` with input `[13, 2]`. -/
theorem C6_read_byte_or_zero_witness :
    execInstr ⟨[], 0⟩ ⟨[], [], 0⟩ ⟨[], 0, [.I 0], 0, [13, 2], []⟩ (.Read 0)
      = .cont ⟨[], 0, [.I 13], 1, [2], []⟩ :=
  ((C6_read_byte_or_zero ⟨[], 0⟩ ⟨[], [], 0⟩ ⟨[], 0, [.I 0], 0, [13, 2], []⟩ 0
    (by decide)).2 13 [2] rfl (by decide)).1

/-- A program evaluating `Add` on `i64::MAX` and `1`. -/
def c7OverflowProg : Program :=
  ⟨[⟨[.I i64Max, .I 1], [.Const 0 0, .Const 1 1, .Add 2 0 1, .Return (some 2)], 3⟩], 0⟩

/-- C7: integer arithmetic is checked — `Add` on `i64::MAX` and `1` is
`None` (an `EvalError`, never a wrapped value; the whole evaluation of such
a program errors), integer `Div`/`Rem` by zero are `None`; float addition
always succeeds, and float division by (the) zero succeeds with an
infinite or `NaN` result. -/
theorem C7_checked_arithmetic :
    valAdd (.I i64Max) (.I 1) = none ∧
    c7OverflowProg.evalFuel 10 [] = some (.err, []) ∧
    (∀ x : Int, valDiv (.I x) (.I 0) = none) ∧
    (∀ x : Int, valRem (.I x) (.I 0) = none) ∧
    (∀ f g : FloatVal, ∃ h, valAdd (.F f) (.F g) = some (.F h)) ∧
    (∀ f : FloatVal, valDiv (.F f) (.F (.finite 0)) = some (.F (f.div (.finite 0))) ∧
      (f.div (.finite 0) = .inf ∨ f.div (.finite 0) = .negInf ∨ f.div (.finite 0) = .nan)) := by
  refine ⟨?_, rfl, ?_, ?_, ?_, ?_⟩
  · simp [valAdd, checkedI64, i64Max, i64Min]
  · intro x; simp [valDiv, checkedDivI64]
  · intro x; simp [valRem, checkedRemI64]
  · intro f g; exact ⟨f.add g, rfl⟩
  · intro f
    refine ⟨rfl, ?_⟩
    cases f with
    | finite q =>
      by_cases h0 : q = 0
      · simp [FloatVal.div, h0]
      · by_cases hp : 0 < q <;> simp [FloatVal.div, h0, hp]
    | inf => simp [FloatVal.div]
    | negInf => simp [FloatVal.div]
    | nan => simp [FloatVal.div]

/-! ## C9: the two engines agree on the shared instruction subset -/

theorem execOldInstr_eq (p : OldProgram) (d : OldDefn) (s : EvalState)
    (i : OldInstr) (hi : i.shared = true) :
    execOldInstr p d s i = execInstr p.toNew d.toNew s i.toNew := by
  cases i with
  | Const a k => rfl
  | Copy a b => rfl
  | Add a b c => rfl
  | Sub a b c => rfl
  | Mul a b c => rfl
  | Div a b c => rfl
  | Rem a b c => rfl
  | IdxTup a t j => rfl
  | Return oa => rfl
  | Read a => rfl
  | Write a => rfl
  | MkTup a b c => simp [OldInstr.shared] at hi
  | Call a f c =>
    simp only [execOldInstr, execInstr, OldInstr.toNew, OldProgram.toNew, List.get?_map]
    rcases hf : p.defns.get? f with _ | nd
    · rfl
    · rfl
  | Jump off =>
    have h : 0 ≤ off := by simpa [OldInstr.shared] using hi
    simp only [execOldInstr, execInstr, OldInstr.toNew]
    rcases lt_or_eq_of_le h with hp | hp
    · simp [oldJump, sumIdx, h, hp]
    · simp [oldJump, sumIdx, ← hp]
  | CondJump a b c =>
    obtain ⟨hb, hc⟩ : 0 ≤ b ∧ 0 ≤ c := by simpa [OldInstr.shared] using hi
    simp only [execOldInstr, execInstr, OldInstr.toNew]
    rcases readReg s.locals a with _ | v
    · rfl
    · match v with
      | .B true =>
        rcases lt_or_eq_of_le hb with hp | hp
        · simp [oldJump, sumIdx, hb, hp]
        · simp [oldJump, sumIdx, ← hp]
      | .B false =>
        rcases lt_or_eq_of_le hc with hp | hp
        · simp [oldJump, sumIdx, hc, hp]
        · simp [oldJump, sumIdx, ← hp]
      | .I _ => rfl
      | .F _ => rfl
      | .T _ => rfl
      | .C _ => rfl

theorem toNew_defns_get? (p : OldProgram) (n : Nat) :
    p.toNew.defns.get? n = (p.defns.get? n).map OldDefn.toNew :=
  List.get?_map OldDefn.toNew p.defns n

theorem toNew_code_get? (d : OldDefn) (n : Nat) :
    d.toNew.code.get? n = (d.code.get? n).map OldInstr.toNew :=
  List.get?_map OldInstr.toNew d.code n

theorem oldStep_eq (p : OldProgram) (hp : p.shared) (s : EvalState) :
    oldStep p s = step p.toNew s := by
  unfold oldStep step
  rw [toNew_defns_get?]
  rcases hd : p.defns.get? s.fn' with _ | d
  · rfl
  · show (match d.code.get? s.iptr with
      | none => returnStep s (.T [])
      | some i => execOldInstr p d s i) =
    (match d.toNew.code.get? s.iptr with
      | none => returnStep s (.T [])
      | some i => execInstr p.toNew d.toNew s i)
    rw [toNew_code_get?]
    rcases hi : d.code.get? s.iptr with _ | i
    · rfl
    · exact execOldInstr_eq p d s i
        (hp d (List.get?_mem hd) i (List.get?_mem hi))

theorem evalOldLoop_eq (p : OldProgram) (hp : p.shared) :
    ∀ fuel s, evalOldLoop p fuel s = evalLoop p.toNew fuel s
  | 0, _ => rfl
  | fuel + 1, s => by
    simp only [evalOldLoop, evalLoop, oldStep_eq p hp s]
    cases step p.toNew s with
    | stop r out => rfl
    | cont s' => exact evalOldLoop_eq p hp fuel s'

/-- C9: on every program built only from the instructions the two engines
share with identical meaning — everything except `MkTup`, with
`Jump`/`CondJump` restricted to non-negative offsets — the crate-root
engine of `src/lib.rs` and the engine of `src/bytecode/mod.rs` produce the
same outcome (value, error or panic) and the same output bytes, for every
input and every fuel bound. -/
theorem C9_old_new_agree (p : OldProgram) (hp : p.shared) (fuel : Nat)
    (inp : List Nat) :
    p.evalFuel fuel inp = p.toNew.evalFuel fuel inp := by
  unfold OldProgram.evalFuel Program.evalFuel
  rcases hd : p.defns.get? p.entry_point with _ | d
  · have h1 : oldInitState p inp = none := by
      unfold oldInitState; rw [hd]; rfl
    have h2 : initState p.toNew inp = none := by
      unfold initState
      rw [show p.toNew.entry_point = p.entry_point from rfl, toNew_defns_get?, hd]
      rfl
    rw [h1, h2]
  · have h1 : oldInitState p inp = some
        ⟨[], p.entry_point, List.replicate d.local_count (.I 0), 0, inp, []⟩ := by
      unfold oldInitState; rw [hd]; rfl
    have h2 : initState p.toNew inp = some
        ⟨[], p.entry_point, List.replicate d.local_count (.I 0), 0, inp, []⟩ := by
      unfold initState
      rw [show p.toNew.entry_point = p.entry_point from rfl, toNew_defns_get?, hd]
      rfl
    rw [h1, h2]
    exact evalOldLoop_eq p hp fuel _

/-- The repository's `io` test program, entirely within the shared subset. -/
def c9Prog : OldProgram :=
  ⟨[⟨[], [.Read 0, .Read 1, .Add 1 1 1, .Write 1, .Write 0], 2⟩], 0⟩

/-- Witness for `C9_old_new_agree` on the `io` test program and its input. -/
theorem C9_old_new_agree_witness :
    c9Prog.evalFuel 10 [13, 2] = c9Prog.toNew.evalFuel 10 [13, 2] :=
  C9_old_new_agree c9Prog (by unfold OldProgram.shared c9Prog; decide) 10 [13, 2]

/-! ## Register-allocator invariants (claims C8, C10) -/

/-- The allocator invariant of the claims: at most as many declared
variables as the free-register cursor, cursor at most the high-water mark,
and every variable's register below the high-water mark. -/
def InvB (ctx : FunctionCtx) : Prop :=
  ctx.vars.length ≤ ctx.free_reg ∧ ctx.free_reg ≤ ctx.max_reg ∧
  ∀ pr ∈ ctx.vars, pr.2 < ctx.max_reg

/-- Every declared variable's register lies below `vars.len()` — the state
of affairs `pop_tmp`'s "variables are never scratch" test assumes.  It
holds whenever no name was declared twice. -/
def VarsExact (ctx : FunctionCtx) : Prop :=
  ∀ pr ∈ ctx.vars, pr.2 < ctx.vars.length

/-- Is the expression a bare variable reference (the one case in which
`compile_expr` allocates nothing)? -/
def isVarE : Expr → Bool
  | .Var _ => true
  | _ => false

theorem pushTmp_spec {ctx : FunctionCtx} {r : Nat} {ctx' : FunctionCtx}
    (h : pushTmp ctx = some (r, ctx')) :
    r = ctx.free_reg ∧ ctx'.free_reg = ctx.free_reg + 1 ∧
    ctx'.vars = ctx.vars ∧ ctx'.consts = ctx.consts ∧
    ctx.max_reg ≤ ctx'.max_reg ∧ ctx'.free_reg ≤ ctx'.max_reg ∧
    r < ctx'.max_reg := by
  unfold pushTmp at h
  split at h
  · simp only [Option.some.injEq, Prod.mk.injEq] at h
    obtain ⟨hr, hc⟩ := h
    subst hr
    subst hc
    refine ⟨rfl, rfl, rfl, rfl, ?_, ?_, ?_⟩ <;> dsimp only <;> split <;> omega
  · exact absurd h (by simp)

theorem pushTmp_invB {ctx : FunctionCtx} {r : Nat} {ctx' : FunctionCtx}
    (h : pushTmp ctx = some (r, ctx')) (hI : InvB ctx) : InvB ctx' := by
  obtain ⟨_, hf, hv, _, hm, hfm, _⟩ := pushTmp_spec h
  exact ⟨by rw [hv, hf]; exact Nat.le_succ_of_le hI.1, hfm,
    fun pr hpr => lt_of_lt_of_le (hI.2.2 pr (hv ▸ hpr)) hm⟩

theorem popTmp_spec {ctx : FunctionCtx} {a : Nat} {ctx' : FunctionCtx}
    (h : popTmp ctx a = some ctx') :
    ctx'.vars = ctx.vars ∧ ctx'.consts = ctx.consts ∧
    ctx'.max_reg = ctx.max_reg ∧ ctx'.free_reg ≤ ctx.free_reg ∧
    (ctx.vars.length ≤ ctx'.free_reg ∨ ctx'.free_reg = ctx.free_reg) := by
  unfold popTmp at h
  split at h
  · obtain rfl : ctx = ctx' := Option.some.inj h
    exact ⟨rfl, rfl, rfl, le_refl _, Or.inr rfl⟩
  · rename_i hge
    split at h
    · rename_i heq
      obtain rfl : _ = ctx' := Option.some.inj h
      exact ⟨rfl, rfl, rfl, by dsimp only; omega, Or.inl (by dsimp only; omega)⟩
    · exact absurd h (by simp)

theorem popTmp_invB {ctx : FunctionCtx} {a : Nat} {ctx' : FunctionCtx}
    (h : popTmp ctx a = some ctx') (hI : InvB ctx) : InvB ctx' := by
  obtain ⟨hv, _, hm, hf, hor⟩ := popTmp_spec h
  refine ⟨?_, by rw [hm]; exact hf.trans hI.2.1, fun pr hpr => hm ▸ hI.2.2 pr (hv ▸ hpr)⟩
  rw [hv]
  rcases hor with hor | hor
  · exact hor
  · rw [hor]; exact hI.1

/-- `pop_tmp` is a no-op below `vars.len()`. -/
theorem popTmp_noop {ctx : FunctionCtx} {a : Nat} (h : a < ctx.vars.length) :
    popTmp ctx a = some ctx := by
  unfold popTmp
  simp [h]

/-- Above `vars.len()`, `pop_tmp` demands `free_reg = addr + 1`. -/
theorem popTmp_scratch {ctx : FunctionCtx} {a : Nat} {ctx' : FunctionCtx}
    (hlen : ¬ a < ctx.vars.length) (h : popTmp ctx a = some ctx') :
    ctx.free_reg = a + 1 ∧ ctx' = { ctx with free_reg := a } := by
  unfold popTmp at h
  rw [if_neg hlen] at h
  split at h
  · exact ⟨by assumption, (Option.some.inj h).symm⟩
  · exact absurd h (by simp)

/-- `pop_tmp` at `free_reg - 1` (the usual release of the top scratch
register) always succeeds. -/
theorem popTmp_top {ctx : FunctionCtx} {a : Nat} (h : ctx.free_reg = a + 1) :
    popTmp ctx a = some (if a < ctx.vars.length then ctx else { ctx with free_reg := a }) := by
  unfold popTmp
  by_cases hlt : a < ctx.vars.length
  · rw [if_pos hlt, if_pos hlt]
  · rw [if_neg hlt, if_neg hlt, if_pos h]

theorem getConst_parts (ctx : FunctionCtx) (v : Val) :
    (getConst ctx v).2.vars = ctx.vars ∧ (getConst ctx v).2.free_reg = ctx.free_reg ∧
    (getConst ctx v).2.max_reg = ctx.max_reg := by
  unfold getConst
  rcases ctx.consts.findIdx? (fun k => valEq k v) with _ | i <;> exact ⟨rfl, rfl, rfl⟩

theorem getConst_invB {ctx : FunctionCtx} (v : Val) (hI : InvB ctx) :
    InvB (getConst ctx v).2 := by
  obtain ⟨h1, h2, h3⟩ := getConst_parts ctx v
  exact ⟨h1 ▸ h2 ▸ hI.1, h2 ▸ h3 ▸ hI.2.1, fun pr hpr => h3 ▸ hI.2.2 pr (h1 ▸ hpr)⟩

theorem varsGet?_mem {vars : List (Nat × Nat)} {n r : Nat}
    (h : varsGet? vars n = some r) : (n, r) ∈ vars := by
  induction vars with
  | nil => simp [varsGet?] at h
  | cons pr rest ih =>
    unfold varsGet? at h
    split at h
    · rename_i hq
      obtain ⟨a, b⟩ := pr
      simp only at hq
      cases hq
      cases Option.some.inj h
      exact List.mem_cons_self _ _
    · exact List.mem_cons_of_mem _ (ih h)

theorem varsInsert_length (vars : List (Nat × Nat)) (n r : Nat) :
    vars.length ≤ (varsInsert vars n r).length ∧
    (varsInsert vars n r).length ≤ vars.length + 1 := by
  induction vars with
  | nil => simp [varsInsert]
  | cons pr rest ih =>
    unfold varsInsert
    split <;> simp <;> omega

theorem varsInsert_mem {vars : List (Nat × Nat)} {n r : Nat} {pr : Nat × Nat}
    (h : pr ∈ varsInsert vars n r) : pr.2 = r ∨ pr ∈ vars := by
  induction vars with
  | nil => simp [varsInsert] at h; simp [h]
  | cons q rest ih =>
    unfold varsInsert at h
    split at h
    · rcases List.mem_cons.mp h with h | h
      · left; rw [h]
      · right; exact List.mem_cons_of_mem _ h
    · rcases List.mem_cons.mp h with h | h
      · right; rw [h]; exact List.mem_cons_self _ _
      · rcases ih h with h | h
        · exact Or.inl h
        · exact Or.inr (List.mem_cons_of_mem _ h)

theorem popAll_append (l₁ l₂ : List Nat) (ctx : FunctionCtx) :
    popAll (l₁ ++ l₂) ctx = (popAll l₁ ctx).bind (popAll l₂) := by
  induction l₁ generalizing ctx with
  | nil => rfl
  | cons a rest ih =>
    show (popTmp ctx a).bind (popAll (rest ++ l₂))
      = ((popTmp ctx a).bind (popAll rest)).bind (popAll l₂)
    rcases popTmp ctx a with _ | c
    · rfl
    · exact ih c

theorem popAll_spec {l : List Nat} {ctx ctx' : FunctionCtx}
    (h : popAll l ctx = some ctx') :
    ctx'.vars = ctx.vars ∧ ctx'.consts = ctx.consts ∧
    ctx'.max_reg = ctx.max_reg ∧ (InvB ctx → InvB ctx') := by
  induction l generalizing ctx with
  | nil => cases Option.some.inj h; exact ⟨rfl, rfl, rfl, id⟩
  | cons a rest ih =>
    have h' : (popTmp ctx a).bind (popAll rest) = some ctx' := h
    rcases hp : popTmp ctx a with _ | c
    · rw [hp] at h'; exact absurd h' (by simp)
    · rw [hp] at h'
      obtain ⟨hv, hc, hm, hI⟩ := ih h'
      obtain ⟨hv2, hc2, hm2, _, _⟩ := popTmp_spec hp
      exact ⟨hv.trans hv2, hc.trans hc2, hm.trans hm2,
        fun hb => hI (popTmp_invB hp hb)⟩

theorem varsExact_of_eq {ctx ctx' : FunctionCtx} (h : ctx'.vars = ctx.vars)
    (he : VarsExact ctx) : VarsExact ctx' := by
  intro pr hpr
  rw [h]
  exact he pr (h ▸ hpr)

/-- The conclusions of the `compile_expr` induction: variables untouched,
monotone high-water mark, invariant preservation, result register and all
emitted register operands below the final high-water mark; when every
variable register lies below `vars.len()`, the cursor moves by exactly one
for a non-variable expression and the context is unchanged for a variable
reference. -/
def ExprConc (e : Expr) (ctx : FunctionCtx) (r : Nat) (ctx' : FunctionCtx)
    (code : List AInstr) : Prop :=
  ctx'.vars = ctx.vars ∧ ctx.max_reg ≤ ctx'.max_reg ∧ InvB ctx' ∧
  r < ctx'.max_reg ∧ (∀ i ∈ code, ∀ a ∈ i.regs, a < ctx'.max_reg) ∧
  (isVarE e = true → ctx' = ctx) ∧
  (VarsExact ctx → isVarE e = true → r < ctx.vars.length) ∧
  (VarsExact ctx → isVarE e = false →
    ctx'.free_reg = ctx.free_reg + 1 ∧ r = ctx.free_reg)

/-- The conclusions of the `Mktup` element-loop induction; the last
conjunct says the reversed `pop_tmp` sweep returns the cursor to its value
before the loop. -/
def PartsConc (ps : ExprList) (ctx ctx' : FunctionCtx) (addrs : List Nat)
    (code : List AInstr) : Prop :=
  ctx'.vars = ctx.vars ∧ ctx.max_reg ≤ ctx'.max_reg ∧ InvB ctx' ∧
  (∀ a ∈ addrs, a < ctx'.max_reg) ∧
  (∀ i ∈ code, ∀ a ∈ i.regs, a < ctx'.max_reg) ∧
  (VarsExact ctx →
    ∀ ctx₂ : FunctionCtx, ctx₂.vars = ctx.vars → ctx₂.free_reg = ctx'.free_reg →
      popAll addrs.reverse ctx₂ = some { ctx₂ with free_reg := ctx.free_reg })

theorem getConst_snd {ctx : FunctionCtx} {v : Val} {k : Nat} {c2 : FunctionCtx}
    (h : getConst ctx v = (k, c2)) :
    c2.vars = ctx.vars ∧ c2.free_reg = ctx.free_reg ∧ c2.max_reg = ctx.max_reg ∧
    (InvB ctx → InvB c2) := by
  have h1 := getConst_parts ctx v
  have h2 : InvB ctx → InvB (getConst ctx v).2 := fun hI => getConst_invB v hI
  rw [h] at h1 h2
  exact ⟨h1.1, h1.2.1, h1.2.2, h2⟩

mutual
theorem compileExpr_spec : ∀ (e : Expr) (ctx : FunctionCtx) (r : Nat)
    (ctx' : FunctionCtx) (code : List AInstr), InvB ctx →
    compileExpr e ctx = some (r, ctx', code) → ExprConc e ctx r ctx' code
  | .Lit v, ctx, r, ctx', code, hI, h => by
    simp only [compileExpr] at h
    rcases hp : pushTmp ctx with _ | ⟨reg, c1⟩ <;> rw [hp] at h
    · exact Option.noConfusion h
    simp only [Option.bind_eq_bind, Option.some_bind] at h
    rcases hg : getConst c1 v with ⟨k, c2⟩
    rw [hg] at h
    simp only [Option.pure_def, Option.some.injEq, Prod.mk.injEq] at h
    obtain ⟨rfl, rfl, rfl⟩ := h
    obtain ⟨hreg, hf1, hv1, _, hm1, hfm1, hrm1⟩ := pushTmp_spec hp
    obtain ⟨gv, gf, gm, gI⟩ := getConst_snd hg
    have hI2 : InvB c2 := gI (pushTmp_invB hp hI)
    refine ⟨gv.trans hv1, hm1.trans_eq gm.symm, hI2, gm ▸ hrm1, ?_, ?_, ?_, ?_⟩
    · intro i hi a ha
      rcases List.mem_singleton.mp hi with rfl
      simp only [AInstr.regs, List.mem_singleton] at ha
      subst ha
      exact gm ▸ hrm1
    · intro hfalse; simp [isVarE] at hfalse
    · intro _ hfalse; simp [isVarE] at hfalse
    · intro _ _
      exact ⟨gf.trans hf1, hreg⟩
  | .Var n, ctx, r, ctx', code, hI, h => by
    simp only [compileExpr] at h
    rcases hv : varsGet? ctx.vars n with _ | rv <;> rw [hv] at h
    · exact Option.noConfusion h
    simp only [Option.bind_eq_bind, Option.some_bind, Option.pure_def,
      Option.some.injEq, Prod.mk.injEq] at h
    obtain ⟨rfl, rfl, rfl⟩ := h
    have hmem := varsGet?_mem hv
    refine ⟨rfl, le_refl _, hI, hI.2.2 _ hmem, by simp, fun _ => rfl, ?_, ?_⟩
    · intro hex _
      exact hex _ hmem
    · intro _ hne; simp [isVarE] at hne
  | .Unop op e, ctx, r, ctx', code, hI, h => by
    simp only [compileExpr] at h
    rcases hp : pushTmp ctx with _ | ⟨reg, c1⟩ <;> rw [hp] at h
    · exact Option.noConfusion h
    simp only [Option.bind_eq_bind, Option.some_bind] at h
    rcases he : compileExpr e c1 with _ | ⟨ad, c2, acode⟩ <;> rw [he] at h
    · exact Option.noConfusion h
    simp only [Option.bind_eq_bind, Option.some_bind] at h
    rcases hq : popTmp c2 ad with _ | c3 <;> rw [hq] at h
    · exact Option.noConfusion h
    simp only [Option.bind_eq_bind, Option.some_bind, Option.pure_def,
      Option.some.injEq, Prod.mk.injEq] at h
    obtain ⟨rfl, rfl, rfl⟩ := h
    obtain ⟨hreg, hf1, hv1, _, hm1, hfm1, hrm1⟩ := pushTmp_spec hp
    have hI1 := pushTmp_invB hp hI
    obtain ⟨ev, em, eI, erm, ecode, evar, evlt, edelta⟩ :=
      compileExpr_spec e c1 ad c2 acode hI1 he
    obtain ⟨pv, pc, pm, pf, _⟩ := popTmp_spec hq
    have hI3 : InvB c3 := popTmp_invB hq eI
    have hvars : c3.vars = ctx.vars := pv.trans (ev.trans hv1)
    have hmax : ctx.max_reg ≤ c3.max_reg := (hm1.trans em).trans_eq pm.symm
    refine ⟨hvars, hmax, hI3, pm ▸ lt_of_lt_of_le hrm1 em, ?_, ?_, ?_, ?_⟩
    · intro i hi a ha
      rcases List.mem_append.mp hi with hi | hi
      · exact pm ▸ ecode i hi a ha
      · rcases List.mem_singleton.mp hi with rfl
        cases op <;> simp only [AInstr.regs, List.mem_cons, List.mem_singleton,
          List.not_mem_nil, or_false] at ha <;> rcases ha with rfl | rfl
        · exact pm ▸ lt_of_lt_of_le hrm1 em
        · exact pm ▸ erm
        · exact pm ▸ lt_of_lt_of_le hrm1 em
        · exact pm ▸ erm
    · intro hfalse; simp [isVarE] at hfalse
    · intro _ hfalse; simp [isVarE] at hfalse
    · intro hex _
      have hex1 : VarsExact c1 := varsExact_of_eq hv1 hex
      refine ⟨?_, hreg⟩
      by_cases hv : isVarE e = true
      case pos =>
        have e2 : c2 = c1 := evar hv
        have hlt : ad < c2.vars.length := by
          rw [e2]
          exact evlt hex1 hv
        have e3 : c3 = c2 := by
          rw [popTmp_noop hlt] at hq
          exact (Option.some.inj hq).symm
        rw [e3, e2, hf1]
      case neg =>
        obtain ⟨ef, ead⟩ := edelta hex1 (by simpa using hv)
        have hge : ¬ ad < c2.vars.length := by
          rw [ev, hv1, ead]
          have hle : ctx.vars.length ≤ c1.free_reg := hv1 ▸ hI1.1
          omega
        obtain ⟨_, e3⟩ := popTmp_scratch hge hq
        rw [e3]
        dsimp only
        rw [ead, hf1]
  | .Binop op l r0, ctx, r, ctx', code, hI, h => by
    simp only [compileExpr] at h
    rcases hp : pushTmp ctx with _ | ⟨reg, c1⟩ <;> rw [hp] at h
    · exact Option.noConfusion h
    simp only [Option.bind_eq_bind, Option.some_bind] at h
    rcases hl : compileExpr l c1 with _ | ⟨ld, c2, lcode⟩ <;> rw [hl] at h
    · exact Option.noConfusion h
    simp only [Option.bind_eq_bind, Option.some_bind] at h
    rcases hr : compileExpr r0 c2 with _ | ⟨rd, c3, rcode⟩ <;> rw [hr] at h
    · exact Option.noConfusion h
    simp only [Option.bind_eq_bind, Option.some_bind] at h
    rcases hq1 : popTmp c3 rd with _ | c4 <;> rw [hq1] at h
    · exact Option.noConfusion h
    simp only [Option.bind_eq_bind, Option.some_bind] at h
    rcases hq2 : popTmp c4 ld with _ | c5 <;> rw [hq2] at h
    · exact Option.noConfusion h
    simp only [Option.bind_eq_bind, Option.some_bind, Option.pure_def,
      Option.some.injEq, Prod.mk.injEq] at h
    obtain ⟨rfl, rfl, rfl⟩ := h
    obtain ⟨hreg, hf1, hv1, _, hm1, hfm1, hrm1⟩ := pushTmp_spec hp
    have hI1 := pushTmp_invB hp hI
    obtain ⟨lv, lm, lI, lrm, lcodeB, lvar, lvlt, ldelta⟩ :=
      compileExpr_spec l c1 ld c2 lcode hI1 hl
    obtain ⟨rv, rm, rI, rrm, rcodeB, rvar, rvlt, rdelta⟩ :=
      compileExpr_spec r0 c2 rd c3 rcode lI hr
    obtain ⟨p1v, _, p1m, _, _⟩ := popTmp_spec hq1
    obtain ⟨p2v, _, p2m, _, _⟩ := popTmp_spec hq2
    have hI5 : InvB c5 := popTmp_invB hq2 (popTmp_invB hq1 rI)
    have hvars : c5.vars = ctx.vars := p2v.trans (p1v.trans (rv.trans (lv.trans hv1)))
    have hmaxeq : c5.max_reg = c3.max_reg := p2m.trans p1m
    have hmax : ctx.max_reg ≤ c5.max_reg := by
      rw [hmaxeq]; exact hm1.trans (lm.trans rm)
    refine ⟨hvars, hmax, hI5, ?_, ?_, ?_, ?_, ?_⟩
    · rw [hmaxeq]; exact lt_of_lt_of_le hrm1 (lm.trans rm)
    · intro i hi a ha
      rw [hmaxeq]
      rcases List.mem_append.mp hi with hi | hi
      · rcases List.mem_append.mp hi with hi | hi
        · exact lt_of_lt_of_le (lcodeB i hi a ha) rm
        · exact rcodeB i hi a ha
      · rcases List.mem_singleton.mp hi with rfl
        have hregs : (AInstr.bc (binopInstr op reg ld rd)).regs = [reg, ld, rd] := by
          cases op <;> rfl
        rw [hregs] at ha
        simp only [List.mem_cons, List.not_mem_nil, or_false] at ha
        rcases ha with rfl | rfl | rfl
        · exact lt_of_lt_of_le hrm1 (lm.trans rm)
        · exact lt_of_lt_of_le lrm rm
        · exact rrm
    · intro hfalse; simp [isVarE] at hfalse
    · intro _ hfalse; simp [isVarE] at hfalse
    · intro hex _
      have hex1 : VarsExact c1 := varsExact_of_eq hv1 hex
      have hex2 : VarsExact c2 := varsExact_of_eq (lv.trans hv1) hex
      have hlen2 : c2.vars.length = ctx.vars.length := by rw [lv, hv1]
      have hlen3 : c3.vars.length = ctx.vars.length := by rw [rv, lv, hv1]
      refine ⟨?_, hreg⟩
      by_cases hvl : isVarE l = true
      case pos =>
        have e2 : c2 = c1 := lvar hvl
        have hldlt3 : ld < c3.vars.length := by
          rw [hlen3]
          have := lvlt hex1 hvl
          rwa [hv1] at this
        by_cases hvr : isVarE r0 = true
        case pos =>
          have e3 : c3 = c2 := rvar hvr
          have hrdlt : rd < c3.vars.length := by
            rw [hlen3]
            have := rvlt hex2 hvr
            rwa [hlen2] at this
          have e4 : c4 = c3 := by
            rw [popTmp_noop hrdlt] at hq1
            exact (Option.some.inj hq1).symm
          have hldlt4 : ld < c4.vars.length := by rw [e4]; exact hldlt3
          have e5 : c5 = c4 := by
            rw [popTmp_noop hldlt4] at hq2
            exact (Option.some.inj hq2).symm
          rw [e5, e4, e3, e2, hf1]
        case neg =>
          obtain ⟨rf, rrd⟩ := rdelta hex2 (by simpa using hvr)
          have hge : ¬ rd < c3.vars.length := by
            rw [hlen3, rrd]
            have hle : ctx.vars.length ≤ c2.free_reg := hlen2 ▸ lI.1
            omega
          obtain ⟨_, e4⟩ := popTmp_scratch hge hq1
          have hldlt4 : ld < c4.vars.length := by
            rw [e4]
            dsimp only
            exact hldlt3
          have e5 : c5 = c4 := by
            rw [popTmp_noop hldlt4] at hq2
            exact (Option.some.inj hq2).symm
          rw [e5, e4]
          dsimp only
          rw [rrd, e2, hf1]
      case neg =>
        obtain ⟨lf, lld⟩ := ldelta hex1 (by simpa using hvl)
        have hldge : ctx.vars.length ≤ ld := by
          rw [lld]
          exact (hv1 ▸ hI1.1 : ctx.vars.length ≤ c1.free_reg)
        by_cases hvr : isVarE r0 = true
        case pos =>
          have e3 : c3 = c2 := rvar hvr
          have hrdlt : rd < c3.vars.length := by
            rw [hlen3]
            have := rvlt hex2 hvr
            rwa [hlen2] at this
          have e4 : c4 = c3 := by
            rw [popTmp_noop hrdlt] at hq1
            exact (Option.some.inj hq1).symm
          have hldge4 : ¬ ld < c4.vars.length := by
            rw [e4, hlen3]; omega
          obtain ⟨hfr, e5⟩ := popTmp_scratch hldge4 hq2
          rw [e5]
          dsimp only
          rw [lld, hf1]
        case neg =>
          obtain ⟨rf, rrd⟩ := rdelta hex2 (by simpa using hvr)
          have hge : ¬ rd < c3.vars.length := by
            rw [hlen3, rrd]
            have hle : ctx.vars.length ≤ c2.free_reg := hlen2 ▸ lI.1
            omega
          obtain ⟨_, e4⟩ := popTmp_scratch hge hq1
          have hldge4 : ¬ ld < c4.vars.length := by
            rw [e4]
            dsimp only
            rw [hlen3]; omega
          obtain ⟨hfr, e5⟩ := popTmp_scratch hldge4 hq2
          rw [e5, e4]
          dsimp only
          rw [lld, hf1]
  | .Call f args, ctx, r, ctx', code, hI, h => by
    simp only [compileExpr] at h
    exact Option.noConfusion h
  | .Index t i0, ctx, r, ctx', code, hI, h => by
    simp only [compileExpr] at h
    rcases hp : pushTmp ctx with _ | ⟨reg, c1⟩ <;> rw [hp] at h
    · exact Option.noConfusion h
    simp only [Option.bind_eq_bind, Option.some_bind] at h
    rcases hl : compileExpr t c1 with _ | ⟨ld, c2, lcode⟩ <;> rw [hl] at h
    · exact Option.noConfusion h
    simp only [Option.bind_eq_bind, Option.some_bind] at h
    rcases hr : compileExpr i0 c2 with _ | ⟨rd, c3, rcode⟩ <;> rw [hr] at h
    · exact Option.noConfusion h
    simp only [Option.bind_eq_bind, Option.some_bind] at h
    rcases hq1 : popTmp c3 rd with _ | c4 <;> rw [hq1] at h
    · exact Option.noConfusion h
    simp only [Option.bind_eq_bind, Option.some_bind] at h
    rcases hq2 : popTmp c4 ld with _ | c5 <;> rw [hq2] at h
    · exact Option.noConfusion h
    simp only [Option.bind_eq_bind, Option.some_bind, Option.pure_def,
      Option.some.injEq, Prod.mk.injEq] at h
    obtain ⟨rfl, rfl, rfl⟩ := h
    obtain ⟨hreg, hf1, hv1, _, hm1, hfm1, hrm1⟩ := pushTmp_spec hp
    have hI1 := pushTmp_invB hp hI
    obtain ⟨lv, lm, lI, lrm, lcodeB, lvar, lvlt, ldelta⟩ :=
      compileExpr_spec t c1 ld c2 lcode hI1 hl
    obtain ⟨rv, rm, rI, rrm, rcodeB, rvar, rvlt, rdelta⟩ :=
      compileExpr_spec i0 c2 rd c3 rcode lI hr
    obtain ⟨p1v, _, p1m, _, _⟩ := popTmp_spec hq1
    obtain ⟨p2v, _, p2m, _, _⟩ := popTmp_spec hq2
    have hI5 : InvB c5 := popTmp_invB hq2 (popTmp_invB hq1 rI)
    have hvars : c5.vars = ctx.vars := p2v.trans (p1v.trans (rv.trans (lv.trans hv1)))
    have hmaxeq : c5.max_reg = c3.max_reg := p2m.trans p1m
    have hmax : ctx.max_reg ≤ c5.max_reg := by
      rw [hmaxeq]; exact hm1.trans (lm.trans rm)
    refine ⟨hvars, hmax, hI5, ?_, ?_, ?_, ?_, ?_⟩
    · rw [hmaxeq]; exact lt_of_lt_of_le hrm1 (lm.trans rm)
    · intro i hi a ha
      rw [hmaxeq]
      rcases List.mem_append.mp hi with hi | hi
      · rcases List.mem_append.mp hi with hi | hi
        · exact lt_of_lt_of_le (lcodeB i hi a ha) rm
        · exact rcodeB i hi a ha
      · rcases List.mem_singleton.mp hi with rfl
        simp only [AInstr.regs, List.mem_cons, List.not_mem_nil, or_false] at ha
        rcases ha with rfl | rfl | rfl
        · exact lt_of_lt_of_le hrm1 (lm.trans rm)
        · exact lt_of_lt_of_le lrm rm
        · exact rrm
    · intro hfalse; simp [isVarE] at hfalse
    · intro _ hfalse; simp [isVarE] at hfalse
    · intro hex _
      have hex1 : VarsExact c1 := varsExact_of_eq hv1 hex
      have hex2 : VarsExact c2 := varsExact_of_eq (lv.trans hv1) hex
      have hlen2 : c2.vars.length = ctx.vars.length := by rw [lv, hv1]
      have hlen3 : c3.vars.length = ctx.vars.length := by rw [rv, lv, hv1]
      refine ⟨?_, hreg⟩
      by_cases hvl : isVarE t = true
      case pos =>
        have e2 : c2 = c1 := lvar hvl
        have hldlt3 : ld < c3.vars.length := by
          rw [hlen3]
          have := lvlt hex1 hvl
          rwa [hv1] at this
        by_cases hvr : isVarE i0 = true
        case pos =>
          have e3 : c3 = c2 := rvar hvr
          have hrdlt : rd < c3.vars.length := by
            rw [hlen3]
            have := rvlt hex2 hvr
            rwa [hlen2] at this
          have e4 : c4 = c3 := by
            rw [popTmp_noop hrdlt] at hq1
            exact (Option.some.inj hq1).symm
          have hldlt4 : ld < c4.vars.length := by rw [e4]; exact hldlt3
          have e5 : c5 = c4 := by
            rw [popTmp_noop hldlt4] at hq2
            exact (Option.some.inj hq2).symm
          rw [e5, e4, e3, e2, hf1]
        case neg =>
          obtain ⟨rf, rrd⟩ := rdelta hex2 (by simpa using hvr)
          have hge : ¬ rd < c3.vars.length := by
            rw [hlen3, rrd]
            have hle : ctx.vars.length ≤ c2.free_reg := hlen2 ▸ lI.1
            omega
          obtain ⟨_, e4⟩ := popTmp_scratch hge hq1
          have hldlt4 : ld < c4.vars.length := by
            rw [e4]
            dsimp only
            exact hldlt3
          have e5 : c5 = c4 := by
            rw [popTmp_noop hldlt4] at hq2
            exact (Option.some.inj hq2).symm
          rw [e5, e4]
          dsimp only
          rw [rrd, e2, hf1]
      case neg =>
        obtain ⟨lf, lld⟩ := ldelta hex1 (by simpa using hvl)
        have hldge : ctx.vars.length ≤ ld := by
          rw [lld]
          exact (hv1 ▸ hI1.1 : ctx.vars.length ≤ c1.free_reg)
        by_cases hvr : isVarE i0 = true
        case pos =>
          have e3 : c3 = c2 := rvar hvr
          have hrdlt : rd < c3.vars.length := by
            rw [hlen3]
            have := rvlt hex2 hvr
            rwa [hlen2] at this
          have e4 : c4 = c3 := by
            rw [popTmp_noop hrdlt] at hq1
            exact (Option.some.inj hq1).symm
          have hldge4 : ¬ ld < c4.vars.length := by
            rw [e4, hlen3]; omega
          obtain ⟨hfr, e5⟩ := popTmp_scratch hldge4 hq2
          rw [e5]
          dsimp only
          rw [lld, hf1]
        case neg =>
          obtain ⟨rf, rrd⟩ := rdelta hex2 (by simpa using hvr)
          have hge : ¬ rd < c3.vars.length := by
            rw [hlen3, rrd]
            have hle : ctx.vars.length ≤ c2.free_reg := hlen2 ▸ lI.1
            omega
          obtain ⟨_, e4⟩ := popTmp_scratch hge hq1
          have hldge4 : ¬ ld < c4.vars.length := by
            rw [e4]
            dsimp only
            rw [hlen3]; omega
          obtain ⟨hfr, e5⟩ := popTmp_scratch hldge4 hq2
          rw [e5, e4]
          dsimp only
          rw [lld, hf1]
  | .Mktup parts, ctx, r, ctx', code, hI, h => by
    simp only [compileExpr] at h
    rcases hp : pushTmp ctx with _ | ⟨reg, c1⟩ <;> rw [hp] at h
    · exact Option.noConfusion h
    simp only [Option.bind_eq_bind, Option.some_bind] at h
    rcases hps : compileParts parts c1 with _ | ⟨cq, addrs, codeP⟩ <;> rw [hps] at h
    · exact Option.noConfusion h
    simp only [Option.bind_eq_bind, Option.some_bind] at h
    rcases hpop : popAllRev addrs cq with _ | cR <;> rw [hpop] at h
    · exact Option.noConfusion h
    simp only [Option.bind_eq_bind, Option.some_bind, Option.pure_def,
      Option.some.injEq, Prod.mk.injEq] at h
    obtain ⟨rfl, rfl, rfl⟩ := h
    obtain ⟨hreg, hf1, hv1, _, hm1, hfm1, hrm1⟩ := pushTmp_spec hp
    have hI1 := pushTmp_invB hp hI
    obtain ⟨qv, qm, qI, qaddrs, qcode, qpop⟩ :=
      compileParts_spec parts c1 cq addrs codeP hI1 hps
    obtain ⟨Rv, _, Rm, RI⟩ := popAll_spec (hpop : popAll addrs.reverse cq = some cR)
    have hvars : cR.vars = ctx.vars := Rv.trans (qv.trans hv1)
    have hmax : ctx.max_reg ≤ cR.max_reg := Rm ▸ hm1.trans qm
    refine ⟨hvars, hmax, RI qI, Rm ▸ lt_of_lt_of_le hrm1 qm, ?_, ?_, ?_, ?_⟩
    · intro i hi a ha
      rw [Rm]
      rcases List.mem_append.mp hi with hi | hi
      · exact qcode i hi a ha
      · rcases List.mem_singleton.mp hi with rfl
        simp only [AInstr.regs, List.mem_cons, List.not_mem_nil, or_false] at ha
        rcases ha with rfl | rfl
        · exact lt_of_lt_of_le hrm1 qm
        · cases addrs with
          | nil =>
            show (0 : Nat) < cq.max_reg
            have h1 : c1.free_reg ≤ c1.max_reg := hfm1
            have h2 : 0 < c1.free_reg := hf1 ▸ Nat.succ_pos _
            have h3 : c1.max_reg ≤ cq.max_reg := qm
            omega
          | cons a0 rest =>
            exact qaddrs a0 (List.mem_cons_self _ _)
    · intro hfalse; simp [isVarE] at hfalse
    · intro _ hfalse; simp [isVarE] at hfalse
    · intro hex _
      have hex1 : VarsExact c1 := varsExact_of_eq hv1 hex
      have hpop2 := qpop hex1 cq qv rfl
      rw [show popAll addrs.reverse cq = popAllRev addrs cq from rfl, hpop] at hpop2
      cases Option.some.inj hpop2
      exact ⟨hf1, hreg⟩

theorem compileParts_spec : ∀ (ps : ExprList) (ctx ctx' : FunctionCtx)
    (addrs : List Nat) (code : List AInstr), InvB ctx →
    compileParts ps ctx = some (ctx', addrs, code) → PartsConc ps ctx ctx' addrs code
  | .nil, ctx, ctx', addrs, code, hI, h => by
    simp only [compileParts, Option.some.injEq, Prod.mk.injEq] at h
    obtain ⟨rfl, rfl, rfl⟩ := h
    refine ⟨rfl, le_refl _, hI, by simp, by simp, ?_⟩
    intro _ ctx₂ hvars hfree
    show some ctx₂ = _
    congr 1
    cases ctx₂
    simp_all
  | .cons e tl, ctx, ctx', addrs, code, hI, h => by
    simp only [compileParts] at h
    rcases he : compileExpr e ctx with _ | ⟨d, cE, c⟩ <;> rw [he] at h
    · exact Option.noConfusion h
    simp only [Option.bind_eq_bind, Option.some_bind] at h
    rcases htl : compileParts tl cE with _ | ⟨cq, ds, cs⟩ <;> rw [htl] at h
    · exact Option.noConfusion h
    simp only [Option.bind_eq_bind, Option.some_bind, Option.pure_def,
      Option.some.injEq, Prod.mk.injEq] at h
    obtain ⟨rfl, rfl, rfl⟩ := h
    obtain ⟨ev, em, eI, erm, ecode, evar, evlt, edelta⟩ :=
      compileExpr_spec e ctx d cE c hI he
    obtain ⟨qv, qm, qI, qaddrs, qcode, qpop⟩ :=
      compileParts_spec tl cE cq ds cs eI htl
    have hvars : cq.vars = ctx.vars := qv.trans ev
    refine ⟨hvars, em.trans qm, qI, ?_, ?_, ?_⟩
    · intro a ha
      rcases List.mem_cons.mp ha with rfl | ha
      · exact lt_of_lt_of_le erm qm
      · exact qaddrs a ha
    · intro i hi a ha
      rcases List.mem_append.mp hi with hi | hi
      · exact lt_of_lt_of_le (ecode i hi a ha) qm
      · exact qcode i hi a ha
    · intro hex ctx₂ h₂v h₂f
      have hexE : VarsExact cE := varsExact_of_eq ev hex
      have hmid := qpop hexE ctx₂ (h₂v.trans ev.symm) h₂f
      show popAll ((d :: ds).reverse) ctx₂ = _
      rw [List.reverse_cons, popAll_append, hmid]
      by_cases hv : isVarE e = true
      · have eE : cE = ctx := evar hv
        have hdlt : d < ({ ctx₂ with free_reg := cE.free_reg } : FunctionCtx).vars.length := by
          dsimp only
          rw [h₂v]
          exact evlt hex hv
        show (popTmp _ d).bind _ = _
        rw [popTmp_noop hdlt]
        show some _ = _
        rw [eE]
      · obtain ⟨ef, ed⟩ := edelta hex (by simpa using hv)
        have hfr : ({ ctx₂ with free_reg := cE.free_reg } : FunctionCtx).free_reg = d + 1 := by
          dsimp only
          rw [ef, ed]
        have hdge : ¬ d < ({ ctx₂ with free_reg := cE.free_reg } : FunctionCtx).vars.length := by
          dsimp only
          rw [h₂v, ed]
          have hle := hI.1
          omega
        show (popTmp _ d).bind _ = _
        rw [popTmp_top hfr, if_neg hdge]
        show some _ = _
        congr 1
        dsimp only
        rw [ed]
end

mutual
/-- Does the statement declare a variable anywhere inside itself? -/
def NoDecl : Stmt → Bool
  | .Declare _ => false
  | .If _ t f => NoDeclList t && NoDeclList f
  | .While _ body => NoDeclList body
  | _ => true

/-- `NoDecl` over a statement list. -/
def NoDeclList : StmtList → Bool
  | .nil => true
  | .cons s tl => NoDecl s && NoDeclList tl
end

/-- The conclusions of the `compile_stmt` induction: monotone high-water
mark, invariant preservation, emitted register operands below the final
high-water mark, and — when variable registers lie below `vars.len()` and
the statement declares nothing — restoration of the cursor and the
variable map. -/
def StmtConc (st : Stmt) (ctx ctx' : FunctionCtx) (code : List AInstr) : Prop :=
  ctx.max_reg ≤ ctx'.max_reg ∧ InvB ctx' ∧
  (∀ i ∈ code, ∀ a ∈ i.regs, a < ctx'.max_reg) ∧
  (VarsExact ctx → NoDecl st = true →
    ctx'.free_reg = ctx.free_reg ∧ ctx'.vars = ctx.vars)

/-- `StmtConc` over a statement list. -/
def ListConc (sl : StmtList) (ctx ctx' : FunctionCtx) (code : List AInstr) : Prop :=
  ctx.max_reg ≤ ctx'.max_reg ∧ InvB ctx' ∧
  (∀ i ∈ code, ∀ a ∈ i.regs, a < ctx'.max_reg) ∧
  (VarsExact ctx → NoDeclList sl = true →
    ctx'.free_reg = ctx.free_reg ∧ ctx'.vars = ctx.vars)

/-- The cursor/vars effect of compiling one expression and then releasing
its result register — the shared tail of `RawExpr`, `Assign` and the `If`
condition. -/
theorem expr_then_pop {e : Expr} {ctx cE c2 : FunctionCtx} {r : Nat}
    {code : List AInstr} (hI : InvB ctx)
    (he : compileExpr e ctx = some (r, cE, code))
    (hq : popTmp cE r = some c2) (hex : VarsExact ctx) :
    c2.free_reg = ctx.free_reg ∧ c2.vars = ctx.vars := by
  obtain ⟨ev, em, eI, erm, ecode, evar, evlt, edelta⟩ := compileExpr_spec e ctx r cE code hI he
  by_cases hv : isVarE e = true
  · have eE : cE = ctx := evar hv
    have hlt : r < cE.vars.length := by
      rw [eE]
      exact evlt hex hv
    rw [popTmp_noop hlt] at hq
    obtain rfl := Option.some.inj hq
    rw [eE]
    exact ⟨rfl, rfl⟩
  · obtain ⟨ef, er⟩ := edelta hex (by simpa using hv)
    have hge : ¬ r < cE.vars.length := by
      rw [ev, er]
      have := hI.1
      omega
    obtain ⟨_, e2⟩ := popTmp_scratch hge hq
    rw [e2]
    exact ⟨er.symm ▸ rfl, ev⟩

mutual
theorem compileStmt_spec : ∀ (st : Stmt) (ctx ctx' : FunctionCtx)
    (code : List AInstr), InvB ctx →
    compileStmt st ctx = some (ctx', code) → StmtConc st ctx ctx' code
  | .Declare n, ctx, ctx', code, hI, h => by
    simp only [compileStmt] at h
    rcases hp : pushTmp ctx with _ | ⟨reg, c1⟩ <;> rw [hp] at h
    · exact Option.noConfusion h
    simp only [Option.bind_eq_bind, Option.some_bind, Option.pure_def,
      Option.some.injEq, Prod.mk.injEq] at h
    obtain ⟨rfl, rfl⟩ := h
    obtain ⟨hreg, hf1, hv1, _, hm1, hfm1, hrm1⟩ := pushTmp_spec hp
    refine ⟨hm1, ⟨?_, hfm1, ?_⟩, by simp, ?_⟩
    · show (varsInsert c1.vars n reg).length ≤ c1.free_reg
      have h1 := (varsInsert_length c1.vars n reg).2
      have h2 : c1.vars.length ≤ ctx.free_reg := hv1 ▸ hI.1
      omega
    · intro pr hpr
      rcases varsInsert_mem hpr with h2 | h2
      · rw [h2]
        exact hrm1
      · exact lt_of_lt_of_le (hI.2.2 pr (hv1 ▸ h2)) hm1
    · intro _ hfalse; simp [NoDecl] at hfalse
  | .RawExpr e, ctx, ctx', code, hI, h => by
    simp only [compileStmt] at h
    rcases he : compileExpr e ctx with _ | ⟨r, cE, cd⟩ <;> rw [he] at h
    · exact Option.noConfusion h
    simp only [Option.bind_eq_bind, Option.some_bind] at h
    rcases hq : popTmp cE r with _ | c2 <;> rw [hq] at h
    · exact Option.noConfusion h
    simp only [Option.bind_eq_bind, Option.some_bind, Option.pure_def,
      Option.some.injEq, Prod.mk.injEq] at h
    obtain ⟨rfl, rfl⟩ := h
    obtain ⟨ev, em, eI, erm, ecode, evar, evlt, edelta⟩ :=
      compileExpr_spec e ctx r cE cd hI he
    obtain ⟨pv, _, pm, _, _⟩ := popTmp_spec hq
    refine ⟨em.trans_eq pm.symm, popTmp_invB hq eI, ?_, ?_⟩
    · intro i hi a ha
      exact pm ▸ ecode i hi a ha
    · intro hex _
      exact expr_then_pop hI he hq hex
  | .Assign n e, ctx, ctx', code, hI, h => by
    simp only [compileStmt] at h
    rcases hd : varsGet? ctx.vars n with _ | dest <;> rw [hd] at h
    · exact Option.noConfusion h
    simp only [Option.bind_eq_bind, Option.some_bind] at h
    rcases he : compileExpr e ctx with _ | ⟨r, cE, cd⟩ <;> rw [he] at h
    · exact Option.noConfusion h
    simp only [Option.bind_eq_bind, Option.some_bind] at h
    rcases hq : popTmp cE r with _ | c2 <;> rw [hq] at h
    · exact Option.noConfusion h
    simp only [Option.bind_eq_bind, Option.some_bind, Option.pure_def,
      Option.some.injEq, Prod.mk.injEq] at h
    obtain ⟨rfl, rfl⟩ := h
    obtain ⟨ev, em, eI, erm, ecode, evar, evlt, edelta⟩ :=
      compileExpr_spec e ctx r cE cd hI he
    obtain ⟨pv, _, pm, _, _⟩ := popTmp_spec hq
    have hdm := varsGet?_mem hd
    refine ⟨em.trans_eq pm.symm, popTmp_invB hq eI, ?_, ?_⟩
    · intro i hi a ha
      rw [pm]
      rcases List.mem_append.mp hi with hi | hi
      · exact ecode i hi a ha
      · rcases List.mem_singleton.mp hi with rfl
        simp only [AInstr.regs, List.mem_cons, List.not_mem_nil, or_false] at ha
        rcases ha with rfl | rfl
        · exact lt_of_lt_of_le (hI.2.2 _ hdm) em
        · exact erm
    · intro hex _
      exact expr_then_pop hI he hq hex
  | .If cond t f, ctx, ctx', code, hI, h => by
    simp only [compileStmt] at h
    rcases he : compileExpr cond ctx with _ | ⟨cdst, cE, ccode⟩ <;> rw [he] at h
    · exact Option.noConfusion h
    simp only [Option.bind_eq_bind, Option.some_bind] at h
    rcases hq : popTmp cE cdst with _ | c2 <;> rw [hq] at h
    · exact Option.noConfusion h
    simp only [Option.bind_eq_bind, Option.some_bind] at h
    rcases ht : compileList t c2 with _ | ⟨c3, tcode⟩ <;> rw [ht] at h
    · exact Option.noConfusion h
    simp only [Option.bind_eq_bind, Option.some_bind] at h
    rcases hf : compileList f c3 with _ | ⟨c4, fcode⟩ <;> rw [hf] at h
    · exact Option.noConfusion h
    simp only [Option.bind_eq_bind, Option.some_bind, Option.pure_def,
      Option.some.injEq, Prod.mk.injEq] at h
    obtain ⟨rfl, rfl⟩ := h
    obtain ⟨ev, em, eI, erm, ecode, evar, evlt, edelta⟩ :=
      compileExpr_spec cond ctx cdst cE ccode hI he
    obtain ⟨pv, _, pm, _, _⟩ := popTmp_spec hq
    have hI2 : InvB c2 := popTmp_invB hq eI
    obtain ⟨tm, tI, tcodeB, tdelta⟩ := compileList_spec t c2 c3 tcode hI2 ht
    obtain ⟨fm, fI, fcodeB, fdelta⟩ := compileList_spec f c3 c4 fcode tI hf
    have hm : ctx.max_reg ≤ c4.max_reg := ((em.trans_eq pm.symm).trans tm).trans fm
    refine ⟨hm, fI, ?_, ?_⟩
    · intro i hi a ha
      have hE4 : cE.max_reg ≤ c4.max_reg := by rw [← pm]; exact tm.trans fm
      rcases List.mem_append.mp hi with hi | hi
      · rcases List.mem_append.mp hi with hi | hi
        · rcases List.mem_append.mp hi with hi | hi
          · rcases List.mem_append.mp hi with hi | hi
            · rcases List.mem_append.mp hi with hi | hi
              · exact lt_of_lt_of_le (ecode i hi a ha) hE4
              · rcases List.mem_singleton.mp hi with rfl
                simp only [AInstr.regs, List.mem_cons, List.not_mem_nil, or_false] at ha
                rcases ha with rfl
                exact lt_of_lt_of_le erm hE4
            · rcases List.mem_singleton.mp hi with rfl
              simp [AInstr.regs] at ha
          · exact lt_of_lt_of_le (tcodeB i hi a ha) fm
        · rcases List.mem_singleton.mp hi with rfl
          simp [AInstr.regs] at ha
      · exact fcodeB i hi a ha
    · intro hex hnd
      simp only [NoDecl, Bool.and_eq_true] at hnd
      obtain ⟨hco, hvr⟩ := expr_then_pop hI he hq hex
      have hex2 : VarsExact c2 := varsExact_of_eq hvr hex
      obtain ⟨h3f, h3v⟩ := tdelta hex2 hnd.1
      have hex3 : VarsExact c3 := varsExact_of_eq h3v hex2
      obtain ⟨h4f, h4v⟩ := fdelta hex3 hnd.2
      exact ⟨(h4f.trans h3f).trans hco, (h4v.trans h3v).trans hvr⟩
  | .While _ _, ctx, ctx', code, hI, h => by
    simp only [compileStmt] at h
    exact Option.noConfusion h
  | .Continue, ctx, ctx', code, hI, h => by
    simp only [compileStmt] at h
    exact Option.noConfusion h
  | .Break, ctx, ctx', code, hI, h => by
    simp only [compileStmt] at h
    exact Option.noConfusion h
  | .Return _, ctx, ctx', code, hI, h => by
    simp only [compileStmt] at h
    exact Option.noConfusion h
  | .Defn _ _, ctx, ctx', code, hI, h => by
    simp only [compileStmt] at h
    exact Option.noConfusion h

theorem compileList_spec : ∀ (sl : StmtList) (ctx ctx' : FunctionCtx)
    (code : List AInstr), InvB ctx →
    compileList sl ctx = some (ctx', code) → ListConc sl ctx ctx' code
  | .nil, ctx, ctx', code, hI, h => by
    simp only [compileList, Option.some.injEq, Prod.mk.injEq] at h
    obtain ⟨rfl, rfl⟩ := h
    exact ⟨le_refl _, hI, by simp, fun _ _ => ⟨rfl, rfl⟩⟩
  | .cons s tl, ctx, ctx', code, hI, h => by
    simp only [compileList] at h
    rcases hs : compileStmt s ctx with _ | ⟨c1, cd1⟩ <;> rw [hs] at h
    · exact Option.noConfusion h
    simp only [Option.bind_eq_bind, Option.some_bind] at h
    rcases htl : compileList tl c1 with _ | ⟨c2, cd2⟩ <;> rw [htl] at h
    · exact Option.noConfusion h
    simp only [Option.bind_eq_bind, Option.some_bind, Option.pure_def,
      Option.some.injEq, Prod.mk.injEq] at h
    obtain ⟨rfl, rfl⟩ := h
    obtain ⟨sm, sI, scode, sdelta⟩ := compileStmt_spec s ctx c1 cd1 hI hs
    obtain ⟨tm, tI, tcode, tdelta⟩ := compileList_spec tl c1 c2 cd2 sI htl
    refine ⟨sm.trans tm, tI, ?_, ?_⟩
    · intro i hi a ha
      rcases List.mem_append.mp hi with hi | hi
      · exact lt_of_lt_of_le (scode i hi a ha) tm
      · exact tcode i hi a ha
    · intro hex hnd
      simp only [NoDeclList, Bool.and_eq_true] at hnd
      obtain ⟨h1f, h1v⟩ := sdelta hex hnd.1
      have hex1 : VarsExact c1 := varsExact_of_eq h1v hex
      obtain ⟨h2f, h2v⟩ := tdelta hex1 hnd.2
      exact ⟨h2f.trans h1f, h2v.trans h1v⟩
end

theorem invB_new : InvB FunctionCtx.new :=
  ⟨le_refl _, le_refl _, fun pr hpr => absurd hpr (List.not_mem_nil pr)⟩

theorem varsExact_new : VarsExact FunctionCtx.new :=
  fun pr hpr => absurd hpr (List.not_mem_nil pr)

/-- One call in an arbitrary interleaving of `compile_stmt` and
`compile_expr` invocations on one `FunctionCtx`. -/
inductive CompilerCall
  | stmt (s : Stmt)
  | expr (e : Expr)

/-- Run a sequence of compiler calls, threading the context (a `none`
anywhere is a panic of the corresponding call). -/
def runCalls : List CompilerCall → FunctionCtx → Option FunctionCtx
  | [], ctx => some ctx
  | .stmt st :: rest, ctx => do
    let (c, _) ← compileStmt st ctx
    runCalls rest c
  | .expr e :: rest, ctx => do
    let (_, c, _) ← compileExpr e ctx
    runCalls rest c

theorem runCalls_spec : ∀ (cs : List CompilerCall) (ctx ctx' : FunctionCtx),
    InvB ctx → runCalls cs ctx = some ctx' →
    InvB ctx' ∧ ctx.max_reg ≤ ctx'.max_reg
  | [], ctx, ctx', hI, h => by
    cases Option.some.inj h
    exact ⟨hI, le_refl _⟩
  | .stmt st :: rest, ctx, ctx', hI, h => by
    simp only [runCalls] at h
    rcases hs : compileStmt st ctx with _ | ⟨c1, cd⟩ <;> rw [hs] at h
    · exact Option.noConfusion h
    simp only [Option.bind_eq_bind, Option.some_bind] at h
    obtain ⟨sm, sI, _, _⟩ := compileStmt_spec st ctx c1 cd hI hs
    obtain ⟨hI', hm⟩ := runCalls_spec rest c1 ctx' sI h
    exact ⟨hI', sm.trans hm⟩
  | .expr e :: rest, ctx, ctx', hI, h => by
    simp only [runCalls] at h
    rcases he : compileExpr e ctx with _ | ⟨r, c1, cd⟩ <;> rw [he] at h
    · exact Option.noConfusion h
    simp only [Option.bind_eq_bind, Option.some_bind] at h
    obtain ⟨_, em, eI, _⟩ := compileExpr_spec e ctx r c1 cd hI he
    obtain ⟨hI', hm⟩ := runCalls_spec rest c1 ctx' eI h
    exact ⟨hI', em.trans hm⟩

/-- C10: starting from `FunctionCtx::new()`, any panic-free interleaving of
`compile_stmt` and `compile_expr` calls preserves
`vars.len() <= free_reg <= max_reg`; the high-water mark never decreases
along any such run; `pop_tmp` is a no-op below `vars.len()` and otherwise
requires `free_reg = addr + 1`, dropping the cursor to `addr`. -/
theorem C10_allocator_invariant :
    (∀ cs ctx', runCalls cs FunctionCtx.new = some ctx' →
      ctx'.vars.length ≤ ctx'.free_reg ∧ ctx'.free_reg ≤ ctx'.max_reg) ∧
    (∀ cs ctx ctx', InvB ctx → runCalls cs ctx = some ctx' →
      ctx.max_reg ≤ ctx'.max_reg) ∧
    (∀ ctx : FunctionCtx, ∀ a, a < ctx.vars.length → popTmp ctx a = some ctx) ∧
    (∀ (ctx : FunctionCtx) a ctx', ¬ a < ctx.vars.length → popTmp ctx a = some ctx' →
      ctx.free_reg = a + 1 ∧ ctx' = { ctx with free_reg := a }) := by
  refine ⟨?_, ?_, ?_, ?_⟩
  · intro cs ctx' h
    obtain ⟨hI, _⟩ := runCalls_spec cs FunctionCtx.new ctx' invB_new h
    exact ⟨hI.1, hI.2.1⟩
  · intro cs ctx ctx' hI h
    exact (runCalls_spec cs ctx ctx' hI h).2
  · intro ctx a h
    exact popTmp_noop h
  · intro ctx a ctx' hge h
    exact popTmp_scratch hge h

/-- Witness for `C10_allocator_invariant` on the run
`[Declare 0, Lit 1]` from the fresh context. -/
theorem C10_allocator_invariant_witness :
    (⟨[(0, 0)], [.I 1], 2, 2⟩ : FunctionCtx).vars.length
        ≤ (⟨[(0, 0)], [.I 1], 2, 2⟩ : FunctionCtx).free_reg ∧
    (⟨[(0, 0)], [.I 1], 2, 2⟩ : FunctionCtx).free_reg
        ≤ (⟨[(0, 0)], [.I 1], 2, 2⟩ : FunctionCtx).max_reg :=
  C10_allocator_invariant.1 [.stmt (.Declare 0), .expr (.Lit (.I 1))] _ rfl

/-- The statement list of the repository's own `test_compile_assign`
(`src/ast/tests.rs:199`). -/
def c8AssignStmts : StmtList :=
  .cons (.Declare 0) (.cons (.Assign 0 (.Lit (.I 69))) .nil)

/-- C8 counterexample: compiling `test_compile_assign`'s statements gives
`max_reg = 2` while the highest register address in the emitted code
(`[Const(1,0), Copy(0,1)]`) is `1` — the recorded count is one more than
the highest used address, not equal to it.  And after the duplicate
declaration `[Declare x, Declare x]`, the declaration-free statement
`RawExpr(Var x)` compiles successfully yet drops `free_reg` from 2 to 1,
because `pop_tmp` treats the rebound variable's register as scratch. -/
theorem C8_counterexample :
    compileList c8AssignStmts FunctionCtx.new
      = some (⟨[(0, 0)], [.I 69], 1, 2⟩, [.bc (.Const 1 0), .bc (.Copy 0 1)]) ∧
    (∀ i ∈ [AInstr.bc (.Const 1 0), AInstr.bc (.Copy 0 1)], ∀ a ∈ i.regs, a ≤ 1) ∧
    (1 : Nat) ∈ (AInstr.bc (.Copy 0 1)).regs ∧
    (⟨[(0, 0)], [.I 69], 1, 2⟩ : FunctionCtx).max_reg ≠ 1 ∧
    compileList (.cons (.Declare 7) (.cons (.Declare 7) .nil)) FunctionCtx.new
      = some (⟨[(7, 1)], [], 2, 2⟩, []) ∧
    NoDecl (.RawExpr (.Var 7)) = true ∧
    compileStmt (.RawExpr (.Var 7)) ⟨[(7, 1)], [], 2, 2⟩
      = some (⟨[(7, 1)], [], 1, 2⟩, []) ∧
    (⟨[(7, 1)], [], 1, 2⟩ : FunctionCtx).free_reg
      ≠ (⟨[(7, 1)], [], 2, 2⟩ : FunctionCtx).free_reg :=
  ⟨rfl, by decide, by decide, by decide, rfl, rfl, rfl, by decide⟩

/-- C8 (amended): every register address in the code a function compiles to
is strictly below the ending `max_reg` (the recorded local count is an
upper bound, one more than the highest used address — exactly one more in
the repository's own test, the third conjunct); and a statement containing
no declaration restores `free_reg`, provided every declared variable's
register lies below `vars.len()` (as holds when no name is declared
twice). -/
theorem C8_register_accounting :
    (∀ sl ctx' code, compileList sl FunctionCtx.new = some (ctx', code) →
      ∀ i ∈ code, ∀ a ∈ i.regs, a < ctx'.max_reg) ∧
    (∀ st ctx ctx' code, InvB ctx → VarsExact ctx → NoDecl st = true →
      compileStmt st ctx = some (ctx', code) → ctx'.free_reg = ctx.free_reg) ∧
    compileList c8AssignStmts FunctionCtx.new
      = some (⟨[(0, 0)], [.I 69], 1, 2⟩, [.bc (.Const 1 0), .bc (.Copy 0 1)]) := by
  refine ⟨?_, ?_, rfl⟩
  · intro sl ctx' code h
    exact (compileList_spec sl FunctionCtx.new ctx' code invB_new h).2.2.1
  · intro st ctx ctx' code hI hex hnd h
    exact ((compileStmt_spec st ctx ctx' code hI h).2.2.2 hex hnd).1

/-- Witness for `C8_register_accounting`: the bound on the assign test's
code, and cursor restoration for `RawExpr (Lit 5)` from the fresh
context. -/
theorem C8_register_accounting_witness :
    (∀ i ∈ [AInstr.bc (.Const 1 0), AInstr.bc (.Copy 0 1)], ∀ a ∈ i.regs,
      a < (⟨[(0, 0)], [.I 69], 1, 2⟩ : FunctionCtx).max_reg) ∧
    (⟨[], [.I 5], 0, 1⟩ : FunctionCtx).free_reg = FunctionCtx.new.free_reg :=
  ⟨C8_register_accounting.1 c8AssignStmts _ _ rfl,
   C8_register_accounting.2.1 (.RawExpr (.Lit (.I 5))) FunctionCtx.new _ _
     invB_new varsExact_new rfl rfl⟩


/-! ## Digit and number round-trip lemmas -/

theorem digitChar_isDigit {m : Nat} (h : m < 10) :
    (Char.ofNat (48 + m)).isDigit = true := by
  interval_cases m <;> rfl

theorem digitChar_toNat {m : Nat} (h : m < 10) :
    (Char.ofNat (48 + m)).toNat = 48 + m := by
  interval_cases m <;> rfl

theorem renderNatAux_append : ∀ (fuel n : Nat) (acc : List Char),
    renderNatAux fuel n acc = renderNatAux fuel n [] ++ acc
  | 0, _, _ => rfl
  | fuel + 1, n, acc => by
    simp only [renderNatAux]
    by_cases h : n < 10
    · simp [h]
    · simp only [if_neg h]
      rw [renderNatAux_append fuel (n / 10) [Char.ofNat (48 + n % 10)],
          renderNatAux_append fuel (n / 10) (Char.ofNat (48 + n % 10) :: acc)]
      simp

theorem renderNatAux_fuel : ∀ (f₁ f₂ n : Nat) (acc : List Char), n < f₁ → n < f₂ →
    renderNatAux f₁ n acc = renderNatAux f₂ n acc
  | 0, _, n, _, h₁, _ => absurd h₁ (Nat.not_lt_zero n)
  | _ + 1, 0, n, _, _, h₂ => absurd h₂ (Nat.not_lt_zero n)
  | f₁ + 1, f₂ + 1, n, acc, h₁, h₂ => by
    simp only [renderNatAux]
    by_cases h : n < 10
    · simp [h]
    · simp only [if_neg h]
      have hd : n / 10 < n := Nat.div_lt_self (by omega) (by norm_num)
      exact renderNatAux_fuel f₁ f₂ (n / 10) _ (by omega) (by omega)

theorem renderNat_eq (n : Nat) :
    renderNat n = if n < 10 then [Char.ofNat (48 + n % 10)]
      else renderNat (n / 10) ++ [Char.ofNat (48 + n % 10)] := by
  by_cases h : n < 10
  · rw [if_pos h]
    show renderNatAux (n + 1) n [] = _
    simp only [renderNatAux, if_pos h]
  · rw [if_neg h]
    have h1 : renderNat n = renderNatAux n (n / 10) [Char.ofNat (48 + n % 10)] := by
      show renderNatAux (n + 1) n [] = _
      simp only [renderNatAux, if_neg h]
    rw [h1, renderNatAux_append,
        renderNatAux_fuel n (n / 10 + 1) (n / 10) []
          (Nat.div_lt_self (by omega) (by norm_num)) (Nat.lt_succ_self _)]
    rfl

theorem digitsVal_append (l₁ l₂ : List Char) :
    digitsVal (l₁ ++ l₂) = l₂.foldl (fun a c => a * 10 + (c.toNat - 48)) (digitsVal l₁) := by
  simp [digitsVal, List.foldl_append]

theorem digitsVal_renderNat : ∀ n, digitsVal (renderNat n) = n := by
  intro n
  induction n using Nat.strong_induction_on with
  | _ n ih =>
    rw [renderNat_eq]
    by_cases h : n < 10
    · simp only [if_pos h, digitsVal, List.foldl]
      rw [digitChar_toNat (Nat.mod_lt n (by norm_num))]
      omega
    · simp only [if_neg h]
      rw [digitsVal_append]
      simp only [List.foldl]
      rw [ih (n / 10) (Nat.div_lt_self (by omega) (by norm_num)),
          digitChar_toNat (Nat.mod_lt n (by norm_num))]
      omega

theorem renderNat_all_digit : ∀ n, ∀ ch ∈ renderNat n, ch.isDigit = true := by
  intro n
  induction n using Nat.strong_induction_on with
  | _ n ih =>
    rw [renderNat_eq]
    by_cases h : n < 10
    · simp only [if_pos h, List.mem_singleton]
      rintro ch rfl
      exact digitChar_isDigit (by omega)
    · simp only [if_neg h, List.mem_append, List.mem_singleton]
      rintro ch (hm | rfl)
      · exact ih (n / 10) (Nat.div_lt_self (by omega) (by norm_num)) ch hm
      · exact digitChar_isDigit (by omega)

theorem renderNat_ne_nil (n : Nat) : renderNat n ≠ [] := by
  rw [renderNat_eq]
  by_cases h : n < 10
  · simp [h]
  · simp [h]

theorem renderNat_head_digit (n : Nat) :
    ∃ d tl, renderNat n = d :: tl ∧ d.isDigit = true := by
  cases hr : renderNat n with
  | nil => exact absurd hr (renderNat_ne_nil n)
  | cons d tl =>
    refine ⟨d, tl, rfl, renderNat_all_digit n d ?_⟩
    rw [hr]
    exact List.mem_cons_self d tl

theorem ne_of_isDigit_of_not {c₁ c₂ : Char} (h₁ : c₁.isDigit = true)
    (h₂ : c₂.isDigit = false) : c₁ ≠ c₂ := by
  intro he
  rw [he, h₂] at h₁
  exact Bool.noConfusion h₁

theorem isDigit_not_ws {c : Char} (h : c.isDigit = true) : c.isWhitespace = false := by
  by_contra hw
  rw [Bool.not_eq_false] at hw
  have h4 : ((c = ' ' ∨ c = '\t') ∨ c = '\r') ∨ c = '\n' := by
    simpa [Char.isWhitespace] using hw
  rcases h4 with ((rfl | rfl) | rfl) | rfl <;> exact absurd h (by decide)

theorem parseUInt_digits {cs : List Char} {bound : Nat} (h0 : cs ≠ [])
    (hd : ∀ ch ∈ cs, ch.isDigit = true) (hb : digitsVal cs ≤ bound) :
    parseUInt bound cs = some (digitsVal cs) := by
  unfold parseUInt
  split
  · rename_i r1 r2
    exact absurd rfl (ne_of_isDigit_of_not (hd '+' (List.mem_cons_self _ _)) (by decide)).symm
  · rw [if_pos ⟨h0, List.all_eq_true.mpr hd, hb⟩]

theorem parseUInt_renderNat {n bound : Nat} (h : n ≤ bound) :
    parseUInt bound (renderNat n) = some n := by
  rw [parseUInt_digits (renderNat_ne_nil n) (renderNat_all_digit n)
    (by rw [digitsVal_renderNat]; exact h), digitsVal_renderNat]

theorem renderInt_nonneg {z : Int} (h : 0 ≤ z) : renderInt z = renderNat z.toNat := by
  unfold renderInt
  rw [if_neg (by omega)]

theorem renderInt_negative {z : Int} (h : z < 0) : renderInt z = '-' :: renderNat z.natAbs := by
  unfold renderInt
  rw [if_pos h]

theorem parseI64_digits {cs : List Char} (h0 : cs ≠ []) (hd : ∀ ch ∈ cs, ch.isDigit = true)
    (hb : (digitsVal cs : Int) ≤ i64Max) : parseI64 cs = some ((digitsVal cs : Int)) := by
  unfold parseI64
  split
  · rename_i r1 r2
    exact absurd rfl (ne_of_isDigit_of_not (hd '-' (List.mem_cons_self _ _)) (by decide)).symm
  · rename_i r1 r2
    exact absurd rfl (ne_of_isDigit_of_not (hd '+' (List.mem_cons_self _ _)) (by decide)).symm
  · rw [if_pos ⟨h0, List.all_eq_true.mpr hd, hb⟩]

theorem parseI64_renderInt {z : Int} (h1 : i64Min ≤ z) (h2 : z ≤ i64Max) :
    parseI64 (renderInt z) = some z := by
  by_cases hz : z < 0
  · rw [renderInt_negative hz]
    simp only [parseI64]
    have hcond : renderNat z.natAbs ≠ [] ∧ (renderNat z.natAbs).all Char.isDigit = true ∧
        (digitsVal (renderNat z.natAbs) : Int) ≤ -i64Min := by
      refine ⟨renderNat_ne_nil _, List.all_eq_true.mpr (renderNat_all_digit _), ?_⟩
      rw [digitsVal_renderNat]
      unfold i64Min at h1 ⊢
      omega
    rw [if_pos hcond, digitsVal_renderNat]
    congr 1
    omega
  · rw [renderInt_nonneg (by omega),
      parseI64_digits (renderNat_ne_nil _) (renderNat_all_digit _)
        (by rw [digitsVal_renderNat]; unfold i64Max at h2 ⊢; omega), digitsVal_renderNat]
    congr 1
    omega

/-! ## Buffer lemmas -/

theorem ebind_ok {ε α β : Type} (x : α) (f : α → Except ε β) :
    ((Except.ok x : Except ε α) >>= f) = f x := rfl

theorem ebind_err {ε α β : Type} (e : ε) (f : α → Except ε β) :
    ((Except.error e : Except ε α) >>= f) = .error e := rfl

theorem trimLeftAux_ws_run : ∀ (sp : List Char), (∀ ch ∈ sp, ch.isWhitespace = true) →
    ∀ (cs : List Char) (r c : Nat), trimLeftAux (sp ++ cs) r c = trimLeftAux cs r (c + sp.length)
  | [], _, cs, r, c => by simp
  | ch :: sp, h, cs, r, c => by
    simp only [List.cons_append, List.append_eq, trimLeftAux,
      h ch (List.mem_cons_self _ _), if_true]
    rw [trimLeftAux_ws_run sp (fun x hx => h x (List.mem_cons_of_mem _ hx)) cs r (c + 1),
        show c + 1 + sp.length = c + (ch :: sp).length by
          simp only [List.length_cons]; omega]

theorem trimLeftAux_nonws : ∀ (cs : List Char) (r c : Nat),
    (∀ ch, cs.head? = some ch → ch.isWhitespace = false) →
    trimLeftAux cs r c = ⟨cs, r, c⟩
  | [], _, _, _ => rfl
  | ch :: cs, r, c, h => by
    simp [trimLeftAux, h ch rfl]

theorem trimLeft_nonws (cs : List Char) (r c : Nat)
    (h : ∀ ch, cs.head? = some ch → ch.isWhitespace = false) :
    Buffer.trimLeft ⟨cs, r, c⟩ = ⟨cs, r, c⟩ :=
  trimLeftAux_nonws cs r c h

theorem trimRight_nonws (cs : List Char) (r c : Nat)
    (h : ∀ ch, cs.getLast? = some ch → ch.isWhitespace = false) :
    Buffer.trimRight ⟨cs, r, c⟩ = ⟨cs, r, c⟩ := by
  unfold Buffer.trimRight
  cases hrev : cs.reverse with
  | nil =>
    have hnil : cs = [] := by simpa using congrArg List.reverse hrev
    subst hnil
    rfl
  | cons hd tl =>
    have hlast : cs.getLast? = some hd := by
      rw [List.getLast?_eq_head?_reverse, hrev]
      rfl
    have hcs : (hd :: tl).reverse = cs := by rw [← hrev, List.reverse_reverse]
    rw [List.dropWhile_cons, h hd hlast]
    simp [hcs]

theorem token_pref (tok rest : List Char) (r c : Nat) :
    Buffer.token ⟨tok ++ rest, r, c⟩ tok = .ok ⟨rest, r, c + tok.length⟩ := by
  simp only [Buffer.token, Buffer.startsWith, Buffer.advance]
  rw [if_pos (List.isPrefixOf_iff_prefix.mpr (List.prefix_append tok rest))]
  have hmin : min tok.length (tok ++ rest).length = tok.length := by
    simp [List.length_append]
  simp [hmin, List.drop_left]

theorem tilAux_append (p : Char → Bool) : ∀ (tok rest : List Char) (r c : Nat),
    (∀ ch ∈ tok, p ch = false) →
    (∀ ch, rest.head? = some ch → p ch = true) →
    tilAux p (tok ++ rest) r c = (⟨rest, r, c + tok.length⟩, tok)
  | [], rest, r, c, _, hr => by
    cases rest with
    | nil => simp [tilAux]
    | cons ch cs => simp [tilAux, hr ch rfl]
  | t :: tok, rest, r, c, ht, hr => by
    have hstep : tilAux p ((t :: tok) ++ rest) r c
        = ((tilAux p (tok ++ rest) r (c + 1)).1, t :: (tilAux p (tok ++ rest) r (c + 1)).2) := by
      simp [tilAux, ht t (List.mem_cons_self _ _)]
    rw [hstep, tilAux_append p tok rest r (c + 1)
      (fun x hx => ht x (List.mem_cons_of_mem _ hx)) hr]
    simp only [Prod.mk.injEq, Buffer.mk.injEq, List.length_cons, eq_self_iff_true,
      true_and, and_true]
    omega

theorem space_cons_ws (ch : Char) (cs : List Char) (r c : Nat)
    (hch : ch.isWhitespace = true)
    (hcs : ∀ x, cs.head? = some x → x.isWhitespace = false) :
    Buffer.space ⟨ch :: cs, r, c⟩ = .ok ⟨cs, r, c + 1⟩ := by
  unfold Buffer.space
  have h1 : Buffer.trimLeft ⟨ch :: cs, r, c⟩ = ⟨cs, r, c + 1⟩ := by
    show trimLeftAux (ch :: cs) r c = _
    simp [trimLeftAux, hch, trimLeftAux_nonws cs r (c + 1) hcs]
  rw [h1]
  rw [if_neg (by simp [Buffer.mk.injEq])]

theorem parseTilUInt_spec (bound n : Nat) (hn : n ≤ bound) (rest : List Char)
    (hrest : ∀ ch, rest.head? = some ch → ch.isDigit = false) (r c : Nat) :
    Buffer.parseTilUInt ⟨renderNat n ++ rest, r, c⟩ bound (fun x => !x.isDigit)
      = .ok (⟨rest, r, c + (renderNat n).length⟩, n) := by
  unfold Buffer.parseTilUInt Buffer.til
  rw [tilAux_append _ (renderNat n) rest r c
    (fun ch hc => by simp [renderNat_all_digit n ch hc])
    (fun ch hc => by simp [hrest ch hc])]
  simp only [parseUInt_renderNat hn]

theorem parseTilUInt_ws_spec (bound n : Nat) (hn : n ≤ bound) (rest : List Char)
    (hrest : ∀ ch, rest.head? = some ch → ch.isWhitespace = true) (r c : Nat) :
    Buffer.parseTilUInt ⟨renderNat n ++ rest, r, c⟩ bound Char.isWhitespace
      = .ok (⟨rest, r, c + (renderNat n).length⟩, n) := by
  unfold Buffer.parseTilUInt Buffer.til
  rw [tilAux_append _ (renderNat n) rest r c
    (fun ch hc => isDigit_not_ws (renderNat_all_digit n ch hc)) hrest]
  simp only [parseUInt_renderNat hn]

theorem head?_append_left {α : Type} (l₁ l₂ : List α) (a : α) (h : l₁.head? = some a) :
    (l₁ ++ l₂).head? = some a := by
  cases l₁ with
  | nil => exact absurd h (by simp)
  | cons x xs => simpa using h

theorem addr_spec (sp pre : List Char) (hsp : ∀ ch ∈ sp, ch.isWhitespace = true)
    (hpre : ∀ ch, pre.head? = some ch → ch.isWhitespace = false)
    (hpne : pre ≠ [])
    (n : Nat) (hn : n ≤ 255) (rest : List Char)
    (hrest : ∀ ch, rest.head? = some ch → ch.isDigit = false) (r c : Nat) :
    Buffer.addr ⟨sp ++ (pre ++ (renderNat n ++ rest)), r, c⟩ pre
      = .ok (⟨rest, r, c + sp.length + pre.length + (renderNat n).length⟩, n) := by
  unfold Buffer.addr
  have hph : ∀ ch, (pre ++ (renderNat n ++ rest)).head? = some ch → ch.isWhitespace = false := by
    intro ch hch
    cases hp : pre.head? with
    | none => exact absurd hp (by cases pre with | nil => exact absurd rfl hpne | cons a l => simp)
    | some a =>
      rw [head?_append_left pre _ a hp] at hch
      cases hch
      exact hpre ch hp
  have h1 : Buffer.trimLeft ⟨sp ++ (pre ++ (renderNat n ++ rest)), r, c⟩
      = ⟨pre ++ (renderNat n ++ rest), r, c + sp.length⟩ := by
    show trimLeftAux _ r c = _
    rw [trimLeftAux_ws_run sp hsp _ r c, trimLeftAux_nonws _ r _ hph]
  rw [h1, token_pref pre (renderNat n ++ rest) r (c + sp.length), ebind_ok]
  rw [parseTilUInt_spec 255 n hn rest hrest r (c + sp.length + pre.length)]

/-! ## Supported values and the `parse_const` round trip -/

/-- The constant values whose rendering round-trips: booleans, in-range
integers and function references (floats print in a form the model does not
relate to `f64::from_str`; tuple constants print as `(…, …)`, which
`parse_const` never reads back). -/
def SupportedVal : Val → Bool
  | .B _ => true
  | .I n => decide (i64Min ≤ n) && decide (n ≤ i64Max)
  | .C c => decide (c ≤ 65535)
  | _ => false

theorem renderInt_chars (z : Int) : ∀ ch ∈ renderInt z, ch.isDigit = true ∨ ch = '-' := by
  by_cases hz : z < 0
  · rw [renderInt_negative hz]
    intro ch hch
    rcases List.mem_cons.mp hch with rfl | hm
    · exact Or.inr rfl
    · exact Or.inl (renderNat_all_digit _ ch hm)
  · rw [renderInt_nonneg (by omega)]
    intro ch hch
    exact Or.inl (renderNat_all_digit _ ch hch)

theorem renderInt_head (z : Int) :
    ∃ d tl, renderInt z = d :: tl ∧ (d.isDigit = true ∨ d = '-') := by
  by_cases hz : z < 0
  · rw [renderInt_negative hz]
    exact ⟨'-', _, rfl, Or.inr rfl⟩
  · rw [renderInt_nonneg (by omega)]
    obtain ⟨d, tl, he, hd⟩ := renderNat_head_digit z.toNat
    exact ⟨d, tl, he, Or.inl hd⟩

theorem renderVal_ne_true_of_int (z : Int) : renderInt z ≠ lc "true" := by
  obtain ⟨d, tl, he, hd⟩ := renderInt_head z
  rw [he]
  intro hc
  have hd' : d = 't' := (List.cons.inj hc).1
  rcases hd with h | h
  · rw [hd'] at h
    exact absurd h (by decide)
  · rw [hd'] at h
    exact absurd h (by decide)

theorem renderVal_ne_false_of_int (z : Int) : renderInt z ≠ lc "false" := by
  obtain ⟨d, tl, he, hd⟩ := renderInt_head z
  rw [he]
  intro hc
  have hd' : d = 'f' := (List.cons.inj hc).1
  rcases hd with h | h
  · rw [hd'] at h
    exact absurd h (by decide)
  · rw [hd'] at h
    exact absurd h (by decide)

theorem renderInt_no_dot (z : Int) : (renderInt z).contains '.' = false := by
  by_contra hcontra
  rw [Bool.not_eq_false] at hcontra
  have hmem : '.' ∈ renderInt z := by simpa [List.contains] using hcontra
  rcases renderInt_chars z '.' hmem with h | h
  · exact absurd h (by decide)
  · exact absurd h (by decide)

theorem renderInt_head_ne_f (z : Int) : (renderInt z).head? ≠ some 'f' := by
  obtain ⟨d, tl, he, hd⟩ := renderInt_head z
  rw [he]
  intro hc
  have hd' : d = 'f' := by simpa using hc
  rcases hd with h | h
  · rw [hd'] at h
    exact absurd h (by decide)
  · rw [hd'] at h
    exact absurd h (by decide)

theorem parseConst_renderVal {v : Val} (hv : SupportedVal v = true) :
    parseConst (renderVal v) = some v := by
  cases v with
  | B b => cases b <;> rfl
  | I n =>
    have hb : i64Min ≤ n ∧ n ≤ i64Max := by
      simpa [SupportedVal] using hv
    have hrv : renderVal (.I n) = renderInt n := by simp [renderVal]
    rw [hrv]
    unfold parseConst
    rw [if_neg (renderVal_ne_true_of_int n), if_neg (renderVal_ne_false_of_int n),
        renderInt_no_dot n, if_neg (by simp), if_neg (renderInt_head_ne_f n),
        parseI64_renderInt hb.1 hb.2]
    rfl
  | C c =>
    have hb : c ≤ 65535 := by simpa [SupportedVal] using hv
    have hrv : renderVal (.C c) = 'f' :: renderNat c := by simp [renderVal]
    rw [hrv]
    unfold parseConst
    have hne1 : 'f' :: renderNat c ≠ lc "true" := by
      intro hc
      exact absurd ((List.cons.inj hc).1) (by decide)
    have hne2 : 'f' :: renderNat c ≠ lc "false" := by
      intro hc
      have htl : renderNat c = lc "alse" := (List.cons.inj hc).2
      obtain ⟨d, tl, he, hd⟩ := renderNat_head_digit c
      rw [he] at htl
      have : d = 'a' := (List.cons.inj htl).1
      rw [this] at hd
      exact absurd hd (by decide)
    have hdot : ('f' :: renderNat c).contains '.' = false := by
      by_contra hcontra
      rw [Bool.not_eq_false] at hcontra
      have hmem : '.' ∈ 'f' :: renderNat c := by simpa [List.contains] using hcontra
      rcases List.mem_cons.mp hmem with h | h
      · exact absurd h (by decide)
      · exact absurd (renderNat_all_digit c '.' h) (by decide)
    rw [if_neg hne1, if_neg hne2, hdot, if_neg (by simp), if_pos (by simp)]
    have hdrop : ('f' :: renderNat c).drop 1 = renderNat c := rfl
    rw [hdrop, parseUInt_renderNat hb]
    rfl
  | F f => simp [SupportedVal] at hv
  | T vs => simp [SupportedVal] at hv

/-! ## The constants loop on rendered values -/

/-- The constants segment of a rendered header line: one space before each
value. -/
def constsText (ks : List Val) : List Char :=
  (ks.map fun k => ' ' :: renderVal k).flatten

theorem mem_of_head? {α : Type} {l : List α} {a : α} (h : l.head? = some a) : a ∈ l := by
  cases l with
  | nil => exact absurd h (by simp)
  | cons x xs =>
    have hx : a = x := by simpa using h.symm
    rw [hx]
    exact List.mem_cons_self x xs

theorem mem_of_getLast? {α : Type} {l : List α} {a : α} (h : l.getLast? = some a) : a ∈ l := by
  rw [List.getLast?_eq_head?_reverse] at h
  have := mem_of_head? h
  exact List.mem_reverse.mp this

theorem renderVal_nonws {v : Val} (hv : SupportedVal v = true) :
    ∀ ch ∈ renderVal v, ch.isWhitespace = false := by
  cases v with
  | B b =>
    cases b with
    | true =>
      have hr : renderVal (.B true) = lc "true" := by simp [renderVal]
      rw [hr]
      decide
    | false =>
      have hr : renderVal (.B false) = lc "false" := by simp [renderVal]
      rw [hr]
      decide
  | I n =>
    have hr : renderVal (.I n) = renderInt n := by simp [renderVal]
    rw [hr]
    intro ch hch
    rcases renderInt_chars n ch hch with h | rfl
    · exact isDigit_not_ws h
    · decide
  | C c =>
    have hr : renderVal (.C c) = 'f' :: renderNat c := by simp [renderVal]
    rw [hr]
    intro ch hch
    rcases List.mem_cons.mp hch with rfl | hm
    · decide
    · exact isDigit_not_ws (renderNat_all_digit c ch hm)
  | F f => simp [SupportedVal] at hv
  | T vs => simp [SupportedVal] at hv

theorem renderVal_ne_nil {v : Val} (hv : SupportedVal v = true) : renderVal v ≠ [] := by
  cases v with
  | B b => cases b <;> simp [renderVal, lc]
  | I n =>
    have hr : renderVal (.I n) = renderInt n := by simp [renderVal]
    rw [hr]
    obtain ⟨d, tl, he, _⟩ := renderInt_head n
    rw [he]
    simp
  | C c =>
    have hr : renderVal (.C c) = 'f' :: renderNat c := by simp [renderVal]
    rw [hr]
    simp
  | F f => simp [SupportedVal] at hv
  | T vs => simp [SupportedVal] at hv

theorem constsText_head_ws (ks : List Val) :
    ∀ ch, (constsText ks).head? = some ch → ch.isWhitespace = true := by
  cases ks with
  | nil =>
    intro ch h
    exact absurd h (by simp [constsText])
  | cons k ks =>
    intro ch h
    have hh : (constsText (k :: ks)).head? = some ' ' := by simp [constsText]
    rw [hh] at h
    cases h
    decide

theorem parseConstantsF_constsText : ∀ (ks : List Val) (fuel : Nat) (acc : List Val) (r c : Nat),
    (∀ k ∈ ks, SupportedVal k = true) → (constsText ks).length < fuel →
    parseConstantsF fuel ⟨constsText ks, r, c⟩ acc
      = .ok (⟨[], r, c + (constsText ks).length⟩, acc ++ ks)
  | [], fuel, acc, r, c, _, hf => by
    cases fuel with
    | zero => exact absurd hf (by omega)
    | succ f => simp [parseConstantsF, constsText]
  | k :: ks, fuel, acc, r, c, hs, hf => by
    cases fuel with
    | zero => exact absurd hf (by omega)
    | succ f =>
      have hsk := hs k (List.mem_cons_self _ _)
      have hct : constsText (k :: ks) = ' ' :: (renderVal k ++ constsText ks) := by
        simp [constsText]
    -- reduce one loop iteration
      rw [hct] at hf ⊢
      have hrvh : ∀ ch, (renderVal k ++ constsText ks).head? = some ch →
          ch.isWhitespace = false := by
        intro ch hch
        cases hh : (renderVal k).head? with
        | none =>
          exact absurd hh (by
            cases hrn : renderVal k with
            | nil => exact absurd hrn (renderVal_ne_nil hsk)
            | cons a l => simp)
        | some a =>
          rw [head?_append_left _ _ a hh] at hch
          cases hch
          exact renderVal_nonws hsk ch (mem_of_head? hh)
      have htrim : Buffer.trimLeft ⟨' ' :: (renderVal k ++ constsText ks), r, c⟩
          = ⟨renderVal k ++ constsText ks, r, c + 1⟩ := by
        show trimLeftAux _ _ _ = _
        rw [show (' ' :: (renderVal k ++ constsText ks))
              = [' '] ++ (renderVal k ++ constsText ks) from rfl,
            trimLeftAux_ws_run [' '] (by decide) _ r c,
            trimLeftAux_nonws _ _ _ hrvh]
        rfl
      have htil : Buffer.til Char.isWhitespace ⟨renderVal k ++ constsText ks, r, c + 1⟩
          = (⟨constsText ks, r, c + 1 + (renderVal k).length⟩, renderVal k) := by
        unfold Buffer.til
        exact tilAux_append _ _ _ _ _ (renderVal_nonws hsk) (constsText_head_ws ks)
      simp only [parseConstantsF]
      rw [if_neg (by simp), htrim, htil]
      simp only [parseConst_renderVal hsk]
      rw [parseConstantsF_constsText ks f (acc ++ [k]) r (c + 1 + (renderVal k).length)
        (fun x hx => hs x (List.mem_cons_of_mem _ hx)) (by have h9 := hf; simp only [List.length_cons, List.length_append] at h9; omega)]
      have hcol : c + 1 + (renderVal k).length + (constsText ks).length
          = c + (' ' :: (renderVal k ++ constsText ks)).length := by
        simp only [List.length_cons, List.length_append]
        omega
      rw [hcol]
      simp

/-! ## The header line of a rendered definition -/

/-- The header line `defn f<i> <local_count> :<consts>` of a rendered
definition block. -/
def headerText (i lcnt : Nat) (ks : List Val) : List Char :=
  lc "defn" ++ (' ' :: 'f' ::
    (renderNat i ++ (' ' :: (renderNat lcnt ++ (' ' :: ':' :: constsText ks)))))

theorem getLast?_append_right {α : Type} {l₁ l₂ : List α} {a : α}
    (h : l₂.getLast? = some a) : (l₁ ++ l₂).getLast? = some a := by
  rw [List.getLast?_append, h]
  rfl

theorem getLast?_none_imp_nil {α : Type} {l : List α} (h : l.getLast? = none) : l = [] := by
  cases l with
  | nil => rfl
  | cons a as =>
    rw [List.getLast?_cons] at h
    simp at h

theorem startsWith_pref (tok rest : List Char) (r c : Nat) :
    Buffer.startsWith ⟨tok ++ rest, r, c⟩ tok = true := by
  unfold Buffer.startsWith
  exact List.isPrefixOf_iff_prefix.mpr (List.prefix_append tok rest)

theorem startsWith_head_ne {cs pre : List Char} {r c : Nat} {c₁ c₂ : Char}
    (hb : cs.head? = some c₁) (hp : pre.head? = some c₂) (hne : c₂ ≠ c₁) :
    Buffer.startsWith ⟨cs, r, c⟩ pre = false := by
  cases cs with
  | nil => exact absurd hb (by simp)
  | cons a as =>
    cases pre with
    | nil => exact absurd hp (by simp)
    | cons b bs =>
      have ha : a = c₁ := by simpa using hb
      have hbb : b = c₂ := by simpa using hp
      have hbeq : (b == a) = false := by
        rw [ha, hbb]
        exact beq_eq_false_iff_ne.mpr hne
      simp [Buffer.startsWith, List.isPrefixOf, hbeq]

theorem head_nonws_append {l₁ l₂ : List Char} (h₁ : l₁ ≠ [])
    (h : ∀ ch, l₁.head? = some ch → ch.isWhitespace = false) :
    ∀ ch, (l₁ ++ l₂).head? = some ch → ch.isWhitespace = false := by
  intro ch hch
  cases hh : l₁.head? with
  | none =>
    cases l₁ with
    | nil => exact absurd rfl h₁
    | cons a l => simp at hh
  | some a =>
    rw [head?_append_left _ _ a hh] at hch
    cases hch
    exact h _ hh

theorem constsText_getLast_nonws : ∀ (ks : List Val),
    (∀ k ∈ ks, SupportedVal k = true) →
    ∀ ch, (constsText ks).getLast? = some ch → ch.isWhitespace = false
  | [], _, ch, h => absurd h (by simp [constsText])
  | k :: ks, hks, ch, h => by
    have hsk := hks k (List.mem_cons_self _ _)
    have hct : constsText (k :: ks) = (' ' :: renderVal k) ++ constsText ks := by
      simp [constsText]
    rw [hct] at h
    cases hk2 : ks with
    | nil =>
      rw [hk2] at h
      have h0 : constsText ([] : List Val) = [] := by simp [constsText]
      rw [h0, List.append_nil] at h
      rw [show (' ' :: renderVal k) = [' '] ++ renderVal k from rfl] at h
      cases hgl : (renderVal k).getLast? with
      | none => exact absurd (getLast?_none_imp_nil hgl) (renderVal_ne_nil hsk)
      | some x =>
        rw [getLast?_append_right hgl] at h
        cases h
        exact renderVal_nonws hsk _ (mem_of_getLast? hgl)
    | cons k' ks' =>
      rw [hk2] at h
      cases hgl : (constsText (k' :: ks')).getLast? with
      | none =>
        have : constsText (k' :: ks') = [] := getLast?_none_imp_nil hgl
        simp [constsText] at this
      | some x =>
        rw [getLast?_append_right hgl] at h
        cases h
        exact constsText_getLast_nonws (k' :: ks')
          (fun y hy => hks y (by rw [hk2]; exact List.mem_cons_of_mem k hy)) _ hgl

theorem renderNat_head_nonws (n : Nat) :
    ∀ ch, (renderNat n).head? = some ch → ch.isWhitespace = false := by
  intro ch h
  exact isDigit_not_ws (renderNat_all_digit n ch (mem_of_head? h))

theorem parseConstants_stripped (ks : List Val) (r c : Nat)
    (hks : ∀ k ∈ ks, SupportedVal k = true) :
    parseConstants (Buffer.trimLeft ⟨constsText ks, r, c⟩)
      = .ok (⟨[], r, c + (constsText ks).length⟩, ks) := by
  cases ks with
  | nil =>
    have h0 : constsText ([] : List Val) = [] := by simp [constsText]
    rw [h0]
    rfl
  | cons k ks =>
    have hsk := hks k (List.mem_cons_self _ _)
    have hct : constsText (k :: ks) = ' ' :: (renderVal k ++ constsText ks) := by
      simp [constsText]
    have hrvh : ∀ ch, (renderVal k ++ constsText ks).head? = some ch →
        ch.isWhitespace = false :=
      head_nonws_append (renderVal_ne_nil hsk)
        (fun ch hc => renderVal_nonws hsk ch (mem_of_head? hc))
    have htrim : Buffer.trimLeft ⟨constsText (k :: ks), r, c⟩
        = ⟨renderVal k ++ constsText ks, r, c + 1⟩ := by
      rw [hct]
      show trimLeftAux _ _ _ = _
      rw [show (' ' :: (renderVal k ++ constsText ks))
            = [' '] ++ (renderVal k ++ constsText ks) from rfl,
          trimLeftAux_ws_run [' '] (by decide) _ r c,
          trimLeftAux_nonws _ _ _ hrvh]
      rfl
    rw [htrim]
    unfold parseConstants
    have htil : Buffer.til Char.isWhitespace ⟨renderVal k ++ constsText ks, r, c + 1⟩
        = (⟨constsText ks, r, c + 1 + (renderVal k).length⟩, renderVal k) := by
      unfold Buffer.til
      exact tilAux_append _ _ _ _ _ (renderVal_nonws hsk) (constsText_head_ws ks)
    have hne : renderVal k ++ constsText ks ≠ [] := by
      cases hrn : renderVal k with
      | nil => exact absurd hrn (renderVal_ne_nil hsk)
      | cons a l => simp
    show parseConstantsF ((renderVal k ++ constsText ks).length + 1) _ [] = _
    rw [show (renderVal k ++ constsText ks).length + 1
          = (renderVal k).length + (constsText ks).length + 1 by
        simp [List.length_append]]
    simp only [parseConstantsF]
    rw [if_neg (by simpa using hne),
        show Buffer.trimLeft ⟨renderVal k ++ constsText ks, r, c + 1⟩
            = ⟨renderVal k ++ constsText ks, r, c + 1⟩ from trimLeftAux_nonws _ _ _ hrvh,
        htil]
    simp only [parseConst_renderVal hsk, List.nil_append]
    rw [parseConstantsF_constsText ks ((renderVal k).length + (constsText ks).length)
      [k] r (c + 1 + (renderVal k).length)
      (fun x hx => hks x (List.mem_cons_of_mem _ hx))
      (by
        cases hrn : renderVal k with
        | nil => exact absurd hrn (renderVal_ne_nil hsk)
        | cons a l => simp [hrn])]
    have hcol : c + 1 + (renderVal k).length + (constsText ks).length
        = c + (constsText (k :: ks)).length := by
      rw [hct]
      simp only [List.length_cons, List.length_append]
      omega
    rw [hcol]
    simp

theorem parseLine_header (row i lcnt : Nat) (ks : List Val) (defns : List Defn)
    (hlen : defns.length = i) (hi : i ≤ 2 ^ 64 - 1) (hl : lcnt ≤ 255)
    (hks : ∀ k ∈ ks, SupportedVal k = true) :
    parseLine row (headerText i lcnt ks) defns = .ok (defns ++ [⟨ks, [], lcnt⟩]) := by
  have hhead : (headerText i lcnt ks).head? = some 'd' := by
    have e1 : lc "defn" = ['d', 'e', 'f', 'n'] := rfl
    simp [headerText, e1]
  have hre : headerText i lcnt ks
      = ((lc "defn" ++ (' ' :: 'f' :: renderNat i) ++ (' ' :: renderNat lcnt) ++ [' '])
          ++ [':']) ++ constsText ks := by
    unfold headerText
    simp [List.append_assoc]
  have hlast : ∀ ch, (headerText i lcnt ks).getLast? = some ch →
      ch.isWhitespace = false := by
    intro ch h
    cases hk0 : ks with
    | nil =>
      rw [hk0] at hre
      have h0 : constsText ([] : List Val) = [] := by simp [constsText]
      rw [hk0, hre, h0, List.append_nil, List.getLast?_concat] at h
      cases h
      decide
    | cons k' ks' =>
      rw [hk0] at hre h
      cases hgl : (constsText (k' :: ks')).getLast? with
      | none =>
        have : constsText (k' :: ks') = [] := getLast?_none_imp_nil hgl
        simp [constsText] at this
      | some x =>
        rw [hre, getLast?_append_right hgl] at h
        cases h
        exact constsText_getLast_nonws (k' :: ks') (hk0 ▸ hks) _ hgl
  have hnn : headerText i lcnt ks ≠ [] := by
    intro hnil
    rw [hnil] at hhead
    exact Option.noConfusion hhead
  have htrim : Buffer.trim ⟨headerText i lcnt ks, row, 0⟩
      = ⟨headerText i lcnt ks, row, 0⟩ := by
    unfold Buffer.trim
    rw [show Buffer.trimLeft ⟨headerText i lcnt ks, row, 0⟩
          = ⟨headerText i lcnt ks, row, 0⟩ from
        trimLeftAux_nonws _ _ _ (fun ch hch => by rw [hhead] at hch; cases hch; decide)]
    exact trimRight_nonws _ _ _ hlast
  have hsw1 : Buffer.startsWith ⟨headerText i lcnt ks, row, 0⟩ (lc "#") = false :=
    startsWith_head_ne hhead rfl (by decide)
  have hsw2 : Buffer.startsWith ⟨headerText i lcnt ks, row, 0⟩ (lc "defn") = true := by
    unfold headerText
    exact startsWith_pref _ _ _ _
  have htok1 : Buffer.token ⟨headerText i lcnt ks, row, 0⟩ (lc "defn")
      = .ok ⟨' ' :: 'f' :: (renderNat i ++ (' ' :: (renderNat lcnt
          ++ (' ' :: ':' :: constsText ks)))), row, 4⟩ := by
    unfold headerText
    exact token_pref _ _ _ _
  have hsp : Buffer.space ⟨' ' :: 'f' :: (renderNat i ++ (' ' :: (renderNat lcnt
        ++ (' ' :: ':' :: constsText ks)))), row, 4⟩
      = .ok ⟨'f' :: (renderNat i ++ (' ' :: (renderNat lcnt
          ++ (' ' :: ':' :: constsText ks)))), row, 5⟩ :=
    space_cons_ws _ _ _ _ (by decide)
      (fun x hx => by
        have : x = 'f' := by simpa using hx.symm
        rw [this]
        decide)
  have htok2 : Buffer.token ⟨'f' :: (renderNat i ++ (' ' :: (renderNat lcnt
        ++ (' ' :: ':' :: constsText ks)))), row, 5⟩ (lc "f")
      = .ok ⟨renderNat i ++ (' ' :: (renderNat lcnt
          ++ (' ' :: ':' :: constsText ks))), row, 6⟩ :=
    token_pref (lc "f") _ _ _
  have hptil1 : Buffer.parseTilUInt ⟨renderNat i ++ (' ' :: (renderNat lcnt
        ++ (' ' :: ':' :: constsText ks))), row, 6⟩ (2 ^ 64 - 1) Char.isWhitespace
      = .ok (⟨' ' :: (renderNat lcnt ++ (' ' :: ':' :: constsText ks)), row,
          6 + (renderNat i).length⟩, i) :=
    parseTilUInt_ws_spec _ _ hi _
      (fun ch hc => by
        have : ch = ' ' := by simpa using hc.symm
        rw [this]
        decide) _ _
  have htrim2 : Buffer.trimLeft ⟨' ' :: (renderNat lcnt
        ++ (' ' :: ':' :: constsText ks)), row, 6 + (renderNat i).length⟩
      = ⟨renderNat lcnt ++ (' ' :: ':' :: constsText ks), row,
          6 + (renderNat i).length + 1⟩ := by
    show trimLeftAux _ _ _ = _
    rw [show (' ' :: (renderNat lcnt ++ (' ' :: ':' :: constsText ks)))
          = [' '] ++ (renderNat lcnt ++ (' ' :: ':' :: constsText ks)) from rfl,
        trimLeftAux_ws_run [' '] (by decide) _ _ _,
        trimLeftAux_nonws _ _ _
          (head_nonws_append (renderNat_ne_nil lcnt) (renderNat_head_nonws lcnt))]
    rfl
  have hptil2 : Buffer.parseTilUInt ⟨renderNat lcnt ++ (' ' :: ':' :: constsText ks), row,
        6 + (renderNat i).length + 1⟩ 255 Char.isWhitespace
      = .ok (⟨' ' :: ':' :: constsText ks, row,
          6 + (renderNat i).length + 1 + (renderNat lcnt).length⟩, lcnt) :=
    parseTilUInt_ws_spec _ _ hl _
      (fun ch hc => by
        have : ch = ' ' := by simpa using hc.symm
        rw [this]
        decide) _ _
  have htrim3 : Buffer.trimLeft ⟨' ' :: ':' :: constsText ks, row,
        6 + (renderNat i).length + 1 + (renderNat lcnt).length⟩
      = ⟨':' :: constsText ks, row,
          6 + (renderNat i).length + 1 + (renderNat lcnt).length + 1⟩ := by
    show trimLeftAux _ _ _ = _
    rw [show (' ' :: ':' :: constsText ks) = [' '] ++ (':' :: constsText ks) from rfl,
        trimLeftAux_ws_run [' '] (by decide) _ _ _,
        trimLeftAux_nonws _ _ _ (fun ch hc => by
          have : ch = ':' := by simpa using hc.symm
          rw [this]
          decide)]
    rfl
  have htok3 : Buffer.token ⟨':' :: constsText ks, row,
        6 + (renderNat i).length + 1 + (renderNat lcnt).length + 1⟩ (lc ":")
      = .ok ⟨constsText ks, row,
          6 + (renderNat i).length + 1 + (renderNat lcnt).length + 1 + 1⟩ :=
    token_pref (lc ":") _ _ _
  have hpc : parseConstants (Buffer.trimLeft ⟨constsText ks, row,
        6 + (renderNat i).length + 1 + (renderNat lcnt).length + 1 + 1⟩)
      = .ok (⟨[], row, 6 + (renderNat i).length + 1 + (renderNat lcnt).length + 1 + 1
          + (constsText ks).length⟩, ks) :=
    parseConstants_stripped ks _ _ hks
  have hfn : (i ≠ List.length defns) = False :=
    eq_false (by rw [hlen]; exact fun h => h rfl)
  unfold parseLine
  rw [htrim]
  rw [if_neg (by
    rw [hsw1]
    simp [hnn])]
  rw [if_pos (by rw [hsw2])]
  rw [htok1, ebind_ok, hsp, ebind_ok, htok2, ebind_ok, hptil1, ebind_ok]
  simp only [hfn, if_false, ite_false]
  rw [htrim2, hptil2, ebind_ok, htrim3, htok3, ebind_ok, hpc, ebind_ok]
  rfl

/-! ## Instruction lines -/

/-- The instructions the parser can read back from their rendering: the
dispatch of `parse` has no alternative for `jump`, `cond` or the
bitwise/comparison spellings, and `MkTup` prints as `(x<b>; <c>)` while the
parser expects `(x<b>..x<c>)`. -/
def SupportedInstr : Instr → Bool
  | .Const a b => decide (a ≤ 255) && decide (b ≤ 255)
  | .Copy a b => decide (a ≤ 255) && decide (b ≤ 255)
  | .Add a b c => decide (a ≤ 255) && decide (b ≤ 255) && decide (c ≤ 255)
  | .Sub a b c => decide (a ≤ 255) && decide (b ≤ 255) && decide (c ≤ 255)
  | .Mul a b c => decide (a ≤ 255) && decide (b ≤ 255) && decide (c ≤ 255)
  | .Div a b c => decide (a ≤ 255) && decide (b ≤ 255) && decide (c ≤ 255)
  | .Rem a b c => decide (a ≤ 255) && decide (b ≤ 255) && decide (c ≤ 255)
  | .IdxTup a b c => decide (a ≤ 255) && decide (b ≤ 255) && decide (c ≤ 255)
  | .Call a b c => decide (a ≤ 255) && decide (b ≤ 255) && decide (c ≤ 255)
  | .Return none => true
  | .Return (some a) => decide (a ≤ 255)
  | .Read a => decide (a ≤ 255)
  | .Write a => decide (a ≤ 255)
  | _ => false

/-- The source line a rendered instruction occupies (four spaces of
indentation from the `"\n    "` join). -/
def instrLine (ins : Instr) : List Char := lc "    " ++ renderInstr ins

theorem isEmpty_false_of_ne {α : Type} {l : List α} (h : l ≠ []) : l.isEmpty = false := by
  cases l with
  | nil => exact absurd rfl h
  | cons a t => rfl

theorem addr_spec_end (sp pre : List Char) (hsp : ∀ ch ∈ sp, ch.isWhitespace = true)
    (hpre : ∀ ch, pre.head? = some ch → ch.isWhitespace = false)
    (hpne : pre ≠ [])
    (n : Nat) (hn : n ≤ 255) (r c : Nat) :
    Buffer.addr ⟨sp ++ (pre ++ renderNat n), r, c⟩ pre
      = .ok (⟨[], r, c + sp.length + pre.length + (renderNat n).length⟩, n) := by
  have h := addr_spec sp pre hsp hpre hpne n hn [] (by simp) r c
  rwa [List.append_nil] at h

theorem advance_cons (ch : Char) (cs : List Char) (r c : Nat) :
    Buffer.advance ⟨ch :: cs, r, c⟩ 1 = ⟨cs, r, c + 1⟩ := by
  unfold Buffer.advance
  have hm : min 1 (ch :: cs).length = 1 := Nat.min_eq_left (by simp)
  rw [hm]
  rfl

theorem firstTokenOf_found {b : Buffer} {ts : List (List Char)} {t : List Char}
    (hne : ts ≠ [])
    (hfind : ts.find? (fun tk => b.startsWith tk) = some t) :
    b.firstTokenOf ts = .ok (b.advance t.length, t) := by
  unfold Buffer.firstTokenOf
  cases ts with
  | nil => exact absurd rfl hne
  | cons a l => rw [hfind]

theorem getLast_nonws_append_renderNat (l : List Char) (n : Nat) :
    ∀ ch, (l ++ renderNat n).getLast? = some ch → ch.isWhitespace = false := by
  intro ch h
  cases hgl : (renderNat n).getLast? with
  | none => exact absurd (getLast?_none_imp_nil hgl) (renderNat_ne_nil n)
  | some x =>
    rw [getLast?_append_right hgl] at h
    cases h
    exact isDigit_not_ws (renderNat_all_digit n _ (mem_of_getLast? hgl))

theorem trim_instr_line (body : List Char) (row : Nat)
    (hh : ∀ ch, body.head? = some ch → ch.isWhitespace = false)
    (hl : ∀ ch, body.getLast? = some ch → ch.isWhitespace = false) :
    Buffer.trim ⟨lc "    " ++ body, row, 0⟩ = ⟨body, row, 4⟩ := by
  unfold Buffer.trim
  have h1 : Buffer.trimLeft ⟨lc "    " ++ body, row, 0⟩ = ⟨body, row, 4⟩ := by
    show trimLeftAux _ _ _ = _
    rw [trimLeftAux_ws_run (lc "    ") (by decide) body row 0,
        trimLeftAux_nonws _ _ _ hh]
    rfl
  rw [h1]
  exact trimRight_nonws _ _ _ hl

theorem head_eq_of_head? {cs : List Char} {c₁ : Char} (h : cs.head? = some c₁)
    {P : Char → Prop} (hp : P c₁) : ∀ ch, cs.head? = some ch → P ch := by
  intro ch hch
  rw [h] at hch
  cases hch
  exact hp

theorem parseLine_const (row : Nat) (a k : Nat) (ha : a ≤ 255) (hk : k ≤ 255)
    (defns : List Defn) (hd : defns ≠ []) :
    parseLine row (instrLine (.Const a k)) defns
      = .ok (pushInstr defns (.Const a k)) := by
  have hb : instrLine (.Const a k)
      = lc "    " ++ ('x' :: (renderNat a
          ++ (' ' :: ':' :: '=' :: ' ' :: 'k' :: renderNat k))) := by
    unfold instrLine renderInstr
    simp [List.append_assoc, lc]
  rw [hb]
  have hbodyh : ('x' :: (renderNat a ++ (' ' :: ':' :: '=' :: ' ' :: 'k'
      :: renderNat k))).head? = some 'x' := rfl
  have hbodyl : ∀ ch, ('x' :: (renderNat a ++ (' ' :: ':' :: '=' :: ' ' :: 'k'
      :: renderNat k))).getLast? = some ch → ch.isWhitespace = false := by
    intro ch h
    rw [show ('x' :: (renderNat a ++ (' ' :: ':' :: '=' :: ' ' :: 'k' :: renderNat k)))
          = ('x' :: renderNat a ++ [' ', ':', '=', ' ', 'k']) ++ renderNat k by
        simp [List.append_assoc]] at h
    exact getLast_nonws_append_renderNat _ k ch h
  have htrim := trim_instr_line _ row (head_eq_of_head? hbodyh (by decide)) hbodyl
  have haddr1 : Buffer.addr ⟨'x' :: (renderNat a ++ (' ' :: ':' :: '=' :: ' ' :: 'k'
      :: renderNat k)), row, 4⟩ (lc "x")
      = .ok (⟨' ' :: ':' :: '=' :: ' ' :: 'k' :: renderNat k, row,
          4 + (renderNat a).length + 1⟩, a) := by
    have h := addr_spec [] (lc "x") (by simp) (fun ch hc => by cases hc; decide) (by decide)
      a ha (' ' :: ':' :: '=' :: ' ' :: 'k' :: renderNat k)
      (fun ch hc => by cases hc; decide) row 4
    rw [show (4 : Nat) + [].length + (lc "x").length = 4 + 1 from rfl] at h
    rw [show (4 : Nat) + 1 + (renderNat a).length
          = 4 + (renderNat a).length + 1 by omega] at h
    exact h
  have htrim2 : Buffer.trimLeft ⟨' ' :: ':' :: '=' :: ' ' :: 'k' :: renderNat k, row,
        4 + (renderNat a).length + 1⟩
      = ⟨':' :: '=' :: ' ' :: 'k' :: renderNat k, row, 4 + (renderNat a).length + 2⟩ := by
    show trimLeftAux _ _ _ = _
    rw [show (' ' :: ':' :: '=' :: ' ' :: 'k' :: renderNat k)
          = [' '] ++ (':' :: '=' :: ' ' :: 'k' :: renderNat k) from rfl,
        trimLeftAux_ws_run [' '] (by decide) _ _ _,
        trimLeftAux_nonws _ _ _ (fun ch hc => by cases hc; decide)]
    rfl
  have htok : Buffer.token ⟨':' :: '=' :: ' ' :: 'k' :: renderNat k, row,
        4 + (renderNat a).length + 2⟩ (lc ":=")
      = .ok ⟨' ' :: 'k' :: renderNat k, row, 4 + (renderNat a).length + 4⟩ := by
    have h := token_pref (lc ":=") (' ' :: 'k' :: renderNat k) row
      (4 + (renderNat a).length + 2)
    rw [show (4 : Nat) + (renderNat a).length + 2 + (lc ":=").length
          = 4 + (renderNat a).length + 4 by
        show _ + 2 = _
        omega] at h
    exact h
  have htrim3 : Buffer.trimLeft ⟨' ' :: 'k' :: renderNat k, row,
        4 + (renderNat a).length + 4⟩
      = ⟨'k' :: renderNat k, row, 4 + (renderNat a).length + 5⟩ := by
    show trimLeftAux _ _ _ = _
    rw [show (' ' :: 'k' :: renderNat k) = [' '] ++ ('k' :: renderNat k) from rfl,
        trimLeftAux_ws_run [' '] (by decide) _ _ _,
        trimLeftAux_nonws _ _ _ (fun ch hc => by cases hc; decide)]
    rfl
  have haddr2 : Buffer.addr ⟨'k' :: renderNat k, row, 4 + (renderNat a).length + 5⟩ (lc "k")
      = .ok (⟨[], row, 4 + (renderNat a).length + 5 + 1 + (renderNat k).length⟩, k) := by
    have h := addr_spec_end [] (lc "k") (by simp) (fun ch hc => by cases hc; decide)
      (by decide) k hk row (4 + (renderNat a).length + 5)
    rw [show (4 : Nat) + (renderNat a).length + 5 + [].length + (lc "k").length
          = 4 + (renderNat a).length + 5 + 1 from rfl] at h
    exact h
  unfold parseLine
  rw [htrim]
  rw [if_neg (by
    rw [startsWith_head_ne hbodyh (show (lc "#").head? = some '#' from rfl) (by decide)]
    simp)]
  rw [if_neg (by
    rw [startsWith_head_ne hbodyh (show (lc "defn").head? = some 'd' from rfl) (by decide)]
    simp)]
  rw [if_neg (by rw [isEmpty_false_of_ne hd]; simp)]
  rw [if_neg (by
    rw [startsWith_head_ne hbodyh (show (lc "return").head? = some 'r' from rfl) (by decide)]
    simp)]
  rw [if_neg (by
    rw [startsWith_head_ne hbodyh (show (lc "write").head? = some 'w' from rfl) (by decide)]
    simp)]
  simp only [haddr1, ebind_ok]
  rw [htrim2, htok]
  simp only [ebind_ok, htrim3]
  rw [if_pos (by
    rw [show ('k' :: renderNat k) = lc "k" ++ renderNat k from rfl]
    rw [startsWith_pref])]
  simp only [haddr2, ebind_ok]
  rfl

theorem advance_len (tok rest : List Char) (r c : Nat) :
    Buffer.advance ⟨tok ++ rest, r, c⟩ tok.length = ⟨rest, r, c + tok.length⟩ := by
  have hm : min tok.length (tok ++ rest).length = tok.length :=
    Nat.min_eq_left (by simp [List.length_append])
  unfold Buffer.advance
  simp [hm, List.drop_left]

theorem parseLine_copy (row : Nat) (a b : Nat) (ha : a ≤ 255) (hb2 : b ≤ 255)
    (defns : List Defn) (hd : defns ≠ []) :
    parseLine row (instrLine (.Copy a b)) defns
      = .ok (pushInstr defns (.Copy a b)) := by
  have hb : instrLine (.Copy a b)
      = lc "    " ++ ('x' :: (renderNat a
          ++ (' ' :: ':' :: '=' :: ' ' :: 'x' :: renderNat b))) := by
    unfold instrLine renderInstr
    simp [List.append_assoc, lc]
  rw [hb]
  have hbodyh : ('x' :: (renderNat a ++ (' ' :: ':' :: '=' :: ' ' :: 'x'
      :: renderNat b))).head? = some 'x' := rfl
  have hbodyl : ∀ ch, ('x' :: (renderNat a ++ (' ' :: ':' :: '=' :: ' ' :: 'x'
      :: renderNat b))).getLast? = some ch → ch.isWhitespace = false := by
    intro ch h
    rw [show ('x' :: (renderNat a ++ (' ' :: ':' :: '=' :: ' ' :: 'x' :: renderNat b)))
          = ('x' :: renderNat a ++ [' ', ':', '=', ' ', 'x']) ++ renderNat b by
        simp [List.append_assoc]] at h
    exact getLast_nonws_append_renderNat _ b ch h
  have htrim := trim_instr_line _ row (head_eq_of_head? hbodyh (by decide)) hbodyl
  have haddr1 : Buffer.addr ⟨'x' :: (renderNat a ++ (' ' :: ':' :: '=' :: ' ' :: 'x'
      :: renderNat b)), row, 4⟩ (lc "x")
      = .ok (⟨' ' :: ':' :: '=' :: ' ' :: 'x' :: renderNat b, row,
          4 + (renderNat a).length + 1⟩, a) := by
    have h := addr_spec [] (lc "x") (by simp) (fun ch hc => by cases hc; decide) (by decide)
      a ha (' ' :: ':' :: '=' :: ' ' :: 'x' :: renderNat b)
      (fun ch hc => by cases hc; decide) row 4
    rw [show (4 : Nat) + [].length + (lc "x").length = 4 + 1 from rfl] at h
    rw [show (4 : Nat) + 1 + (renderNat a).length
          = 4 + (renderNat a).length + 1 by omega] at h
    exact h
  have htrim2 : Buffer.trimLeft ⟨' ' :: ':' :: '=' :: ' ' :: 'x' :: renderNat b, row,
        4 + (renderNat a).length + 1⟩
      = ⟨':' :: '=' :: ' ' :: 'x' :: renderNat b, row, 4 + (renderNat a).length + 2⟩ := by
    show trimLeftAux _ _ _ = _
    rw [show (' ' :: ':' :: '=' :: ' ' :: 'x' :: renderNat b)
          = [' '] ++ (':' :: '=' :: ' ' :: 'x' :: renderNat b) from rfl,
        trimLeftAux_ws_run [' '] (by decide) _ _ _,
        trimLeftAux_nonws _ _ _ (fun ch hc => by cases hc; decide)]
    rfl
  have htok : Buffer.token ⟨':' :: '=' :: ' ' :: 'x' :: renderNat b, row,
        4 + (renderNat a).length + 2⟩ (lc ":=")
      = .ok ⟨' ' :: 'x' :: renderNat b, row, 4 + (renderNat a).length + 4⟩ := by
    have h := token_pref (lc ":=") (' ' :: 'x' :: renderNat b) row
      (4 + (renderNat a).length + 2)
    rw [show (4 : Nat) + (renderNat a).length + 2 + (lc ":=").length
          = 4 + (renderNat a).length + 4 by
        show _ + 2 = _
        omega] at h
    exact h
  have htrim3 : Buffer.trimLeft ⟨' ' :: 'x' :: renderNat b, row,
        4 + (renderNat a).length + 4⟩
      = ⟨'x' :: renderNat b, row, 4 + (renderNat a).length + 5⟩ := by
    show trimLeftAux _ _ _ = _
    rw [show (' ' :: 'x' :: renderNat b) = [' '] ++ ('x' :: renderNat b) from rfl,
        trimLeftAux_ws_run [' '] (by decide) _ _ _,
        trimLeftAux_nonws _ _ _ (fun ch hc => by cases hc; decide)]
    rfl
  have haddr2 : Buffer.addr ⟨'x' :: renderNat b, row, 4 + (renderNat a).length + 5⟩ (lc "x")
      = .ok (⟨[], row, 4 + (renderNat a).length + 5 + 1 + (renderNat b).length⟩, b) := by
    have h := addr_spec_end [] (lc "x") (by simp) (fun ch hc => by cases hc; decide)
      (by decide) b hb2 row (4 + (renderNat a).length + 5)
    rw [show (4 : Nat) + (renderNat a).length + 5 + [].length + (lc "x").length
          = 4 + (renderNat a).length + 5 + 1 from rfl] at h
    exact h
  unfold parseLine
  rw [htrim]
  rw [if_neg (by
    rw [startsWith_head_ne hbodyh (show (lc "#").head? = some '#' from rfl) (by decide)]
    simp)]
  rw [if_neg (by
    rw [startsWith_head_ne hbodyh (show (lc "defn").head? = some 'd' from rfl) (by decide)]
    simp)]
  rw [if_neg (by rw [isEmpty_false_of_ne hd]; simp)]
  rw [if_neg (by
    rw [startsWith_head_ne hbodyh (show (lc "return").head? = some 'r' from rfl) (by decide)]
    simp)]
  rw [if_neg (by
    rw [startsWith_head_ne hbodyh (show (lc "write").head? = some 'w' from rfl) (by decide)]
    simp)]
  simp only [haddr1, ebind_ok]
  rw [htrim2, htok]
  simp only [ebind_ok, htrim3]
  rw [if_neg (by
    rw [startsWith_head_ne (show ('x' :: renderNat b).head? = some 'x' from rfl)
      (show (lc "k").head? = some 'k' from rfl) (by decide)]
    simp)]
  rw [if_neg (by
    rw [startsWith_head_ne (show ('x' :: renderNat b).head? = some 'x' from rfl)
      (show (lc "(").head? = some '(' from rfl) (by decide)]
    simp)]
  rw [if_neg (by
    rw [startsWith_head_ne (show ('x' :: renderNat b).head? = some 'x' from rfl)
      (show (lc "read").head? = some 'r' from rfl) (by decide)]
    simp)]
  simp only [haddr2, ebind_ok]
  rfl

theorem parseLine_retnone (row : Nat) (defns : List Defn) (hd : defns ≠ []) :
    parseLine row (instrLine (.Return none)) defns
      = .ok (pushInstr defns (.Return none)) := by
  have hb : instrLine (.Return none) = lc "    " ++ lc "return" := by
    unfold instrLine renderInstr
    rfl
  rw [hb]
  have htrim := trim_instr_line (lc "return") row
    (fun ch hc => by cases hc; decide) (fun ch hc => by cases hc; decide)
  have hnn : lc "return" ≠ ([] : List Char) := by decide
  unfold parseLine
  rw [htrim]
  rw [if_neg (by
    rw [startsWith_head_ne (show (lc "return").head? = some 'r' from rfl)
      (show (lc "#").head? = some '#' from rfl) (by decide)]
    simp [hnn])]
  rw [if_neg (by
    rw [startsWith_head_ne (show (lc "return").head? = some 'r' from rfl)
      (show (lc "defn").head? = some 'd' from rfl) (by decide)]
    simp)]
  rw [if_neg (by rw [isEmpty_false_of_ne hd]; simp)]
  rw [if_pos (by exact startsWith_pref (lc "return") [] row 4)]
  rfl

theorem parseLine_retsome (row : Nat) (a : Nat) (ha : a ≤ 255)
    (defns : List Defn) (hd : defns ≠ []) :
    parseLine row (instrLine (.Return (some a))) defns
      = .ok (pushInstr defns (.Return (some a))) := by
  have hb : instrLine (.Return (some a))
      = lc "    " ++ (lc "return" ++ (' ' :: 'x' :: renderNat a)) := by
    unfold instrLine renderInstr
    simp [List.append_assoc, lc]
  rw [hb]
  have hbodyh : (lc "return" ++ (' ' :: 'x' :: renderNat a)).head? = some 'r' := rfl
  have hbodyl : ∀ ch, (lc "return" ++ (' ' :: 'x' :: renderNat a)).getLast? = some ch →
      ch.isWhitespace = false := by
    intro ch h
    rw [show (lc "return" ++ (' ' :: 'x' :: renderNat a))
          = (lc "return" ++ [' ', 'x']) ++ renderNat a by simp [List.append_assoc]] at h
    exact getLast_nonws_append_renderNat _ a ch h
  have htrim := trim_instr_line _ row (head_eq_of_head? hbodyh (by decide)) hbodyl
  have htok : Buffer.token ⟨lc "return" ++ (' ' :: 'x' :: renderNat a), row, 4⟩ (lc "return")
      = .ok ⟨' ' :: 'x' :: renderNat a, row, 10⟩ :=
    token_pref (lc "return") _ _ _
  have hsoe : Buffer.spaceOrEnd ⟨' ' :: 'x' :: renderNat a, row, 10⟩
      = .ok ⟨'x' :: renderNat a, row, 11⟩ := by
    unfold Buffer.spaceOrEnd
    rw [if_neg (by simp)]
    exact space_cons_ws _ _ _ _ (by decide) (fun x hx => by cases hx; decide)
  have haddr : Buffer.addr ⟨'x' :: renderNat a, row, 11⟩ (lc "x")
      = .ok (⟨[], row, 11 + 1 + (renderNat a).length⟩, a) := by
    have h := addr_spec_end [] (lc "x") (by simp) (fun ch hc => by cases hc; decide)
      (by decide) a ha row 11
    rw [show (11 : Nat) + [].length + (lc "x").length = 11 + 1 from rfl] at h
    exact h
  unfold parseLine
  rw [htrim]
  rw [if_neg (by
    rw [startsWith_head_ne hbodyh (show (lc "#").head? = some '#' from rfl) (by decide)]
    simp)]
  rw [if_neg (by
    rw [startsWith_head_ne hbodyh (show (lc "defn").head? = some 'd' from rfl) (by decide)]
    simp)]
  rw [if_neg (by rw [isEmpty_false_of_ne hd]; simp)]
  rw [if_pos (by rw [startsWith_pref])]
  rw [htok]
  simp only [ebind_ok]
  rw [hsoe]
  simp only [ebind_ok]
  rw [if_neg (by simp)]
  simp only [haddr, ebind_ok]
  rfl

theorem parseLine_read (row : Nat) (a : Nat) (ha : a ≤ 255)
    (defns : List Defn) (hd : defns ≠ []) :
    parseLine row (instrLine (.Read a)) defns
      = .ok (pushInstr defns (.Read a)) := by
  have hb : instrLine (.Read a)
      = lc "    " ++ ('x' :: (renderNat a
          ++ (' ' :: ':' :: '=' :: ' ' :: 'r' :: 'e' :: 'a' :: 'd' :: []))) := by
    unfold instrLine renderInstr
    simp [List.append_assoc, lc]
  rw [hb]
  have hbodyh : ('x' :: (renderNat a ++ (' ' :: ':' :: '=' :: ' ' :: 'r' :: 'e' :: 'a'
      :: 'd' :: []))).head? = some 'x' := rfl
  have hbodyl : ∀ ch, ('x' :: (renderNat a ++ (' ' :: ':' :: '=' :: ' ' :: 'r' :: 'e'
      :: 'a' :: 'd' :: []))).getLast? = some ch → ch.isWhitespace = false := by
    intro ch h
    rw [show ('x' :: (renderNat a ++ (' ' :: ':' :: '=' :: ' ' :: 'r' :: 'e' :: 'a'
          :: 'd' :: [])))
          = ('x' :: renderNat a) ++ [' ', ':', '=', ' ', 'r', 'e', 'a', 'd'] by
        simp [List.append_assoc]] at h
    rw [getLast?_append_right (show ([' ', ':', '=', ' ', 'r', 'e', 'a', 'd']
        : List Char).getLast? = some 'd' from rfl)] at h
    cases h
    decide
  have htrim := trim_instr_line _ row (head_eq_of_head? hbodyh (by decide)) hbodyl
  have haddr1 : Buffer.addr ⟨'x' :: (renderNat a ++ (' ' :: ':' :: '=' :: ' ' :: 'r'
      :: 'e' :: 'a' :: 'd' :: [])), row, 4⟩ (lc "x")
      = .ok (⟨' ' :: ':' :: '=' :: ' ' :: 'r' :: 'e' :: 'a' :: 'd' :: [], row,
          4 + (renderNat a).length + 1⟩, a) := by
    have h := addr_spec [] (lc "x") (by simp) (fun ch hc => by cases hc; decide) (by decide)
      a ha (' ' :: ':' :: '=' :: ' ' :: 'r' :: 'e' :: 'a' :: 'd' :: [])
      (fun ch hc => by cases hc; decide) row 4
    rw [show (4 : Nat) + [].length + (lc "x").length = 4 + 1 from rfl] at h
    rw [show (4 : Nat) + 1 + (renderNat a).length
          = 4 + (renderNat a).length + 1 by omega] at h
    exact h
  have htrim2 : Buffer.trimLeft ⟨' ' :: ':' :: '=' :: ' ' :: 'r' :: 'e' :: 'a' :: 'd'
        :: [], row, 4 + (renderNat a).length + 1⟩
      = ⟨':' :: '=' :: ' ' :: 'r' :: 'e' :: 'a' :: 'd' :: [], row,
          4 + (renderNat a).length + 2⟩ := by
    show trimLeftAux _ _ _ = _
    rw [show (' ' :: ':' :: '=' :: ' ' :: 'r' :: 'e' :: 'a' :: 'd' :: ([] : List Char))
          = [' '] ++ (':' :: '=' :: ' ' :: 'r' :: 'e' :: 'a' :: 'd' :: []) from rfl,
        trimLeftAux_ws_run [' '] (by decide) _ _ _,
        trimLeftAux_nonws _ _ _ (fun ch hc => by cases hc; decide)]
    rfl
  have htok : Buffer.token ⟨':' :: '=' :: ' ' :: 'r' :: 'e' :: 'a' :: 'd' :: [], row,
        4 + (renderNat a).length + 2⟩ (lc ":=")
      = .ok ⟨' ' :: 'r' :: 'e' :: 'a' :: 'd' :: [], row,
          4 + (renderNat a).length + 4⟩ := by
    have h := token_pref (lc ":=") (' ' :: 'r' :: 'e' :: 'a' :: 'd' :: []) row
      (4 + (renderNat a).length + 2)
    rw [show (4 : Nat) + (renderNat a).length + 2 + (lc ":=").length
          = 4 + (renderNat a).length + 4 by
        show _ + 2 = _
        omega] at h
    exact h
  have htrim3 : Buffer.trimLeft ⟨' ' :: 'r' :: 'e' :: 'a' :: 'd' :: [], row,
        4 + (renderNat a).length + 4⟩
      = ⟨'r' :: 'e' :: 'a' :: 'd' :: [], row, 4 + (renderNat a).length + 5⟩ := by
    show trimLeftAux _ _ _ = _
    rw [show (' ' :: 'r' :: 'e' :: 'a' :: 'd' :: ([] : List Char))
          = [' '] ++ ('r' :: 'e' :: 'a' :: 'd' :: []) from rfl,
        trimLeftAux_ws_run [' '] (by decide) _ _ _,
        trimLeftAux_nonws _ _ _ (fun ch hc => by cases hc; decide)]
    rfl
  unfold parseLine
  rw [htrim]
  rw [if_neg (by
    rw [startsWith_head_ne hbodyh (show (lc "#").head? = some '#' from rfl) (by decide)]
    simp)]
  rw [if_neg (by
    rw [startsWith_head_ne hbodyh (show (lc "defn").head? = some 'd' from rfl) (by decide)]
    simp)]
  rw [if_neg (by rw [isEmpty_false_of_ne hd]; simp)]
  rw [if_neg (by
    rw [startsWith_head_ne hbodyh (show (lc "return").head? = some 'r' from rfl) (by decide)]
    simp)]
  rw [if_neg (by
    rw [startsWith_head_ne hbodyh (show (lc "write").head? = some 'w' from rfl) (by decide)]
    simp)]
  simp only [haddr1, ebind_ok]
  rw [htrim2, htok]
  simp only [ebind_ok, htrim3]
  rw [if_neg (by
    rw [startsWith_head_ne (show ('r' :: 'e' :: 'a' :: 'd' :: []
        : List Char).head? = some 'r' from rfl)
      (show (lc "k").head? = some 'k' from rfl) (by decide)]
    simp)]
  rw [if_neg (by
    rw [startsWith_head_ne (show ('r' :: 'e' :: 'a' :: 'd' :: []
        : List Char).head? = some 'r' from rfl)
      (show (lc "(").head? = some '(' from rfl) (by decide)]
    simp)]
  rw [if_pos (by exact startsWith_pref (lc "read") [] row (4 + (renderNat a).length + 5))]
  rfl

theorem parseLine_write (row : Nat) (a : Nat) (ha : a ≤ 255)
    (defns : List Defn) (hd : defns ≠ []) :
    parseLine row (instrLine (.Write a)) defns
      = .ok (pushInstr defns (.Write a)) := by
  have hb : instrLine (.Write a)
      = lc "    " ++ (lc "write" ++ (' ' :: 'x' :: renderNat a)) := by
    unfold instrLine renderInstr
    simp [List.append_assoc, lc]
  rw [hb]
  have hbodyh : (lc "write" ++ (' ' :: 'x' :: renderNat a)).head? = some 'w' := rfl
  have hbodyl : ∀ ch, (lc "write" ++ (' ' :: 'x' :: renderNat a)).getLast? = some ch →
      ch.isWhitespace = false := by
    intro ch h
    rw [show (lc "write" ++ (' ' :: 'x' :: renderNat a))
          = (lc "write" ++ [' ', 'x']) ++ renderNat a by simp [List.append_assoc]] at h
    exact getLast_nonws_append_renderNat _ a ch h
  have htrim := trim_instr_line _ row (head_eq_of_head? hbodyh (by decide)) hbodyl
  have htok : Buffer.token ⟨lc "write" ++ (' ' :: 'x' :: renderNat a), row, 4⟩ (lc "write")
      = .ok ⟨' ' :: 'x' :: renderNat a, row, 9⟩ :=
    token_pref (lc "write") _ _ _
  have hsp : Buffer.space ⟨' ' :: 'x' :: renderNat a, row, 9⟩
      = .ok ⟨'x' :: renderNat a, row, 10⟩ :=
    space_cons_ws _ _ _ _ (by decide) (fun x hx => by cases hx; decide)
  have haddr : Buffer.addr ⟨'x' :: renderNat a, row, 10⟩ (lc "x")
      = .ok (⟨[], row, 10 + 1 + (renderNat a).length⟩, a) := by
    have h := addr_spec_end [] (lc "x") (by simp) (fun ch hc => by cases hc; decide)
      (by decide) a ha row 10
    rw [show (10 : Nat) + [].length + (lc "x").length = 10 + 1 from rfl] at h
    exact h
  unfold parseLine
  rw [htrim]
  rw [if_neg (by
    rw [startsWith_head_ne hbodyh (show (lc "#").head? = some '#' from rfl) (by decide)]
    simp)]
  rw [if_neg (by
    rw [startsWith_head_ne hbodyh (show (lc "defn").head? = some 'd' from rfl) (by decide)]
    simp)]
  rw [if_neg (by rw [isEmpty_false_of_ne hd]; simp)]
  rw [if_neg (by
    rw [startsWith_head_ne hbodyh (show (lc "return").head? = some 'r' from rfl) (by decide)]
    simp)]
  rw [if_pos (by rw [startsWith_pref])]
  rw [htok]
  simp only [ebind_ok]
  rw [hsp]
  simp only [ebind_ok]
  simp only [haddr, ebind_ok]
  rfl

theorem parseLine_add (row : Nat) (a b c : Nat) (ha : a ≤ 255) (hb2 : b ≤ 255)
    (hc2 : c ≤ 255) (defns : List Defn) (hd : defns ≠ []) :
    parseLine row (instrLine (.Add a b c)) defns
      = .ok (pushInstr defns (.Add a b c)) := by
  have hb : instrLine (.Add a b c)
      = lc "    " ++ ('x' :: (renderNat a
          ++ (' ' :: ':' :: '=' :: ' ' :: 'x' :: (renderNat b
            ++ (' ' :: '+' :: ' ' :: 'x' :: renderNat c))))) := by
    unfold instrLine renderInstr
    simp [List.append_assoc, lc]
  rw [hb]
  have hbodyh : ('x' :: (renderNat a ++ (' ' :: ':' :: '=' :: ' ' :: 'x' :: (renderNat b
      ++ (' ' :: '+' :: ' ' :: 'x' :: renderNat c))))).head? = some 'x' := rfl
  have hbodyl : ∀ ch, ('x' :: (renderNat a ++ (' ' :: ':' :: '=' :: ' ' :: 'x'
      :: (renderNat b ++ (' ' :: '+' :: ' ' :: 'x'
        :: renderNat c))))).getLast? = some ch → ch.isWhitespace = false := by
    intro ch h
    rw [show ('x' :: (renderNat a ++ (' ' :: ':' :: '=' :: ' ' :: 'x' :: (renderNat b
          ++ (' ' :: '+' :: ' ' :: 'x' :: renderNat c)))))
          = (('x' :: renderNat a ++ [' ', ':', '=', ' ', 'x'] ++ renderNat b
              ++ [' ', '+', ' ', 'x']) ++ renderNat c) by
        simp [List.append_assoc]] at h
    exact getLast_nonws_append_renderNat _ c ch h
  have htrim := trim_instr_line _ row (head_eq_of_head? hbodyh (by decide)) hbodyl
  have haddr1 : Buffer.addr ⟨'x' :: (renderNat a ++ (' ' :: ':' :: '=' :: ' ' :: 'x'
      :: (renderNat b ++ (' ' :: '+' :: ' ' :: 'x' :: renderNat c)))), row, 4⟩ (lc "x")
      = .ok (⟨' ' :: ':' :: '=' :: ' ' :: 'x' :: (renderNat b
          ++ (' ' :: '+' :: ' ' :: 'x' :: renderNat c)), row,
          4 + (renderNat a).length + 1⟩, a) := by
    have h := addr_spec [] (lc "x") (by simp) (fun ch hc => by cases hc; decide) (by decide)
      a ha (' ' :: ':' :: '=' :: ' ' :: 'x' :: (renderNat b
        ++ (' ' :: '+' :: ' ' :: 'x' :: renderNat c)))
      (fun ch hc => by cases hc; decide) row 4
    rw [show (4 : Nat) + [].length + (lc "x").length = 4 + 1 from rfl] at h
    rw [show (4 : Nat) + 1 + (renderNat a).length
          = 4 + (renderNat a).length + 1 by omega] at h
    exact h
  have htrim2 : Buffer.trimLeft ⟨' ' :: ':' :: '=' :: ' ' :: 'x' :: (renderNat b
        ++ (' ' :: '+' :: ' ' :: 'x' :: renderNat c)), row,
        4 + (renderNat a).length + 1⟩
      = ⟨':' :: '=' :: ' ' :: 'x' :: (renderNat b
          ++ (' ' :: '+' :: ' ' :: 'x' :: renderNat c)), row,
          4 + (renderNat a).length + 2⟩ := by
    show trimLeftAux _ _ _ = _
    rw [show (' ' :: ':' :: '=' :: ' ' :: 'x' :: (renderNat b
            ++ (' ' :: '+' :: ' ' :: 'x' :: renderNat c)))
          = [' '] ++ (':' :: '=' :: ' ' :: 'x' :: (renderNat b
            ++ (' ' :: '+' :: ' ' :: 'x' :: renderNat c))) from rfl,
        trimLeftAux_ws_run [' '] (by decide) _ _ _,
        trimLeftAux_nonws _ _ _ (fun ch hc => by cases hc; decide)]
    rfl
  have htok : Buffer.token ⟨':' :: '=' :: ' ' :: 'x' :: (renderNat b
        ++ (' ' :: '+' :: ' ' :: 'x' :: renderNat c)), row,
        4 + (renderNat a).length + 2⟩ (lc ":=")
      = .ok ⟨' ' :: 'x' :: (renderNat b ++ (' ' :: '+' :: ' ' :: 'x' :: renderNat c)),
          row, 4 + (renderNat a).length + 4⟩ := by
    have h := token_pref (lc ":=") (' ' :: 'x' :: (renderNat b
      ++ (' ' :: '+' :: ' ' :: 'x' :: renderNat c))) row (4 + (renderNat a).length + 2)
    rw [show (4 : Nat) + (renderNat a).length + 2 + (lc ":=").length
          = 4 + (renderNat a).length + 4 by
        show _ + 2 = _
        omega] at h
    exact h
  have htrim3 : Buffer.trimLeft ⟨' ' :: 'x' :: (renderNat b
        ++ (' ' :: '+' :: ' ' :: 'x' :: renderNat c)), row,
        4 + (renderNat a).length + 4⟩
      = ⟨'x' :: (renderNat b ++ (' ' :: '+' :: ' ' :: 'x' :: renderNat c)), row,
          4 + (renderNat a).length + 5⟩ := by
    show trimLeftAux _ _ _ = _
    rw [show (' ' :: 'x' :: (renderNat b ++ (' ' :: '+' :: ' ' :: 'x' :: renderNat c)))
          = [' '] ++ ('x' :: (renderNat b
            ++ (' ' :: '+' :: ' ' :: 'x' :: renderNat c))) from rfl,
        trimLeftAux_ws_run [' '] (by decide) _ _ _,
        trimLeftAux_nonws _ _ _ (fun ch hc => by cases hc; decide)]
    rfl
  have haddr2 : Buffer.addr ⟨'x' :: (renderNat b
        ++ (' ' :: '+' :: ' ' :: 'x' :: renderNat c)), row,
        4 + (renderNat a).length + 5⟩ (lc "x")
      = .ok (⟨' ' :: '+' :: ' ' :: 'x' :: renderNat c, row,
          4 + (renderNat a).length + 5 + 1 + (renderNat b).length⟩, b) := by
    have h := addr_spec [] (lc "x") (by simp) (fun ch hc => by cases hc; decide) (by decide)
      b hb2 (' ' :: '+' :: ' ' :: 'x' :: renderNat c)
      (fun ch hc => by cases hc; decide) row (4 + (renderNat a).length + 5)
    rw [show (4 : Nat) + (renderNat a).length + 5 + [].length + (lc "x").length
          = 4 + (renderNat a).length + 5 + 1 from rfl] at h
    exact h
  have htrim4 : Buffer.trimLeft ⟨' ' :: '+' :: ' ' :: 'x' :: renderNat c, row,
        4 + (renderNat a).length + 5 + 1 + (renderNat b).length⟩
      = ⟨lc "+" ++ (' ' :: 'x' :: renderNat c), row,
          4 + (renderNat a).length + 5 + 1 + (renderNat b).length + 1⟩ := by
    show trimLeftAux _ _ _ = _
    rw [show (' ' :: '+' :: ' ' :: 'x' :: renderNat c)
          = [' '] ++ ('+' :: ' ' :: 'x' :: renderNat c) from rfl,
        trimLeftAux_ws_run [' '] (by decide) _ _ _,
        trimLeftAux_nonws _ _ _ (fun ch hc => by cases hc; decide)]
    rfl
  have hfind : ([lc "+", lc "-", lc "*", lc "/", lc "%", lc "(", lc "["]).find?
        (fun tk => Buffer.startsWith ⟨lc "+" ++ (' ' :: 'x' :: renderNat c), row,
          4 + (renderNat a).length + 5 + 1 + (renderNat b).length + 1⟩ tk)
      = some (lc "+") := by
    simp [List.find?, startsWith_pref]
  have hfto : Buffer.firstTokenOf ⟨lc "+" ++ (' ' :: 'x' :: renderNat c), row,
        4 + (renderNat a).length + 5 + 1 + (renderNat b).length + 1⟩
        [lc "+", lc "-", lc "*", lc "/", lc "%", lc "(", lc "["]
      = .ok (⟨' ' :: 'x' :: renderNat c, row,
          4 + (renderNat a).length + 5 + 1 + (renderNat b).length + 2⟩, lc "+") := by
    rw [firstTokenOf_found (by simp) hfind, advance_len]
    rfl
  have haddr3 : Buffer.addr ⟨' ' :: 'x' :: renderNat c, row,
        4 + (renderNat a).length + 5 + 1 + (renderNat b).length + 2⟩ (lc "x")
      = .ok (⟨[], row, 4 + (renderNat a).length + 5 + 1 + (renderNat b).length + 2
          + 1 + 1 + (renderNat c).length⟩, c) := by
    have h := addr_spec_end [' '] (lc "x") (by decide)
      (fun ch hc => by cases hc; decide) (by decide) c hc2 row
      (4 + (renderNat a).length + 5 + 1 + (renderNat b).length + 2)
    rw [show (4 : Nat) + (renderNat a).length + 5 + 1 + (renderNat b).length + 2
          + [' '].length + (lc "x").length
          = 4 + (renderNat a).length + 5 + 1 + (renderNat b).length + 2 + 1 + 1 from rfl] at h
    exact h
  unfold parseLine
  rw [htrim]
  rw [if_neg (by
    rw [startsWith_head_ne hbodyh (show (lc "#").head? = some '#' from rfl) (by decide)]
    simp)]
  rw [if_neg (by
    rw [startsWith_head_ne hbodyh (show (lc "defn").head? = some 'd' from rfl) (by decide)]
    simp)]
  rw [if_neg (by rw [isEmpty_false_of_ne hd]; simp)]
  rw [if_neg (by
    rw [startsWith_head_ne hbodyh (show (lc "return").head? = some 'r' from rfl) (by decide)]
    simp)]
  rw [if_neg (by
    rw [startsWith_head_ne hbodyh (show (lc "write").head? = some 'w' from rfl) (by decide)]
    simp)]
  simp only [haddr1, ebind_ok]
  rw [htrim2, htok]
  simp only [ebind_ok, htrim3]
  rw [if_neg (by
    rw [startsWith_head_ne (show ('x' :: (renderNat b
        ++ (' ' :: '+' :: ' ' :: 'x' :: renderNat c))).head? = some 'x' from rfl)
      (show (lc "k").head? = some 'k' from rfl) (by decide)]
    simp)]
  rw [if_neg (by
    rw [startsWith_head_ne (show ('x' :: (renderNat b
        ++ (' ' :: '+' :: ' ' :: 'x' :: renderNat c))).head? = some 'x' from rfl)
      (show (lc "(").head? = some '(' from rfl) (by decide)]
    simp)]
  rw [if_neg (by
    rw [startsWith_head_ne (show ('x' :: (renderNat b
        ++ (' ' :: '+' :: ' ' :: 'x' :: renderNat c))).head? = some 'x' from rfl)
      (show (lc "read").head? = some 'r' from rfl) (by decide)]
    simp)]
  simp only [haddr2, ebind_ok, htrim4]
  rw [if_neg (by
    simp [show (lc "+" ++ (' ' :: 'x' :: renderNat c))
        = '+' :: (' ' :: 'x' :: renderNat c) from rfl])]
  rw [hfto]
  simp only [ebind_ok]
  rw [if_neg (by decide), if_neg (by decide)]
  simp only [haddr3, ebind_ok]
  rfl


theorem parseLine_sub (row : Nat) (a b c : Nat) (ha : a ≤ 255) (hb2 : b ≤ 255)
    (hc2 : c ≤ 255) (defns : List Defn) (hd : defns ≠ []) :
    parseLine row (instrLine (.Sub a b c)) defns
      = .ok (pushInstr defns (.Sub a b c)) := by
  have hb : instrLine (.Sub a b c)
      = lc "    " ++ ('x' :: (renderNat a
          ++ (' ' :: ':' :: '=' :: ' ' :: 'x' :: (renderNat b
            ++ (' ' :: '-' :: ' ' :: 'x' :: renderNat c))))) := by
    unfold instrLine renderInstr
    simp [List.append_assoc, lc]
  rw [hb]
  have hbodyh : ('x' :: (renderNat a ++ (' ' :: ':' :: '=' :: ' ' :: 'x' :: (renderNat b
      ++ (' ' :: '-' :: ' ' :: 'x' :: renderNat c))))).head? = some 'x' := rfl
  have hbodyl : ∀ ch, ('x' :: (renderNat a ++ (' ' :: ':' :: '=' :: ' ' :: 'x'
      :: (renderNat b ++ (' ' :: '-' :: ' ' :: 'x'
        :: renderNat c))))).getLast? = some ch → ch.isWhitespace = false := by
    intro ch h
    rw [show ('x' :: (renderNat a ++ (' ' :: ':' :: '=' :: ' ' :: 'x' :: (renderNat b
          ++ (' ' :: '-' :: ' ' :: 'x' :: renderNat c)))))
          = (('x' :: renderNat a ++ [' ', ':', '=', ' ', 'x'] ++ renderNat b
              ++ [' ', '-', ' ', 'x']) ++ renderNat c) by
        simp [List.append_assoc]] at h
    exact getLast_nonws_append_renderNat _ c ch h
  have htrim := trim_instr_line _ row (head_eq_of_head? hbodyh (by decide)) hbodyl
  have haddr1 : Buffer.addr ⟨'x' :: (renderNat a ++ (' ' :: ':' :: '=' :: ' ' :: 'x'
      :: (renderNat b ++ (' ' :: '-' :: ' ' :: 'x' :: renderNat c)))), row, 4⟩ (lc "x")
      = .ok (⟨' ' :: ':' :: '=' :: ' ' :: 'x' :: (renderNat b
          ++ (' ' :: '-' :: ' ' :: 'x' :: renderNat c)), row,
          4 + (renderNat a).length + 1⟩, a) := by
    have h := addr_spec [] (lc "x") (by simp) (fun ch hc => by cases hc; decide) (by decide)
      a ha (' ' :: ':' :: '=' :: ' ' :: 'x' :: (renderNat b
        ++ (' ' :: '-' :: ' ' :: 'x' :: renderNat c)))
      (fun ch hc => by cases hc; decide) row 4
    rw [show (4 : Nat) + [].length + (lc "x").length = 4 + 1 from rfl] at h
    rw [show (4 : Nat) + 1 + (renderNat a).length
          = 4 + (renderNat a).length + 1 by omega] at h
    exact h
  have htrim2 : Buffer.trimLeft ⟨' ' :: ':' :: '=' :: ' ' :: 'x' :: (renderNat b
        ++ (' ' :: '-' :: ' ' :: 'x' :: renderNat c)), row,
        4 + (renderNat a).length + 1⟩
      = ⟨':' :: '=' :: ' ' :: 'x' :: (renderNat b
          ++ (' ' :: '-' :: ' ' :: 'x' :: renderNat c)), row,
          4 + (renderNat a).length + 2⟩ := by
    show trimLeftAux _ _ _ = _
    rw [show (' ' :: ':' :: '=' :: ' ' :: 'x' :: (renderNat b
            ++ (' ' :: '-' :: ' ' :: 'x' :: renderNat c)))
          = [' '] ++ (':' :: '=' :: ' ' :: 'x' :: (renderNat b
            ++ (' ' :: '-' :: ' ' :: 'x' :: renderNat c))) from rfl,
        trimLeftAux_ws_run [' '] (by decide) _ _ _,
        trimLeftAux_nonws _ _ _ (fun ch hc => by cases hc; decide)]
    rfl
  have htok : Buffer.token ⟨':' :: '=' :: ' ' :: 'x' :: (renderNat b
        ++ (' ' :: '-' :: ' ' :: 'x' :: renderNat c)), row,
        4 + (renderNat a).length + 2⟩ (lc ":=")
      = .ok ⟨' ' :: 'x' :: (renderNat b ++ (' ' :: '-' :: ' ' :: 'x' :: renderNat c)),
          row, 4 + (renderNat a).length + 4⟩ := by
    have h := token_pref (lc ":=") (' ' :: 'x' :: (renderNat b
      ++ (' ' :: '-' :: ' ' :: 'x' :: renderNat c))) row (4 + (renderNat a).length + 2)
    rw [show (4 : Nat) + (renderNat a).length + 2 + (lc ":=").length
          = 4 + (renderNat a).length + 4 by
        show _ + 2 = _
        omega] at h
    exact h
  have htrim3 : Buffer.trimLeft ⟨' ' :: 'x' :: (renderNat b
        ++ (' ' :: '-' :: ' ' :: 'x' :: renderNat c)), row,
        4 + (renderNat a).length + 4⟩
      = ⟨'x' :: (renderNat b ++ (' ' :: '-' :: ' ' :: 'x' :: renderNat c)), row,
          4 + (renderNat a).length + 5⟩ := by
    show trimLeftAux _ _ _ = _
    rw [show (' ' :: 'x' :: (renderNat b ++ (' ' :: '-' :: ' ' :: 'x' :: renderNat c)))
          = [' '] ++ ('x' :: (renderNat b
            ++ (' ' :: '-' :: ' ' :: 'x' :: renderNat c))) from rfl,
        trimLeftAux_ws_run [' '] (by decide) _ _ _,
        trimLeftAux_nonws _ _ _ (fun ch hc => by cases hc; decide)]
    rfl
  have haddr2 : Buffer.addr ⟨'x' :: (renderNat b
        ++ (' ' :: '-' :: ' ' :: 'x' :: renderNat c)), row,
        4 + (renderNat a).length + 5⟩ (lc "x")
      = .ok (⟨' ' :: '-' :: ' ' :: 'x' :: renderNat c, row,
          4 + (renderNat a).length + 5 + 1 + (renderNat b).length⟩, b) := by
    have h := addr_spec [] (lc "x") (by simp) (fun ch hc => by cases hc; decide) (by decide)
      b hb2 (' ' :: '-' :: ' ' :: 'x' :: renderNat c)
      (fun ch hc => by cases hc; decide) row (4 + (renderNat a).length + 5)
    rw [show (4 : Nat) + (renderNat a).length + 5 + [].length + (lc "x").length
          = 4 + (renderNat a).length + 5 + 1 from rfl] at h
    exact h
  have htrim4 : Buffer.trimLeft ⟨' ' :: '-' :: ' ' :: 'x' :: renderNat c, row,
        4 + (renderNat a).length + 5 + 1 + (renderNat b).length⟩
      = ⟨lc "-" ++ (' ' :: 'x' :: renderNat c), row,
          4 + (renderNat a).length + 5 + 1 + (renderNat b).length + 1⟩ := by
    show trimLeftAux _ _ _ = _
    rw [show (' ' :: '-' :: ' ' :: 'x' :: renderNat c)
          = [' '] ++ ('-' :: ' ' :: 'x' :: renderNat c) from rfl,
        trimLeftAux_ws_run [' '] (by decide) _ _ _,
        trimLeftAux_nonws _ _ _ (fun ch hc => by cases hc; decide)]
    rfl
  have hfx0 : Buffer.startsWith ⟨lc "-" ++ (' ' :: 'x' :: renderNat c), row,
        4 + (renderNat a).length + 5 + 1 + (renderNat b).length + 1⟩ (lc "+") = false :=
    startsWith_head_ne (show (lc "-" ++ (' ' :: 'x' :: renderNat c)).head?
        = some '-' from rfl)
      (show (lc "+").head? = some '+' from rfl) (by decide)
  have hfind : ([lc "+", lc "-", lc "*", lc "/", lc "%", lc "(", lc "["]).find?
        (fun tk => Buffer.startsWith ⟨lc "-" ++ (' ' :: 'x' :: renderNat c), row,
          4 + (renderNat a).length + 5 + 1 + (renderNat b).length + 1⟩ tk)
      = some (lc "-") := by
    simp [List.find?, startsWith_pref, hfx0]
  have hfto : Buffer.firstTokenOf ⟨lc "-" ++ (' ' :: 'x' :: renderNat c), row,
        4 + (renderNat a).length + 5 + 1 + (renderNat b).length + 1⟩
        [lc "+", lc "-", lc "*", lc "/", lc "%", lc "(", lc "["]
      = .ok (⟨' ' :: 'x' :: renderNat c, row,
          4 + (renderNat a).length + 5 + 1 + (renderNat b).length + 2⟩, lc "-") := by
    rw [firstTokenOf_found (by simp) hfind, advance_len]
    rfl
  have haddr3 : Buffer.addr ⟨' ' :: 'x' :: renderNat c, row,
        4 + (renderNat a).length + 5 + 1 + (renderNat b).length + 2⟩ (lc "x")
      = .ok (⟨[], row, 4 + (renderNat a).length + 5 + 1 + (renderNat b).length + 2
          + 1 + 1 + (renderNat c).length⟩, c) := by
    have h := addr_spec_end [' '] (lc "x") (by decide)
      (fun ch hc => by cases hc; decide) (by decide) c hc2 row
      (4 + (renderNat a).length + 5 + 1 + (renderNat b).length + 2)
    rw [show (4 : Nat) + (renderNat a).length + 5 + 1 + (renderNat b).length + 2
          + [' '].length + (lc "x").length
          = 4 + (renderNat a).length + 5 + 1 + (renderNat b).length + 2 + 1 + 1 from rfl] at h
    exact h
  unfold parseLine
  rw [htrim]
  rw [if_neg (by
    rw [startsWith_head_ne hbodyh (show (lc "#").head? = some '#' from rfl) (by decide)]
    simp)]
  rw [if_neg (by
    rw [startsWith_head_ne hbodyh (show (lc "defn").head? = some 'd' from rfl) (by decide)]
    simp)]
  rw [if_neg (by rw [isEmpty_false_of_ne hd]; simp)]
  rw [if_neg (by
    rw [startsWith_head_ne hbodyh (show (lc "return").head? = some 'r' from rfl) (by decide)]
    simp)]
  rw [if_neg (by
    rw [startsWith_head_ne hbodyh (show (lc "write").head? = some 'w' from rfl) (by decide)]
    simp)]
  simp only [haddr1, ebind_ok]
  rw [htrim2, htok]
  simp only [ebind_ok, htrim3]
  rw [if_neg (by
    rw [startsWith_head_ne (show ('x' :: (renderNat b
        ++ (' ' :: '-' :: ' ' :: 'x' :: renderNat c))).head? = some 'x' from rfl)
      (show (lc "k").head? = some 'k' from rfl) (by decide)]
    simp)]
  rw [if_neg (by
    rw [startsWith_head_ne (show ('x' :: (renderNat b
        ++ (' ' :: '-' :: ' ' :: 'x' :: renderNat c))).head? = some 'x' from rfl)
      (show (lc "(").head? = some '(' from rfl) (by decide)]
    simp)]
  rw [if_neg (by
    rw [startsWith_head_ne (show ('x' :: (renderNat b
        ++ (' ' :: '-' :: ' ' :: 'x' :: renderNat c))).head? = some 'x' from rfl)
      (show (lc "read").head? = some 'r' from rfl) (by decide)]
    simp)]
  simp only [haddr2, ebind_ok, htrim4]
  rw [if_neg (by
    simp [show (lc "-" ++ (' ' :: 'x' :: renderNat c))
        = '-' :: (' ' :: 'x' :: renderNat c) from rfl])]
  rw [hfto]
  simp only [ebind_ok]
  rw [if_neg (by decide), if_neg (by decide)]
  simp only [haddr3, ebind_ok]
  rfl


theorem parseLine_mul (row : Nat) (a b c : Nat) (ha : a ≤ 255) (hb2 : b ≤ 255)
    (hc2 : c ≤ 255) (defns : List Defn) (hd : defns ≠ []) :
    parseLine row (instrLine (.Mul a b c)) defns
      = .ok (pushInstr defns (.Mul a b c)) := by
  have hb : instrLine (.Mul a b c)
      = lc "    " ++ ('x' :: (renderNat a
          ++ (' ' :: ':' :: '=' :: ' ' :: 'x' :: (renderNat b
            ++ (' ' :: '*' :: ' ' :: 'x' :: renderNat c))))) := by
    unfold instrLine renderInstr
    simp [List.append_assoc, lc]
  rw [hb]
  have hbodyh : ('x' :: (renderNat a ++ (' ' :: ':' :: '=' :: ' ' :: 'x' :: (renderNat b
      ++ (' ' :: '*' :: ' ' :: 'x' :: renderNat c))))).head? = some 'x' := rfl
  have hbodyl : ∀ ch, ('x' :: (renderNat a ++ (' ' :: ':' :: '=' :: ' ' :: 'x'
      :: (renderNat b ++ (' ' :: '*' :: ' ' :: 'x'
        :: renderNat c))))).getLast? = some ch → ch.isWhitespace = false := by
    intro ch h
    rw [show ('x' :: (renderNat a ++ (' ' :: ':' :: '=' :: ' ' :: 'x' :: (renderNat b
          ++ (' ' :: '*' :: ' ' :: 'x' :: renderNat c)))))
          = (('x' :: renderNat a ++ [' ', ':', '=', ' ', 'x'] ++ renderNat b
              ++ [' ', '*', ' ', 'x']) ++ renderNat c) by
        simp [List.append_assoc]] at h
    exact getLast_nonws_append_renderNat _ c ch h
  have htrim := trim_instr_line _ row (head_eq_of_head? hbodyh (by decide)) hbodyl
  have haddr1 : Buffer.addr ⟨'x' :: (renderNat a ++ (' ' :: ':' :: '=' :: ' ' :: 'x'
      :: (renderNat b ++ (' ' :: '*' :: ' ' :: 'x' :: renderNat c)))), row, 4⟩ (lc "x")
      = .ok (⟨' ' :: ':' :: '=' :: ' ' :: 'x' :: (renderNat b
          ++ (' ' :: '*' :: ' ' :: 'x' :: renderNat c)), row,
          4 + (renderNat a).length + 1⟩, a) := by
    have h := addr_spec [] (lc "x") (by simp) (fun ch hc => by cases hc; decide) (by decide)
      a ha (' ' :: ':' :: '=' :: ' ' :: 'x' :: (renderNat b
        ++ (' ' :: '*' :: ' ' :: 'x' :: renderNat c)))
      (fun ch hc => by cases hc; decide) row 4
    rw [show (4 : Nat) + [].length + (lc "x").length = 4 + 1 from rfl] at h
    rw [show (4 : Nat) + 1 + (renderNat a).length
          = 4 + (renderNat a).length + 1 by omega] at h
    exact h
  have htrim2 : Buffer.trimLeft ⟨' ' :: ':' :: '=' :: ' ' :: 'x' :: (renderNat b
        ++ (' ' :: '*' :: ' ' :: 'x' :: renderNat c)), row,
        4 + (renderNat a).length + 1⟩
      = ⟨':' :: '=' :: ' ' :: 'x' :: (renderNat b
          ++ (' ' :: '*' :: ' ' :: 'x' :: renderNat c)), row,
          4 + (renderNat a).length + 2⟩ := by
    show trimLeftAux _ _ _ = _
    rw [show (' ' :: ':' :: '=' :: ' ' :: 'x' :: (renderNat b
            ++ (' ' :: '*' :: ' ' :: 'x' :: renderNat c)))
          = [' '] ++ (':' :: '=' :: ' ' :: 'x' :: (renderNat b
            ++ (' ' :: '*' :: ' ' :: 'x' :: renderNat c))) from rfl,
        trimLeftAux_ws_run [' '] (by decide) _ _ _,
        trimLeftAux_nonws _ _ _ (fun ch hc => by cases hc; decide)]
    rfl
  have htok : Buffer.token ⟨':' :: '=' :: ' ' :: 'x' :: (renderNat b
        ++ (' ' :: '*' :: ' ' :: 'x' :: renderNat c)), row,
        4 + (renderNat a).length + 2⟩ (lc ":=")
      = .ok ⟨' ' :: 'x' :: (renderNat b ++ (' ' :: '*' :: ' ' :: 'x' :: renderNat c)),
          row, 4 + (renderNat a).length + 4⟩ := by
    have h := token_pref (lc ":=") (' ' :: 'x' :: (renderNat b
      ++ (' ' :: '*' :: ' ' :: 'x' :: renderNat c))) row (4 + (renderNat a).length + 2)
    rw [show (4 : Nat) + (renderNat a).length + 2 + (lc ":=").length
          = 4 + (renderNat a).length + 4 by
        show _ + 2 = _
        omega] at h
    exact h
  have htrim3 : Buffer.trimLeft ⟨' ' :: 'x' :: (renderNat b
        ++ (' ' :: '*' :: ' ' :: 'x' :: renderNat c)), row,
        4 + (renderNat a).length + 4⟩
      = ⟨'x' :: (renderNat b ++ (' ' :: '*' :: ' ' :: 'x' :: renderNat c)), row,
          4 + (renderNat a).length + 5⟩ := by
    show trimLeftAux _ _ _ = _
    rw [show (' ' :: 'x' :: (renderNat b ++ (' ' :: '*' :: ' ' :: 'x' :: renderNat c)))
          = [' '] ++ ('x' :: (renderNat b
            ++ (' ' :: '*' :: ' ' :: 'x' :: renderNat c))) from rfl,
        trimLeftAux_ws_run [' '] (by decide) _ _ _,
        trimLeftAux_nonws _ _ _ (fun ch hc => by cases hc; decide)]
    rfl
  have haddr2 : Buffer.addr ⟨'x' :: (renderNat b
        ++ (' ' :: '*' :: ' ' :: 'x' :: renderNat c)), row,
        4 + (renderNat a).length + 5⟩ (lc "x")
      = .ok (⟨' ' :: '*' :: ' ' :: 'x' :: renderNat c, row,
          4 + (renderNat a).length + 5 + 1 + (renderNat b).length⟩, b) := by
    have h := addr_spec [] (lc "x") (by simp) (fun ch hc => by cases hc; decide) (by decide)
      b hb2 (' ' :: '*' :: ' ' :: 'x' :: renderNat c)
      (fun ch hc => by cases hc; decide) row (4 + (renderNat a).length + 5)
    rw [show (4 : Nat) + (renderNat a).length + 5 + [].length + (lc "x").length
          = 4 + (renderNat a).length + 5 + 1 from rfl] at h
    exact h
  have htrim4 : Buffer.trimLeft ⟨' ' :: '*' :: ' ' :: 'x' :: renderNat c, row,
        4 + (renderNat a).length + 5 + 1 + (renderNat b).length⟩
      = ⟨lc "*" ++ (' ' :: 'x' :: renderNat c), row,
          4 + (renderNat a).length + 5 + 1 + (renderNat b).length + 1⟩ := by
    show trimLeftAux _ _ _ = _
    rw [show (' ' :: '*' :: ' ' :: 'x' :: renderNat c)
          = [' '] ++ ('*' :: ' ' :: 'x' :: renderNat c) from rfl,
        trimLeftAux_ws_run [' '] (by decide) _ _ _,
        trimLeftAux_nonws _ _ _ (fun ch hc => by cases hc; decide)]
    rfl
  have hfx0 : Buffer.startsWith ⟨lc "*" ++ (' ' :: 'x' :: renderNat c), row,
        4 + (renderNat a).length + 5 + 1 + (renderNat b).length + 1⟩ (lc "+") = false :=
    startsWith_head_ne (show (lc "*" ++ (' ' :: 'x' :: renderNat c)).head?
        = some '*' from rfl)
      (show (lc "+").head? = some '+' from rfl) (by decide)
  have hfx1 : Buffer.startsWith ⟨lc "*" ++ (' ' :: 'x' :: renderNat c), row,
        4 + (renderNat a).length + 5 + 1 + (renderNat b).length + 1⟩ (lc "-") = false :=
    startsWith_head_ne (show (lc "*" ++ (' ' :: 'x' :: renderNat c)).head?
        = some '*' from rfl)
      (show (lc "-").head? = some '-' from rfl) (by decide)
  have hfind : ([lc "+", lc "-", lc "*", lc "/", lc "%", lc "(", lc "["]).find?
        (fun tk => Buffer.startsWith ⟨lc "*" ++ (' ' :: 'x' :: renderNat c), row,
          4 + (renderNat a).length + 5 + 1 + (renderNat b).length + 1⟩ tk)
      = some (lc "*") := by
    simp [List.find?, startsWith_pref, hfx0, hfx1]
  have hfto : Buffer.firstTokenOf ⟨lc "*" ++ (' ' :: 'x' :: renderNat c), row,
        4 + (renderNat a).length + 5 + 1 + (renderNat b).length + 1⟩
        [lc "+", lc "-", lc "*", lc "/", lc "%", lc "(", lc "["]
      = .ok (⟨' ' :: 'x' :: renderNat c, row,
          4 + (renderNat a).length + 5 + 1 + (renderNat b).length + 2⟩, lc "*") := by
    rw [firstTokenOf_found (by simp) hfind, advance_len]
    rfl
  have haddr3 : Buffer.addr ⟨' ' :: 'x' :: renderNat c, row,
        4 + (renderNat a).length + 5 + 1 + (renderNat b).length + 2⟩ (lc "x")
      = .ok (⟨[], row, 4 + (renderNat a).length + 5 + 1 + (renderNat b).length + 2
          + 1 + 1 + (renderNat c).length⟩, c) := by
    have h := addr_spec_end [' '] (lc "x") (by decide)
      (fun ch hc => by cases hc; decide) (by decide) c hc2 row
      (4 + (renderNat a).length + 5 + 1 + (renderNat b).length + 2)
    rw [show (4 : Nat) + (renderNat a).length + 5 + 1 + (renderNat b).length + 2
          + [' '].length + (lc "x").length
          = 4 + (renderNat a).length + 5 + 1 + (renderNat b).length + 2 + 1 + 1 from rfl] at h
    exact h
  unfold parseLine
  rw [htrim]
  rw [if_neg (by
    rw [startsWith_head_ne hbodyh (show (lc "#").head? = some '#' from rfl) (by decide)]
    simp)]
  rw [if_neg (by
    rw [startsWith_head_ne hbodyh (show (lc "defn").head? = some 'd' from rfl) (by decide)]
    simp)]
  rw [if_neg (by rw [isEmpty_false_of_ne hd]; simp)]
  rw [if_neg (by
    rw [startsWith_head_ne hbodyh (show (lc "return").head? = some 'r' from rfl) (by decide)]
    simp)]
  rw [if_neg (by
    rw [startsWith_head_ne hbodyh (show (lc "write").head? = some 'w' from rfl) (by decide)]
    simp)]
  simp only [haddr1, ebind_ok]
  rw [htrim2, htok]
  simp only [ebind_ok, htrim3]
  rw [if_neg (by
    rw [startsWith_head_ne (show ('x' :: (renderNat b
        ++ (' ' :: '*' :: ' ' :: 'x' :: renderNat c))).head? = some 'x' from rfl)
      (show (lc "k").head? = some 'k' from rfl) (by decide)]
    simp)]
  rw [if_neg (by
    rw [startsWith_head_ne (show ('x' :: (renderNat b
        ++ (' ' :: '*' :: ' ' :: 'x' :: renderNat c))).head? = some 'x' from rfl)
      (show (lc "(").head? = some '(' from rfl) (by decide)]
    simp)]
  rw [if_neg (by
    rw [startsWith_head_ne (show ('x' :: (renderNat b
        ++ (' ' :: '*' :: ' ' :: 'x' :: renderNat c))).head? = some 'x' from rfl)
      (show (lc "read").head? = some 'r' from rfl) (by decide)]
    simp)]
  simp only [haddr2, ebind_ok, htrim4]
  rw [if_neg (by
    simp [show (lc "*" ++ (' ' :: 'x' :: renderNat c))
        = '*' :: (' ' :: 'x' :: renderNat c) from rfl])]
  rw [hfto]
  simp only [ebind_ok]
  rw [if_neg (by decide), if_neg (by decide)]
  simp only [haddr3, ebind_ok]
  rfl


theorem parseLine_div (row : Nat) (a b c : Nat) (ha : a ≤ 255) (hb2 : b ≤ 255)
    (hc2 : c ≤ 255) (defns : List Defn) (hd : defns ≠ []) :
    parseLine row (instrLine (.Div a b c)) defns
      = .ok (pushInstr defns (.Div a b c)) := by
  have hb : instrLine (.Div a b c)
      = lc "    " ++ ('x' :: (renderNat a
          ++ (' ' :: ':' :: '=' :: ' ' :: 'x' :: (renderNat b
            ++ (' ' :: '/' :: ' ' :: 'x' :: renderNat c))))) := by
    unfold instrLine renderInstr
    simp [List.append_assoc, lc]
  rw [hb]
  have hbodyh : ('x' :: (renderNat a ++ (' ' :: ':' :: '=' :: ' ' :: 'x' :: (renderNat b
      ++ (' ' :: '/' :: ' ' :: 'x' :: renderNat c))))).head? = some 'x' := rfl
  have hbodyl : ∀ ch, ('x' :: (renderNat a ++ (' ' :: ':' :: '=' :: ' ' :: 'x'
      :: (renderNat b ++ (' ' :: '/' :: ' ' :: 'x'
        :: renderNat c))))).getLast? = some ch → ch.isWhitespace = false := by
    intro ch h
    rw [show ('x' :: (renderNat a ++ (' ' :: ':' :: '=' :: ' ' :: 'x' :: (renderNat b
          ++ (' ' :: '/' :: ' ' :: 'x' :: renderNat c)))))
          = (('x' :: renderNat a ++ [' ', ':', '=', ' ', 'x'] ++ renderNat b
              ++ [' ', '/', ' ', 'x']) ++ renderNat c) by
        simp [List.append_assoc]] at h
    exact getLast_nonws_append_renderNat _ c ch h
  have htrim := trim_instr_line _ row (head_eq_of_head? hbodyh (by decide)) hbodyl
  have haddr1 : Buffer.addr ⟨'x' :: (renderNat a ++ (' ' :: ':' :: '=' :: ' ' :: 'x'
      :: (renderNat b ++ (' ' :: '/' :: ' ' :: 'x' :: renderNat c)))), row, 4⟩ (lc "x")
      = .ok (⟨' ' :: ':' :: '=' :: ' ' :: 'x' :: (renderNat b
          ++ (' ' :: '/' :: ' ' :: 'x' :: renderNat c)), row,
          4 + (renderNat a).length + 1⟩, a) := by
    have h := addr_spec [] (lc "x") (by simp) (fun ch hc => by cases hc; decide) (by decide)
      a ha (' ' :: ':' :: '=' :: ' ' :: 'x' :: (renderNat b
        ++ (' ' :: '/' :: ' ' :: 'x' :: renderNat c)))
      (fun ch hc => by cases hc; decide) row 4
    rw [show (4 : Nat) + [].length + (lc "x").length = 4 + 1 from rfl] at h
    rw [show (4 : Nat) + 1 + (renderNat a).length
          = 4 + (renderNat a).length + 1 by omega] at h
    exact h
  have htrim2 : Buffer.trimLeft ⟨' ' :: ':' :: '=' :: ' ' :: 'x' :: (renderNat b
        ++ (' ' :: '/' :: ' ' :: 'x' :: renderNat c)), row,
        4 + (renderNat a).length + 1⟩
      = ⟨':' :: '=' :: ' ' :: 'x' :: (renderNat b
          ++ (' ' :: '/' :: ' ' :: 'x' :: renderNat c)), row,
          4 + (renderNat a).length + 2⟩ := by
    show trimLeftAux _ _ _ = _
    rw [show (' ' :: ':' :: '=' :: ' ' :: 'x' :: (renderNat b
            ++ (' ' :: '/' :: ' ' :: 'x' :: renderNat c)))
          = [' '] ++ (':' :: '=' :: ' ' :: 'x' :: (renderNat b
            ++ (' ' :: '/' :: ' ' :: 'x' :: renderNat c))) from rfl,
        trimLeftAux_ws_run [' '] (by decide) _ _ _,
        trimLeftAux_nonws _ _ _ (fun ch hc => by cases hc; decide)]
    rfl
  have htok : Buffer.token ⟨':' :: '=' :: ' ' :: 'x' :: (renderNat b
        ++ (' ' :: '/' :: ' ' :: 'x' :: renderNat c)), row,
        4 + (renderNat a).length + 2⟩ (lc ":=")
      = .ok ⟨' ' :: 'x' :: (renderNat b ++ (' ' :: '/' :: ' ' :: 'x' :: renderNat c)),
          row, 4 + (renderNat a).length + 4⟩ := by
    have h := token_pref (lc ":=") (' ' :: 'x' :: (renderNat b
      ++ (' ' :: '/' :: ' ' :: 'x' :: renderNat c))) row (4 + (renderNat a).length + 2)
    rw [show (4 : Nat) + (renderNat a).length + 2 + (lc ":=").length
          = 4 + (renderNat a).length + 4 by
        show _ + 2 = _
        omega] at h
    exact h
  have htrim3 : Buffer.trimLeft ⟨' ' :: 'x' :: (renderNat b
        ++ (' ' :: '/' :: ' ' :: 'x' :: renderNat c)), row,
        4 + (renderNat a).length + 4⟩
      = ⟨'x' :: (renderNat b ++ (' ' :: '/' :: ' ' :: 'x' :: renderNat c)), row,
          4 + (renderNat a).length + 5⟩ := by
    show trimLeftAux _ _ _ = _
    rw [show (' ' :: 'x' :: (renderNat b ++ (' ' :: '/' :: ' ' :: 'x' :: renderNat c)))
          = [' '] ++ ('x' :: (renderNat b
            ++ (' ' :: '/' :: ' ' :: 'x' :: renderNat c))) from rfl,
        trimLeftAux_ws_run [' '] (by decide) _ _ _,
        trimLeftAux_nonws _ _ _ (fun ch hc => by cases hc; decide)]
    rfl
  have haddr2 : Buffer.addr ⟨'x' :: (renderNat b
        ++ (' ' :: '/' :: ' ' :: 'x' :: renderNat c)), row,
        4 + (renderNat a).length + 5⟩ (lc "x")
      = .ok (⟨' ' :: '/' :: ' ' :: 'x' :: renderNat c, row,
          4 + (renderNat a).length + 5 + 1 + (renderNat b).length⟩, b) := by
    have h := addr_spec [] (lc "x") (by simp) (fun ch hc => by cases hc; decide) (by decide)
      b hb2 (' ' :: '/' :: ' ' :: 'x' :: renderNat c)
      (fun ch hc => by cases hc; decide) row (4 + (renderNat a).length + 5)
    rw [show (4 : Nat) + (renderNat a).length + 5 + [].length + (lc "x").length
          = 4 + (renderNat a).length + 5 + 1 from rfl] at h
    exact h
  have htrim4 : Buffer.trimLeft ⟨' ' :: '/' :: ' ' :: 'x' :: renderNat c, row,
        4 + (renderNat a).length + 5 + 1 + (renderNat b).length⟩
      = ⟨lc "/" ++ (' ' :: 'x' :: renderNat c), row,
          4 + (renderNat a).length + 5 + 1 + (renderNat b).length + 1⟩ := by
    show trimLeftAux _ _ _ = _
    rw [show (' ' :: '/' :: ' ' :: 'x' :: renderNat c)
          = [' '] ++ ('/' :: ' ' :: 'x' :: renderNat c) from rfl,
        trimLeftAux_ws_run [' '] (by decide) _ _ _,
        trimLeftAux_nonws _ _ _ (fun ch hc => by cases hc; decide)]
    rfl
  have hfx0 : Buffer.startsWith ⟨lc "/" ++ (' ' :: 'x' :: renderNat c), row,
        4 + (renderNat a).length + 5 + 1 + (renderNat b).length + 1⟩ (lc "+") = false :=
    startsWith_head_ne (show (lc "/" ++ (' ' :: 'x' :: renderNat c)).head?
        = some '/' from rfl)
      (show (lc "+").head? = some '+' from rfl) (by decide)
  have hfx1 : Buffer.startsWith ⟨lc "/" ++ (' ' :: 'x' :: renderNat c), row,
        4 + (renderNat a).length + 5 + 1 + (renderNat b).length + 1⟩ (lc "-") = false :=
    startsWith_head_ne (show (lc "/" ++ (' ' :: 'x' :: renderNat c)).head?
        = some '/' from rfl)
      (show (lc "-").head? = some '-' from rfl) (by decide)
  have hfx2 : Buffer.startsWith ⟨lc "/" ++ (' ' :: 'x' :: renderNat c), row,
        4 + (renderNat a).length + 5 + 1 + (renderNat b).length + 1⟩ (lc "*") = false :=
    startsWith_head_ne (show (lc "/" ++ (' ' :: 'x' :: renderNat c)).head?
        = some '/' from rfl)
      (show (lc "*").head? = some '*' from rfl) (by decide)
  have hfind : ([lc "+", lc "-", lc "*", lc "/", lc "%", lc "(", lc "["]).find?
        (fun tk => Buffer.startsWith ⟨lc "/" ++ (' ' :: 'x' :: renderNat c), row,
          4 + (renderNat a).length + 5 + 1 + (renderNat b).length + 1⟩ tk)
      = some (lc "/") := by
    simp [List.find?, startsWith_pref, hfx0, hfx1, hfx2]
  have hfto : Buffer.firstTokenOf ⟨lc "/" ++ (' ' :: 'x' :: renderNat c), row,
        4 + (renderNat a).length + 5 + 1 + (renderNat b).length + 1⟩
        [lc "+", lc "-", lc "*", lc "/", lc "%", lc "(", lc "["]
      = .ok (⟨' ' :: 'x' :: renderNat c, row,
          4 + (renderNat a).length + 5 + 1 + (renderNat b).length + 2⟩, lc "/") := by
    rw [firstTokenOf_found (by simp) hfind, advance_len]
    rfl
  have haddr3 : Buffer.addr ⟨' ' :: 'x' :: renderNat c, row,
        4 + (renderNat a).length + 5 + 1 + (renderNat b).length + 2⟩ (lc "x")
      = .ok (⟨[], row, 4 + (renderNat a).length + 5 + 1 + (renderNat b).length + 2
          + 1 + 1 + (renderNat c).length⟩, c) := by
    have h := addr_spec_end [' '] (lc "x") (by decide)
      (fun ch hc => by cases hc; decide) (by decide) c hc2 row
      (4 + (renderNat a).length + 5 + 1 + (renderNat b).length + 2)
    rw [show (4 : Nat) + (renderNat a).length + 5 + 1 + (renderNat b).length + 2
          + [' '].length + (lc "x").length
          = 4 + (renderNat a).length + 5 + 1 + (renderNat b).length + 2 + 1 + 1 from rfl] at h
    exact h
  unfold parseLine
  rw [htrim]
  rw [if_neg (by
    rw [startsWith_head_ne hbodyh (show (lc "#").head? = some '#' from rfl) (by decide)]
    simp)]
  rw [if_neg (by
    rw [startsWith_head_ne hbodyh (show (lc "defn").head? = some 'd' from rfl) (by decide)]
    simp)]
  rw [if_neg (by rw [isEmpty_false_of_ne hd]; simp)]
  rw [if_neg (by
    rw [startsWith_head_ne hbodyh (show (lc "return").head? = some 'r' from rfl) (by decide)]
    simp)]
  rw [if_neg (by
    rw [startsWith_head_ne hbodyh (show (lc "write").head? = some 'w' from rfl) (by decide)]
    simp)]
  simp only [haddr1, ebind_ok]
  rw [htrim2, htok]
  simp only [ebind_ok, htrim3]
  rw [if_neg (by
    rw [startsWith_head_ne (show ('x' :: (renderNat b
        ++ (' ' :: '/' :: ' ' :: 'x' :: renderNat c))).head? = some 'x' from rfl)
      (show (lc "k").head? = some 'k' from rfl) (by decide)]
    simp)]
  rw [if_neg (by
    rw [startsWith_head_ne (show ('x' :: (renderNat b
        ++ (' ' :: '/' :: ' ' :: 'x' :: renderNat c))).head? = some 'x' from rfl)
      (show (lc "(").head? = some '(' from rfl) (by decide)]
    simp)]
  rw [if_neg (by
    rw [startsWith_head_ne (show ('x' :: (renderNat b
        ++ (' ' :: '/' :: ' ' :: 'x' :: renderNat c))).head? = some 'x' from rfl)
      (show (lc "read").head? = some 'r' from rfl) (by decide)]
    simp)]
  simp only [haddr2, ebind_ok, htrim4]
  rw [if_neg (by
    simp [show (lc "/" ++ (' ' :: 'x' :: renderNat c))
        = '/' :: (' ' :: 'x' :: renderNat c) from rfl])]
  rw [hfto]
  simp only [ebind_ok]
  rw [if_neg (by decide), if_neg (by decide)]
  simp only [haddr3, ebind_ok]
  rfl


theorem parseLine_rem (row : Nat) (a b c : Nat) (ha : a ≤ 255) (hb2 : b ≤ 255)
    (hc2 : c ≤ 255) (defns : List Defn) (hd : defns ≠ []) :
    parseLine row (instrLine (.Rem a b c)) defns
      = .ok (pushInstr defns (.Rem a b c)) := by
  have hb : instrLine (.Rem a b c)
      = lc "    " ++ ('x' :: (renderNat a
          ++ (' ' :: ':' :: '=' :: ' ' :: 'x' :: (renderNat b
            ++ (' ' :: '%' :: ' ' :: 'x' :: renderNat c))))) := by
    unfold instrLine renderInstr
    simp [List.append_assoc, lc]
  rw [hb]
  have hbodyh : ('x' :: (renderNat a ++ (' ' :: ':' :: '=' :: ' ' :: 'x' :: (renderNat b
      ++ (' ' :: '%' :: ' ' :: 'x' :: renderNat c))))).head? = some 'x' := rfl
  have hbodyl : ∀ ch, ('x' :: (renderNat a ++ (' ' :: ':' :: '=' :: ' ' :: 'x'
      :: (renderNat b ++ (' ' :: '%' :: ' ' :: 'x'
        :: renderNat c))))).getLast? = some ch → ch.isWhitespace = false := by
    intro ch h
    rw [show ('x' :: (renderNat a ++ (' ' :: ':' :: '=' :: ' ' :: 'x' :: (renderNat b
          ++ (' ' :: '%' :: ' ' :: 'x' :: renderNat c)))))
          = (('x' :: renderNat a ++ [' ', ':', '=', ' ', 'x'] ++ renderNat b
              ++ [' ', '%', ' ', 'x']) ++ renderNat c) by
        simp [List.append_assoc]] at h
    exact getLast_nonws_append_renderNat _ c ch h
  have htrim := trim_instr_line _ row (head_eq_of_head? hbodyh (by decide)) hbodyl
  have haddr1 : Buffer.addr ⟨'x' :: (renderNat a ++ (' ' :: ':' :: '=' :: ' ' :: 'x'
      :: (renderNat b ++ (' ' :: '%' :: ' ' :: 'x' :: renderNat c)))), row, 4⟩ (lc "x")
      = .ok (⟨' ' :: ':' :: '=' :: ' ' :: 'x' :: (renderNat b
          ++ (' ' :: '%' :: ' ' :: 'x' :: renderNat c)), row,
          4 + (renderNat a).length + 1⟩, a) := by
    have h := addr_spec [] (lc "x") (by simp) (fun ch hc => by cases hc; decide) (by decide)
      a ha (' ' :: ':' :: '=' :: ' ' :: 'x' :: (renderNat b
        ++ (' ' :: '%' :: ' ' :: 'x' :: renderNat c)))
      (fun ch hc => by cases hc; decide) row 4
    rw [show (4 : Nat) + [].length + (lc "x").length = 4 + 1 from rfl] at h
    rw [show (4 : Nat) + 1 + (renderNat a).length
          = 4 + (renderNat a).length + 1 by omega] at h
    exact h
  have htrim2 : Buffer.trimLeft ⟨' ' :: ':' :: '=' :: ' ' :: 'x' :: (renderNat b
        ++ (' ' :: '%' :: ' ' :: 'x' :: renderNat c)), row,
        4 + (renderNat a).length + 1⟩
      = ⟨':' :: '=' :: ' ' :: 'x' :: (renderNat b
          ++ (' ' :: '%' :: ' ' :: 'x' :: renderNat c)), row,
          4 + (renderNat a).length + 2⟩ := by
    show trimLeftAux _ _ _ = _
    rw [show (' ' :: ':' :: '=' :: ' ' :: 'x' :: (renderNat b
            ++ (' ' :: '%' :: ' ' :: 'x' :: renderNat c)))
          = [' '] ++ (':' :: '=' :: ' ' :: 'x' :: (renderNat b
            ++ (' ' :: '%' :: ' ' :: 'x' :: renderNat c))) from rfl,
        trimLeftAux_ws_run [' '] (by decide) _ _ _,
        trimLeftAux_nonws _ _ _ (fun ch hc => by cases hc; decide)]
    rfl
  have htok : Buffer.token ⟨':' :: '=' :: ' ' :: 'x' :: (renderNat b
        ++ (' ' :: '%' :: ' ' :: 'x' :: renderNat c)), row,
        4 + (renderNat a).length + 2⟩ (lc ":=")
      = .ok ⟨' ' :: 'x' :: (renderNat b ++ (' ' :: '%' :: ' ' :: 'x' :: renderNat c)),
          row, 4 + (renderNat a).length + 4⟩ := by
    have h := token_pref (lc ":=") (' ' :: 'x' :: (renderNat b
      ++ (' ' :: '%' :: ' ' :: 'x' :: renderNat c))) row (4 + (renderNat a).length + 2)
    rw [show (4 : Nat) + (renderNat a).length + 2 + (lc ":=").length
          = 4 + (renderNat a).length + 4 by
        show _ + 2 = _
        omega] at h
    exact h
  have htrim3 : Buffer.trimLeft ⟨' ' :: 'x' :: (renderNat b
        ++ (' ' :: '%' :: ' ' :: 'x' :: renderNat c)), row,
        4 + (renderNat a).length + 4⟩
      = ⟨'x' :: (renderNat b ++ (' ' :: '%' :: ' ' :: 'x' :: renderNat c)), row,
          4 + (renderNat a).length + 5⟩ := by
    show trimLeftAux _ _ _ = _
    rw [show (' ' :: 'x' :: (renderNat b ++ (' ' :: '%' :: ' ' :: 'x' :: renderNat c)))
          = [' '] ++ ('x' :: (renderNat b
            ++ (' ' :: '%' :: ' ' :: 'x' :: renderNat c))) from rfl,
        trimLeftAux_ws_run [' '] (by decide) _ _ _,
        trimLeftAux_nonws _ _ _ (fun ch hc => by cases hc; decide)]
    rfl
  have haddr2 : Buffer.addr ⟨'x' :: (renderNat b
        ++ (' ' :: '%' :: ' ' :: 'x' :: renderNat c)), row,
        4 + (renderNat a).length + 5⟩ (lc "x")
      = .ok (⟨' ' :: '%' :: ' ' :: 'x' :: renderNat c, row,
          4 + (renderNat a).length + 5 + 1 + (renderNat b).length⟩, b) := by
    have h := addr_spec [] (lc "x") (by simp) (fun ch hc => by cases hc; decide) (by decide)
      b hb2 (' ' :: '%' :: ' ' :: 'x' :: renderNat c)
      (fun ch hc => by cases hc; decide) row (4 + (renderNat a).length + 5)
    rw [show (4 : Nat) + (renderNat a).length + 5 + [].length + (lc "x").length
          = 4 + (renderNat a).length + 5 + 1 from rfl] at h
    exact h
  have htrim4 : Buffer.trimLeft ⟨' ' :: '%' :: ' ' :: 'x' :: renderNat c, row,
        4 + (renderNat a).length + 5 + 1 + (renderNat b).length⟩
      = ⟨lc "%" ++ (' ' :: 'x' :: renderNat c), row,
          4 + (renderNat a).length + 5 + 1 + (renderNat b).length + 1⟩ := by
    show trimLeftAux _ _ _ = _
    rw [show (' ' :: '%' :: ' ' :: 'x' :: renderNat c)
          = [' '] ++ ('%' :: ' ' :: 'x' :: renderNat c) from rfl,
        trimLeftAux_ws_run [' '] (by decide) _ _ _,
        trimLeftAux_nonws _ _ _ (fun ch hc => by cases hc; decide)]
    rfl
  have hfx0 : Buffer.startsWith ⟨lc "%" ++ (' ' :: 'x' :: renderNat c), row,
        4 + (renderNat a).length + 5 + 1 + (renderNat b).length + 1⟩ (lc "+") = false :=
    startsWith_head_ne (show (lc "%" ++ (' ' :: 'x' :: renderNat c)).head?
        = some '%' from rfl)
      (show (lc "+").head? = some '+' from rfl) (by decide)
  have hfx1 : Buffer.startsWith ⟨lc "%" ++ (' ' :: 'x' :: renderNat c), row,
        4 + (renderNat a).length + 5 + 1 + (renderNat b).length + 1⟩ (lc "-") = false :=
    startsWith_head_ne (show (lc "%" ++ (' ' :: 'x' :: renderNat c)).head?
        = some '%' from rfl)
      (show (lc "-").head? = some '-' from rfl) (by decide)
  have hfx2 : Buffer.startsWith ⟨lc "%" ++ (' ' :: 'x' :: renderNat c), row,
        4 + (renderNat a).length + 5 + 1 + (renderNat b).length + 1⟩ (lc "*") = false :=
    startsWith_head_ne (show (lc "%" ++ (' ' :: 'x' :: renderNat c)).head?
        = some '%' from rfl)
      (show (lc "*").head? = some '*' from rfl) (by decide)
  have hfx3 : Buffer.startsWith ⟨lc "%" ++ (' ' :: 'x' :: renderNat c), row,
        4 + (renderNat a).length + 5 + 1 + (renderNat b).length + 1⟩ (lc "/") = false :=
    startsWith_head_ne (show (lc "%" ++ (' ' :: 'x' :: renderNat c)).head?
        = some '%' from rfl)
      (show (lc "/").head? = some '/' from rfl) (by decide)
  have hfind : ([lc "+", lc "-", lc "*", lc "/", lc "%", lc "(", lc "["]).find?
        (fun tk => Buffer.startsWith ⟨lc "%" ++ (' ' :: 'x' :: renderNat c), row,
          4 + (renderNat a).length + 5 + 1 + (renderNat b).length + 1⟩ tk)
      = some (lc "%") := by
    simp [List.find?, startsWith_pref, hfx0, hfx1, hfx2, hfx3]
  have hfto : Buffer.firstTokenOf ⟨lc "%" ++ (' ' :: 'x' :: renderNat c), row,
        4 + (renderNat a).length + 5 + 1 + (renderNat b).length + 1⟩
        [lc "+", lc "-", lc "*", lc "/", lc "%", lc "(", lc "["]
      = .ok (⟨' ' :: 'x' :: renderNat c, row,
          4 + (renderNat a).length + 5 + 1 + (renderNat b).length + 2⟩, lc "%") := by
    rw [firstTokenOf_found (by simp) hfind, advance_len]
    rfl
  have haddr3 : Buffer.addr ⟨' ' :: 'x' :: renderNat c, row,
        4 + (renderNat a).length + 5 + 1 + (renderNat b).length + 2⟩ (lc "x")
      = .ok (⟨[], row, 4 + (renderNat a).length + 5 + 1 + (renderNat b).length + 2
          + 1 + 1 + (renderNat c).length⟩, c) := by
    have h := addr_spec_end [' '] (lc "x") (by decide)
      (fun ch hc => by cases hc; decide) (by decide) c hc2 row
      (4 + (renderNat a).length + 5 + 1 + (renderNat b).length + 2)
    rw [show (4 : Nat) + (renderNat a).length + 5 + 1 + (renderNat b).length + 2
          + [' '].length + (lc "x").length
          = 4 + (renderNat a).length + 5 + 1 + (renderNat b).length + 2 + 1 + 1 from rfl] at h
    exact h
  unfold parseLine
  rw [htrim]
  rw [if_neg (by
    rw [startsWith_head_ne hbodyh (show (lc "#").head? = some '#' from rfl) (by decide)]
    simp)]
  rw [if_neg (by
    rw [startsWith_head_ne hbodyh (show (lc "defn").head? = some 'd' from rfl) (by decide)]
    simp)]
  rw [if_neg (by rw [isEmpty_false_of_ne hd]; simp)]
  rw [if_neg (by
    rw [startsWith_head_ne hbodyh (show (lc "return").head? = some 'r' from rfl) (by decide)]
    simp)]
  rw [if_neg (by
    rw [startsWith_head_ne hbodyh (show (lc "write").head? = some 'w' from rfl) (by decide)]
    simp)]
  simp only [haddr1, ebind_ok]
  rw [htrim2, htok]
  simp only [ebind_ok, htrim3]
  rw [if_neg (by
    rw [startsWith_head_ne (show ('x' :: (renderNat b
        ++ (' ' :: '%' :: ' ' :: 'x' :: renderNat c))).head? = some 'x' from rfl)
      (show (lc "k").head? = some 'k' from rfl) (by decide)]
    simp)]
  rw [if_neg (by
    rw [startsWith_head_ne (show ('x' :: (renderNat b
        ++ (' ' :: '%' :: ' ' :: 'x' :: renderNat c))).head? = some 'x' from rfl)
      (show (lc "(").head? = some '(' from rfl) (by decide)]
    simp)]
  rw [if_neg (by
    rw [startsWith_head_ne (show ('x' :: (renderNat b
        ++ (' ' :: '%' :: ' ' :: 'x' :: renderNat c))).head? = some 'x' from rfl)
      (show (lc "read").head? = some 'r' from rfl) (by decide)]
    simp)]
  simp only [haddr2, ebind_ok, htrim4]
  rw [if_neg (by
    simp [show (lc "%" ++ (' ' :: 'x' :: renderNat c))
        = '%' :: (' ' :: 'x' :: renderNat c) from rfl])]
  rw [hfto]
  simp only [ebind_ok]
  rw [if_neg (by decide), if_neg (by decide)]
  simp only [haddr3, ebind_ok]
  rfl

theorem parseLine_idx (row : Nat) (a b c : Nat) (ha : a ≤ 255) (hb2 : b ≤ 255)
    (hc2 : c ≤ 255) (defns : List Defn) (hd : defns ≠ []) :
    parseLine row (instrLine (.IdxTup a b c)) defns
      = .ok (pushInstr defns (.IdxTup a b c)) := by
  have hb : instrLine (.IdxTup a b c)
      = lc "    " ++ ('x' :: (renderNat a
          ++ (' ' :: ':' :: '=' :: ' ' :: 'x' :: (renderNat b
            ++ ('[' :: 'x' :: (renderNat c ++ [']'])))))) := by
    unfold instrLine renderInstr
    simp [List.append_assoc, lc]
  rw [hb]
  have hbodyh : ('x' :: (renderNat a ++ (' ' :: ':' :: '=' :: ' ' :: 'x' :: (renderNat b
      ++ ('[' :: 'x' :: (renderNat c ++ [']'])))))).head? = some 'x' := rfl
  have hbodyl : ∀ ch, ('x' :: (renderNat a ++ (' ' :: ':' :: '=' :: ' ' :: 'x'
      :: (renderNat b ++ ('[' :: 'x' :: (renderNat c
        ++ [']'])))))).getLast? = some ch → ch.isWhitespace = false := by
    intro ch h
    rw [show ('x' :: (renderNat a ++ (' ' :: ':' :: '=' :: ' ' :: 'x' :: (renderNat b
          ++ ('[' :: 'x' :: (renderNat c ++ [']']))))))
          = (('x' :: renderNat a ++ [' ', ':', '=', ' ', 'x'] ++ renderNat b
              ++ ['[', 'x'] ++ renderNat c) ++ [']']) by
        simp [List.append_assoc]] at h
    rw [List.getLast?_concat] at h
    cases h
    decide
  have htrim := trim_instr_line _ row (head_eq_of_head? hbodyh (by decide)) hbodyl
  have haddr1 : Buffer.addr ⟨'x' :: (renderNat a ++ (' ' :: ':' :: '=' :: ' ' :: 'x'
      :: (renderNat b ++ ('[' :: 'x' :: (renderNat c ++ [']']))))), row, 4⟩ (lc "x")
      = .ok (⟨' ' :: ':' :: '=' :: ' ' :: 'x' :: (renderNat b
          ++ ('[' :: 'x' :: (renderNat c ++ [']']))), row,
          4 + (renderNat a).length + 1⟩, a) := by
    have h := addr_spec [] (lc "x") (by simp) (fun ch hc => by cases hc; decide) (by decide)
      a ha (' ' :: ':' :: '=' :: ' ' :: 'x' :: (renderNat b
        ++ ('[' :: 'x' :: (renderNat c ++ [']']))))
      (fun ch hc => by cases hc; decide) row 4
    rw [show (4 : Nat) + [].length + (lc "x").length = 4 + 1 from rfl] at h
    rw [show (4 : Nat) + 1 + (renderNat a).length
          = 4 + (renderNat a).length + 1 by omega] at h
    exact h
  have htrim2 : Buffer.trimLeft ⟨' ' :: ':' :: '=' :: ' ' :: 'x' :: (renderNat b
        ++ ('[' :: 'x' :: (renderNat c ++ [']']))), row,
        4 + (renderNat a).length + 1⟩
      = ⟨':' :: '=' :: ' ' :: 'x' :: (renderNat b
          ++ ('[' :: 'x' :: (renderNat c ++ [']']))), row,
          4 + (renderNat a).length + 2⟩ := by
    show trimLeftAux _ _ _ = _
    rw [show (' ' :: ':' :: '=' :: ' ' :: 'x' :: (renderNat b
            ++ ('[' :: 'x' :: (renderNat c ++ [']']))))
          = [' '] ++ (':' :: '=' :: ' ' :: 'x' :: (renderNat b
            ++ ('[' :: 'x' :: (renderNat c ++ [']'])))) from rfl,
        trimLeftAux_ws_run [' '] (by decide) _ _ _,
        trimLeftAux_nonws _ _ _ (fun ch hc => by cases hc; decide)]
    rfl
  have htok : Buffer.token ⟨':' :: '=' :: ' ' :: 'x' :: (renderNat b
        ++ ('[' :: 'x' :: (renderNat c ++ [']']))), row,
        4 + (renderNat a).length + 2⟩ (lc ":=")
      = .ok ⟨' ' :: 'x' :: (renderNat b ++ ('[' :: 'x' :: (renderNat c ++ [']']))),
          row, 4 + (renderNat a).length + 4⟩ := by
    have h := token_pref (lc ":=") (' ' :: 'x' :: (renderNat b
      ++ ('[' :: 'x' :: (renderNat c ++ [']'])))) row (4 + (renderNat a).length + 2)
    rw [show (4 : Nat) + (renderNat a).length + 2 + (lc ":=").length
          = 4 + (renderNat a).length + 4 by
        show _ + 2 = _
        omega] at h
    exact h
  have htrim3 : Buffer.trimLeft ⟨' ' :: 'x' :: (renderNat b
        ++ ('[' :: 'x' :: (renderNat c ++ [']']))), row,
        4 + (renderNat a).length + 4⟩
      = ⟨'x' :: (renderNat b ++ ('[' :: 'x' :: (renderNat c ++ [']']))), row,
          4 + (renderNat a).length + 5⟩ := by
    show trimLeftAux _ _ _ = _
    rw [show (' ' :: 'x' :: (renderNat b ++ ('[' :: 'x' :: (renderNat c ++ [']']))))
          = [' '] ++ ('x' :: (renderNat b
            ++ ('[' :: 'x' :: (renderNat c ++ [']'])))) from rfl,
        trimLeftAux_ws_run [' '] (by decide) _ _ _,
        trimLeftAux_nonws _ _ _ (fun ch hc => by cases hc; decide)]
    rfl
  have haddr2 : Buffer.addr ⟨'x' :: (renderNat b
        ++ ('[' :: 'x' :: (renderNat c ++ [']']))), row,
        4 + (renderNat a).length + 5⟩ (lc "x")
      = .ok (⟨'[' :: 'x' :: (renderNat c ++ [']']), row,
          4 + (renderNat a).length + 5 + 1 + (renderNat b).length⟩, b) := by
    have h := addr_spec [] (lc "x") (by simp) (fun ch hc => by cases hc; decide) (by decide)
      b hb2 ('[' :: 'x' :: (renderNat c ++ [']']))
      (fun ch hc => by cases hc; decide) row (4 + (renderNat a).length + 5)
    rw [show (4 : Nat) + (renderNat a).length + 5 + [].length + (lc "x").length
          = 4 + (renderNat a).length + 5 + 1 from rfl] at h
    exact h
  have htrim4 : Buffer.trimLeft ⟨'[' :: 'x' :: (renderNat c ++ [']']), row,
        4 + (renderNat a).length + 5 + 1 + (renderNat b).length⟩
      = ⟨lc "[" ++ ('x' :: (renderNat c ++ [']'])), row,
          4 + (renderNat a).length + 5 + 1 + (renderNat b).length⟩ :=
    trimLeftAux_nonws _ _ _ (fun ch hc => by cases hc; decide)
  have hfx0 : Buffer.startsWith ⟨lc "[" ++ ('x' :: (renderNat c ++ [']'])), row,
        4 + (renderNat a).length + 5 + 1 + (renderNat b).length⟩ (lc "+") = false :=
    startsWith_head_ne (show (lc "[" ++ ('x' :: (renderNat c ++ [']']))).head?
        = some '[' from rfl)
      (show (lc "+").head? = some '+' from rfl) (by decide)
  have hfx1 : Buffer.startsWith ⟨lc "[" ++ ('x' :: (renderNat c ++ [']'])), row,
        4 + (renderNat a).length + 5 + 1 + (renderNat b).length⟩ (lc "-") = false :=
    startsWith_head_ne (show (lc "[" ++ ('x' :: (renderNat c ++ [']']))).head?
        = some '[' from rfl)
      (show (lc "-").head? = some '-' from rfl) (by decide)
  have hfx2 : Buffer.startsWith ⟨lc "[" ++ ('x' :: (renderNat c ++ [']'])), row,
        4 + (renderNat a).length + 5 + 1 + (renderNat b).length⟩ (lc "*") = false :=
    startsWith_head_ne (show (lc "[" ++ ('x' :: (renderNat c ++ [']']))).head?
        = some '[' from rfl)
      (show (lc "*").head? = some '*' from rfl) (by decide)
  have hfx3 : Buffer.startsWith ⟨lc "[" ++ ('x' :: (renderNat c ++ [']'])), row,
        4 + (renderNat a).length + 5 + 1 + (renderNat b).length⟩ (lc "/") = false :=
    startsWith_head_ne (show (lc "[" ++ ('x' :: (renderNat c ++ [']']))).head?
        = some '[' from rfl)
      (show (lc "/").head? = some '/' from rfl) (by decide)
  have hfx4 : Buffer.startsWith ⟨lc "[" ++ ('x' :: (renderNat c ++ [']'])), row,
        4 + (renderNat a).length + 5 + 1 + (renderNat b).length⟩ (lc "%") = false :=
    startsWith_head_ne (show (lc "[" ++ ('x' :: (renderNat c ++ [']']))).head?
        = some '[' from rfl)
      (show (lc "%").head? = some '%' from rfl) (by decide)
  have hfx5 : Buffer.startsWith ⟨lc "[" ++ ('x' :: (renderNat c ++ [']'])), row,
        4 + (renderNat a).length + 5 + 1 + (renderNat b).length⟩ (lc "(") = false :=
    startsWith_head_ne (show (lc "[" ++ ('x' :: (renderNat c ++ [']']))).head?
        = some '[' from rfl)
      (show (lc "(").head? = some '(' from rfl) (by decide)
  have hfind : ([lc "+", lc "-", lc "*", lc "/", lc "%", lc "(", lc "["]).find?
        (fun tk => Buffer.startsWith ⟨lc "[" ++ ('x' :: (renderNat c ++ [']'])), row,
          4 + (renderNat a).length + 5 + 1 + (renderNat b).length⟩ tk)
      = some (lc "[") := by
    simp [List.find?, startsWith_pref, hfx0, hfx1, hfx2, hfx3, hfx4, hfx5]
  have hfto : Buffer.firstTokenOf ⟨lc "[" ++ ('x' :: (renderNat c ++ [']'])), row,
        4 + (renderNat a).length + 5 + 1 + (renderNat b).length⟩
        [lc "+", lc "-", lc "*", lc "/", lc "%", lc "(", lc "["]
      = .ok (⟨'x' :: (renderNat c ++ [']']), row,
          4 + (renderNat a).length + 5 + 1 + (renderNat b).length + 1⟩, lc "[") := by
    rw [firstTokenOf_found (by simp) hfind, advance_len]
    rfl
  have haddr3 : Buffer.addr ⟨'x' :: (renderNat c ++ [']']), row,
        4 + (renderNat a).length + 5 + 1 + (renderNat b).length + 1⟩ (lc "x")
      = .ok (⟨[']'], row, 4 + (renderNat a).length + 5 + 1 + (renderNat b).length + 1
          + 1 + (renderNat c).length⟩, c) := by
    have h := addr_spec [] (lc "x") (by simp)
      (fun ch hc => by cases hc; decide) (by decide) c hc2 [']']
      (fun ch hc => by cases hc; decide) row
      (4 + (renderNat a).length + 5 + 1 + (renderNat b).length + 1)
    rw [show (4 : Nat) + (renderNat a).length + 5 + 1 + (renderNat b).length + 1
          + [].length + (lc "x").length
          = 4 + (renderNat a).length + 5 + 1 + (renderNat b).length + 1 + 1 from rfl] at h
    exact h
  have htrim5 : Buffer.trimLeft ⟨[']'], row,
        4 + (renderNat a).length + 5 + 1 + (renderNat b).length + 1
          + 1 + (renderNat c).length⟩
      = ⟨[']'], row, 4 + (renderNat a).length + 5 + 1 + (renderNat b).length + 1
          + 1 + (renderNat c).length⟩ :=
    trimLeftAux_nonws _ _ _ (fun ch hc => by cases hc; decide)
  have htok2 : Buffer.token ⟨[']'], row,
        4 + (renderNat a).length + 5 + 1 + (renderNat b).length + 1
          + 1 + (renderNat c).length⟩ (lc "]")
      = .ok ⟨[], row, 4 + (renderNat a).length + 5 + 1 + (renderNat b).length + 1
          + 1 + (renderNat c).length + 1⟩ :=
    token_pref (lc "]") [] row _
  unfold parseLine
  rw [htrim]
  rw [if_neg (by
    rw [startsWith_head_ne hbodyh (show (lc "#").head? = some '#' from rfl) (by decide)]
    simp)]
  rw [if_neg (by
    rw [startsWith_head_ne hbodyh (show (lc "defn").head? = some 'd' from rfl) (by decide)]
    simp)]
  rw [if_neg (by rw [isEmpty_false_of_ne hd]; simp)]
  rw [if_neg (by
    rw [startsWith_head_ne hbodyh (show (lc "return").head? = some 'r' from rfl) (by decide)]
    simp)]
  rw [if_neg (by
    rw [startsWith_head_ne hbodyh (show (lc "write").head? = some 'w' from rfl) (by decide)]
    simp)]
  simp only [haddr1, ebind_ok]
  rw [htrim2, htok]
  simp only [ebind_ok, htrim3]
  rw [if_neg (by
    rw [startsWith_head_ne (show ('x' :: (renderNat b
        ++ ('[' :: 'x' :: (renderNat c ++ [']'])))).head? = some 'x' from rfl)
      (show (lc "k").head? = some 'k' from rfl) (by decide)]
    simp)]
  rw [if_neg (by
    rw [startsWith_head_ne (show ('x' :: (renderNat b
        ++ ('[' :: 'x' :: (renderNat c ++ [']'])))).head? = some 'x' from rfl)
      (show (lc "(").head? = some '(' from rfl) (by decide)]
    simp)]
  rw [if_neg (by
    rw [startsWith_head_ne (show ('x' :: (renderNat b
        ++ ('[' :: 'x' :: (renderNat c ++ [']'])))).head? = some 'x' from rfl)
      (show (lc "read").head? = some 'r' from rfl) (by decide)]
    simp)]
  simp only [haddr2, ebind_ok, htrim4]
  rw [if_neg (by
    simp [show (lc "[" ++ ('x' :: (renderNat c ++ [']'])))
        = '[' :: ('x' :: (renderNat c ++ [']'])) from rfl])]
  rw [hfto]
  simp only [ebind_ok]
  rw [if_neg (by decide), if_pos (by decide)]
  simp only [haddr3, ebind_ok]
  rw [htrim5, htok2]
  simp only [ebind_ok]
  rfl


theorem parseLine_call (row : Nat) (a b c : Nat) (ha : a ≤ 255) (hb2 : b ≤ 255)
    (hc2 : c ≤ 255) (defns : List Defn) (hd : defns ≠ []) :
    parseLine row (instrLine (.Call a b c)) defns
      = .ok (pushInstr defns (.Call a b c)) := by
  have hb : instrLine (.Call a b c)
      = lc "    " ++ ('x' :: (renderNat a
          ++ (' ' :: ':' :: '=' :: ' ' :: 'x' :: (renderNat b
            ++ ('(' :: 'x' :: (renderNat c ++ [')'])))))) := by
    unfold instrLine renderInstr
    simp [List.append_assoc, lc]
  rw [hb]
  have hbodyh : ('x' :: (renderNat a ++ (' ' :: ':' :: '=' :: ' ' :: 'x' :: (renderNat b
      ++ ('(' :: 'x' :: (renderNat c ++ [')'])))))).head? = some 'x' := rfl
  have hbodyl : ∀ ch, ('x' :: (renderNat a ++ (' ' :: ':' :: '=' :: ' ' :: 'x'
      :: (renderNat b ++ ('(' :: 'x' :: (renderNat c
        ++ [')'])))))).getLast? = some ch → ch.isWhitespace = false := by
    intro ch h
    rw [show ('x' :: (renderNat a ++ (' ' :: ':' :: '=' :: ' ' :: 'x' :: (renderNat b
          ++ ('(' :: 'x' :: (renderNat c ++ [')']))))))
          = (('x' :: renderNat a ++ [' ', ':', '=', ' ', 'x'] ++ renderNat b
              ++ ['(', 'x'] ++ renderNat c) ++ [')']) by
        simp [List.append_assoc]] at h
    rw [List.getLast?_concat] at h
    cases h
    decide
  have htrim := trim_instr_line _ row (head_eq_of_head? hbodyh (by decide)) hbodyl
  have haddr1 : Buffer.addr ⟨'x' :: (renderNat a ++ (' ' :: ':' :: '=' :: ' ' :: 'x'
      :: (renderNat b ++ ('(' :: 'x' :: (renderNat c ++ [')']))))), row, 4⟩ (lc "x")
      = .ok (⟨' ' :: ':' :: '=' :: ' ' :: 'x' :: (renderNat b
          ++ ('(' :: 'x' :: (renderNat c ++ [')']))), row,
          4 + (renderNat a).length + 1⟩, a) := by
    have h := addr_spec [] (lc "x") (by simp) (fun ch hc => by cases hc; decide) (by decide)
      a ha (' ' :: ':' :: '=' :: ' ' :: 'x' :: (renderNat b
        ++ ('(' :: 'x' :: (renderNat c ++ [')']))))
      (fun ch hc => by cases hc; decide) row 4
    rw [show (4 : Nat) + [].length + (lc "x").length = 4 + 1 from rfl] at h
    rw [show (4 : Nat) + 1 + (renderNat a).length
          = 4 + (renderNat a).length + 1 by omega] at h
    exact h
  have htrim2 : Buffer.trimLeft ⟨' ' :: ':' :: '=' :: ' ' :: 'x' :: (renderNat b
        ++ ('(' :: 'x' :: (renderNat c ++ [')']))), row,
        4 + (renderNat a).length + 1⟩
      = ⟨':' :: '=' :: ' ' :: 'x' :: (renderNat b
          ++ ('(' :: 'x' :: (renderNat c ++ [')']))), row,
          4 + (renderNat a).length + 2⟩ := by
    show trimLeftAux _ _ _ = _
    rw [show (' ' :: ':' :: '=' :: ' ' :: 'x' :: (renderNat b
            ++ ('(' :: 'x' :: (renderNat c ++ [')']))))
          = [' '] ++ (':' :: '=' :: ' ' :: 'x' :: (renderNat b
            ++ ('(' :: 'x' :: (renderNat c ++ [')'])))) from rfl,
        trimLeftAux_ws_run [' '] (by decide) _ _ _,
        trimLeftAux_nonws _ _ _ (fun ch hc => by cases hc; decide)]
    rfl
  have htok : Buffer.token ⟨':' :: '=' :: ' ' :: 'x' :: (renderNat b
        ++ ('(' :: 'x' :: (renderNat c ++ [')']))), row,
        4 + (renderNat a).length + 2⟩ (lc ":=")
      = .ok ⟨' ' :: 'x' :: (renderNat b ++ ('(' :: 'x' :: (renderNat c ++ [')']))),
          row, 4 + (renderNat a).length + 4⟩ := by
    have h := token_pref (lc ":=") (' ' :: 'x' :: (renderNat b
      ++ ('(' :: 'x' :: (renderNat c ++ [')'])))) row (4 + (renderNat a).length + 2)
    rw [show (4 : Nat) + (renderNat a).length + 2 + (lc ":=").length
          = 4 + (renderNat a).length + 4 by
        show _ + 2 = _
        omega] at h
    exact h
  have htrim3 : Buffer.trimLeft ⟨' ' :: 'x' :: (renderNat b
        ++ ('(' :: 'x' :: (renderNat c ++ [')']))), row,
        4 + (renderNat a).length + 4⟩
      = ⟨'x' :: (renderNat b ++ ('(' :: 'x' :: (renderNat c ++ [')']))), row,
          4 + (renderNat a).length + 5⟩ := by
    show trimLeftAux _ _ _ = _
    rw [show (' ' :: 'x' :: (renderNat b ++ ('(' :: 'x' :: (renderNat c ++ [')']))))
          = [' '] ++ ('x' :: (renderNat b
            ++ ('(' :: 'x' :: (renderNat c ++ [')'])))) from rfl,
        trimLeftAux_ws_run [' '] (by decide) _ _ _,
        trimLeftAux_nonws _ _ _ (fun ch hc => by cases hc; decide)]
    rfl
  have haddr2 : Buffer.addr ⟨'x' :: (renderNat b
        ++ ('(' :: 'x' :: (renderNat c ++ [')']))), row,
        4 + (renderNat a).length + 5⟩ (lc "x")
      = .ok (⟨'(' :: 'x' :: (renderNat c ++ [')']), row,
          4 + (renderNat a).length + 5 + 1 + (renderNat b).length⟩, b) := by
    have h := addr_spec [] (lc "x") (by simp) (fun ch hc => by cases hc; decide) (by decide)
      b hb2 ('(' :: 'x' :: (renderNat c ++ [')']))
      (fun ch hc => by cases hc; decide) row (4 + (renderNat a).length + 5)
    rw [show (4 : Nat) + (renderNat a).length + 5 + [].length + (lc "x").length
          = 4 + (renderNat a).length + 5 + 1 from rfl] at h
    exact h
  have htrim4 : Buffer.trimLeft ⟨'(' :: 'x' :: (renderNat c ++ [')']), row,
        4 + (renderNat a).length + 5 + 1 + (renderNat b).length⟩
      = ⟨lc "(" ++ ('x' :: (renderNat c ++ [')'])), row,
          4 + (renderNat a).length + 5 + 1 + (renderNat b).length⟩ :=
    trimLeftAux_nonws _ _ _ (fun ch hc => by cases hc; decide)
  have hfx0 : Buffer.startsWith ⟨lc "(" ++ ('x' :: (renderNat c ++ [')'])), row,
        4 + (renderNat a).length + 5 + 1 + (renderNat b).length⟩ (lc "+") = false :=
    startsWith_head_ne (show (lc "(" ++ ('x' :: (renderNat c ++ [')']))).head?
        = some '(' from rfl)
      (show (lc "+").head? = some '+' from rfl) (by decide)
  have hfx1 : Buffer.startsWith ⟨lc "(" ++ ('x' :: (renderNat c ++ [')'])), row,
        4 + (renderNat a).length + 5 + 1 + (renderNat b).length⟩ (lc "-") = false :=
    startsWith_head_ne (show (lc "(" ++ ('x' :: (renderNat c ++ [')']))).head?
        = some '(' from rfl)
      (show (lc "-").head? = some '-' from rfl) (by decide)
  have hfx2 : Buffer.startsWith ⟨lc "(" ++ ('x' :: (renderNat c ++ [')'])), row,
        4 + (renderNat a).length + 5 + 1 + (renderNat b).length⟩ (lc "*") = false :=
    startsWith_head_ne (show (lc "(" ++ ('x' :: (renderNat c ++ [')']))).head?
        = some '(' from rfl)
      (show (lc "*").head? = some '*' from rfl) (by decide)
  have hfx3 : Buffer.startsWith ⟨lc "(" ++ ('x' :: (renderNat c ++ [')'])), row,
        4 + (renderNat a).length + 5 + 1 + (renderNat b).length⟩ (lc "/") = false :=
    startsWith_head_ne (show (lc "(" ++ ('x' :: (renderNat c ++ [')']))).head?
        = some '(' from rfl)
      (show (lc "/").head? = some '/' from rfl) (by decide)
  have hfx4 : Buffer.startsWith ⟨lc "(" ++ ('x' :: (renderNat c ++ [')'])), row,
        4 + (renderNat a).length + 5 + 1 + (renderNat b).length⟩ (lc "%") = false :=
    startsWith_head_ne (show (lc "(" ++ ('x' :: (renderNat c ++ [')']))).head?
        = some '(' from rfl)
      (show (lc "%").head? = some '%' from rfl) (by decide)
  have hfind : ([lc "+", lc "-", lc "*", lc "/", lc "%", lc "(", lc "["]).find?
        (fun tk => Buffer.startsWith ⟨lc "(" ++ ('x' :: (renderNat c ++ [')'])), row,
          4 + (renderNat a).length + 5 + 1 + (renderNat b).length⟩ tk)
      = some (lc "(") := by
    simp [List.find?, startsWith_pref, hfx0, hfx1, hfx2, hfx3, hfx4]
  have hfto : Buffer.firstTokenOf ⟨lc "(" ++ ('x' :: (renderNat c ++ [')'])), row,
        4 + (renderNat a).length + 5 + 1 + (renderNat b).length⟩
        [lc "+", lc "-", lc "*", lc "/", lc "%", lc "(", lc "["]
      = .ok (⟨'x' :: (renderNat c ++ [')']), row,
          4 + (renderNat a).length + 5 + 1 + (renderNat b).length + 1⟩, lc "(") := by
    rw [firstTokenOf_found (by simp) hfind, advance_len]
    rfl
  have haddr3 : Buffer.addr ⟨'x' :: (renderNat c ++ [')']), row,
        4 + (renderNat a).length + 5 + 1 + (renderNat b).length + 1⟩ (lc "x")
      = .ok (⟨[')'], row, 4 + (renderNat a).length + 5 + 1 + (renderNat b).length + 1
          + 1 + (renderNat c).length⟩, c) := by
    have h := addr_spec [] (lc "x") (by simp)
      (fun ch hc => by cases hc; decide) (by decide) c hc2 [')']
      (fun ch hc => by cases hc; decide) row
      (4 + (renderNat a).length + 5 + 1 + (renderNat b).length + 1)
    rw [show (4 : Nat) + (renderNat a).length + 5 + 1 + (renderNat b).length + 1
          + [].length + (lc "x").length
          = 4 + (renderNat a).length + 5 + 1 + (renderNat b).length + 1 + 1 from rfl] at h
    exact h
  have htrim5 : Buffer.trimLeft ⟨[')'], row,
        4 + (renderNat a).length + 5 + 1 + (renderNat b).length + 1
          + 1 + (renderNat c).length⟩
      = ⟨[')'], row, 4 + (renderNat a).length + 5 + 1 + (renderNat b).length + 1
          + 1 + (renderNat c).length⟩ :=
    trimLeftAux_nonws _ _ _ (fun ch hc => by cases hc; decide)
  have htok2 : Buffer.token ⟨[')'], row,
        4 + (renderNat a).length + 5 + 1 + (renderNat b).length + 1
          + 1 + (renderNat c).length⟩ (lc ")")
      = .ok ⟨[], row, 4 + (renderNat a).length + 5 + 1 + (renderNat b).length + 1
          + 1 + (renderNat c).length + 1⟩ :=
    token_pref (lc ")") [] row _
  unfold parseLine
  rw [htrim]
  rw [if_neg (by
    rw [startsWith_head_ne hbodyh (show (lc "#").head? = some '#' from rfl) (by decide)]
    simp)]
  rw [if_neg (by
    rw [startsWith_head_ne hbodyh (show (lc "defn").head? = some 'd' from rfl) (by decide)]
    simp)]
  rw [if_neg (by rw [isEmpty_false_of_ne hd]; simp)]
  rw [if_neg (by
    rw [startsWith_head_ne hbodyh (show (lc "return").head? = some 'r' from rfl) (by decide)]
    simp)]
  rw [if_neg (by
    rw [startsWith_head_ne hbodyh (show (lc "write").head? = some 'w' from rfl) (by decide)]
    simp)]
  simp only [haddr1, ebind_ok]
  rw [htrim2, htok]
  simp only [ebind_ok, htrim3]
  rw [if_neg (by
    rw [startsWith_head_ne (show ('x' :: (renderNat b
        ++ ('(' :: 'x' :: (renderNat c ++ [')'])))).head? = some 'x' from rfl)
      (show (lc "k").head? = some 'k' from rfl) (by decide)]
    simp)]
  rw [if_neg (by
    rw [startsWith_head_ne (show ('x' :: (renderNat b
        ++ ('(' :: 'x' :: (renderNat c ++ [')'])))).head? = some 'x' from rfl)
      (show (lc "(").head? = some '(' from rfl) (by decide)]
    simp)]
  rw [if_neg (by
    rw [startsWith_head_ne (show ('x' :: (renderNat b
        ++ ('(' :: 'x' :: (renderNat c ++ [')'])))).head? = some 'x' from rfl)
      (show (lc "read").head? = some 'r' from rfl) (by decide)]
    simp)]
  simp only [haddr2, ebind_ok, htrim4]
  rw [if_neg (by
    simp [show (lc "(" ++ ('x' :: (renderNat c ++ [')'])))
        = '(' :: ('x' :: (renderNat c ++ [')'])) from rfl])]
  rw [hfto]
  simp only [ebind_ok]
  rw [if_pos (by decide)]
  simp only [haddr3, ebind_ok]
  rw [htrim5, htok2]
  simp only [ebind_ok]
  rfl

/-! ## Folding rendered lines through the parser -/

/-- A definition whose rendering round-trips: `u8` local count, supported
constants and supported instructions. -/
def SupportedDefn (d : Defn) : Bool :=
  decide (d.local_count ≤ 255) && d.consts.all SupportedVal && d.code.all SupportedInstr

/-- A program whose rendering round-trips: entry point `0` (the parser
always produces it), at most `2^64` definitions (function ids are `usize`)
and supported definitions. -/
def SupportedProgram (p : Program) : Bool :=
  decide (p.entry_point = 0) && decide (p.defns.length ≤ 2 ^ 64)
    && p.defns.all SupportedDefn

/-- The lines of one rendered definition block. -/
def defnLines (i : Nat) (d : Defn) : List (List Char) :=
  headerText i d.local_count d.consts :: d.code.map instrLine

/-- The lines of the rendered blocks from function id `i` on, one blank
line between consecutive blocks. -/
def progLines : Nat → List Defn → List (List Char)
  | _, [] => []
  | i, d :: ds => defnLines i d ++ (if ds.isEmpty then [] else [] :: progLines (i + 1) ds)

theorem parseLine_instr (row : Nat) (ins : Instr) (hins : SupportedInstr ins = true)
    (defns : List Defn) (hd : defns ≠ []) :
    parseLine row (instrLine ins) defns = .ok (pushInstr defns ins) := by
  cases ins with
  | Const a b =>
    have h : a ≤ 255 ∧ b ≤ 255 := by simpa [SupportedInstr] using hins
    exact parseLine_const row a b h.1 h.2 defns hd
  | Copy a b =>
    have h : a ≤ 255 ∧ b ≤ 255 := by simpa [SupportedInstr] using hins
    exact parseLine_copy row a b h.1 h.2 defns hd
  | Add a b c =>
    have h : (a ≤ 255 ∧ b ≤ 255) ∧ c ≤ 255 := by simpa [SupportedInstr] using hins
    exact parseLine_add row a b c h.1.1 h.1.2 h.2 defns hd
  | Sub a b c =>
    have h : (a ≤ 255 ∧ b ≤ 255) ∧ c ≤ 255 := by simpa [SupportedInstr] using hins
    exact parseLine_sub row a b c h.1.1 h.1.2 h.2 defns hd
  | Mul a b c =>
    have h : (a ≤ 255 ∧ b ≤ 255) ∧ c ≤ 255 := by simpa [SupportedInstr] using hins
    exact parseLine_mul row a b c h.1.1 h.1.2 h.2 defns hd
  | Div a b c =>
    have h : (a ≤ 255 ∧ b ≤ 255) ∧ c ≤ 255 := by simpa [SupportedInstr] using hins
    exact parseLine_div row a b c h.1.1 h.1.2 h.2 defns hd
  | Rem a b c =>
    have h : (a ≤ 255 ∧ b ≤ 255) ∧ c ≤ 255 := by simpa [SupportedInstr] using hins
    exact parseLine_rem row a b c h.1.1 h.1.2 h.2 defns hd
  | IdxTup a b c =>
    have h : (a ≤ 255 ∧ b ≤ 255) ∧ c ≤ 255 := by simpa [SupportedInstr] using hins
    exact parseLine_idx row a b c h.1.1 h.1.2 h.2 defns hd
  | Call a b c =>
    have h : (a ≤ 255 ∧ b ≤ 255) ∧ c ≤ 255 := by simpa [SupportedInstr] using hins
    exact parseLine_call row a b c h.1.1 h.1.2 h.2 defns hd
  | Return a =>
    cases a with
    | none => exact parseLine_retnone row defns hd
    | some a =>
      have h : a ≤ 255 := by simpa [SupportedInstr] using hins
      exact parseLine_retsome row a h defns hd
  | Read a =>
    have h : a ≤ 255 := by simpa [SupportedInstr] using hins
    exact parseLine_read row a h defns hd
  | Write a =>
    have h : a ≤ 255 := by simpa [SupportedInstr] using hins
    exact parseLine_write row a h defns hd
  | And a b c => simp [SupportedInstr] at hins
  | Orr a b c => simp [SupportedInstr] at hins
  | Xor a b c => simp [SupportedInstr] at hins
  | Eq a b c => simp [SupportedInstr] at hins
  | Neq a b c => simp [SupportedInstr] at hins
  | Lt a b c => simp [SupportedInstr] at hins
  | Gt a b c => simp [SupportedInstr] at hins
  | Leq a b c => simp [SupportedInstr] at hins
  | Geq a b c => simp [SupportedInstr] at hins
  | Jump off => simp [SupportedInstr] at hins
  | CondJump a b c => simp [SupportedInstr] at hins
  | MkTup a b c => simp [SupportedInstr] at hins

theorem pushInstr_ne_nil {ds : List Defn} (h : ds ≠ []) (i : Instr) : pushInstr ds i ≠ [] := by
  unfold pushInstr
  cases hgl : ds.getLast? with
  | none => exact h
  | some d => simp

theorem pushInstr_concat (ds : List Defn) (d : Defn) (i : Instr) :
    pushInstr (ds ++ [d]) i = ds ++ [{ d with code := d.code ++ [i] }] := by
  unfold pushInstr
  rw [List.getLast?_concat, List.dropLast_concat]

theorem foldl_pushInstr : ∀ (code : List Instr) (ds : List Defn) (d : Defn),
    code.foldl (fun ds i => pushInstr ds i) (ds ++ [d])
      = ds ++ [{ d with code := d.code ++ code }]
  | [], ds, d => by simp
  | i :: code, ds, d => by
    simp only [List.foldl_cons]
    rw [pushInstr_concat, foldl_pushInstr code ds _]
    simp [List.append_assoc]

theorem parseLines_instrs : ∀ (code : List Instr) (n : Nat) (ds : List Defn),
    ds ≠ [] → (∀ i ∈ code, SupportedInstr i = true) →
    parseLines (((code.map instrLine).enumFrom n).map fun pr => (pr.1 + 1, pr.2)) ds
      = .ok (code.foldl (fun ds i => pushInstr ds i) ds)
  | [], _, ds, _, _ => rfl
  | i :: code, n, ds, hne, hsup => by
    simp only [List.map_cons, List.enumFrom_cons]
    show parseLines ((n + 1, instrLine i) :: _) ds = _
    simp only [parseLines,
      parseLine_instr (n + 1) i (hsup i (List.mem_cons_self _ _)) ds hne, ebind_ok]
    exact parseLines_instrs code (n + 1) (pushInstr ds i) (pushInstr_ne_nil hne i)
      (fun x hx => hsup x (List.mem_cons_of_mem _ hx))

theorem parseLines_append_ok {l₁ : List (Nat × List Char)} :
    ∀ {ds ds' : List Defn}, parseLines l₁ ds = .ok ds' →
    ∀ (l₂ : List (Nat × List Char)), parseLines (l₁ ++ l₂) ds = parseLines l₂ ds' := by
  induction l₁ with
  | nil =>
    intro ds ds' h l₂
    cases h
    rfl
  | cons pr rest ih =>
    intro ds ds' h l₂
    cases pr with
    | mk row line =>
      simp only [parseLines] at h
      simp only [List.cons_append, parseLines]
      cases hp : parseLine row line ds with
      | ok d1 =>
        simp only [hp, ebind_ok] at h
        simp only [hp, ebind_ok]
        exact ih h l₂
      | error e =>
        simp only [hp, ebind_err] at h
        exact absurd h (by simp)

theorem parseLine_empty (row : Nat) (defns : List Defn) :
    parseLine row [] defns = .ok defns := rfl

theorem parseLines_blank_cons (n : Nat) (ls : List (List Char)) (ds : List Defn) :
    parseLines ((([] :: ls).enumFrom n).map fun pr => (pr.1 + 1, pr.2)) ds
      = parseLines ((ls.enumFrom (n + 1)).map fun pr => (pr.1 + 1, pr.2)) ds := by
  simp only [List.enumFrom_cons, List.map_cons]
  simp only [parseLines, parseLine_empty, ebind_ok]

theorem enumFrom_append {α : Type} : ∀ (l₁ l₂ : List α) (n : Nat),
    (l₁ ++ l₂).enumFrom n = l₁.enumFrom n ++ l₂.enumFrom (n + l₁.length)
  | [], l₂, n => by simp
  | a :: l₁, l₂, n => by
    simp only [List.cons_append, List.enumFrom_cons]
    rw [enumFrom_append l₁ l₂ (n + 1)]
    simp only [List.length_cons]
    rw [show n + 1 + l₁.length = n + (l₁.length + 1) by omega]

theorem parseLines_defnLines (d : Defn) (hd : SupportedDefn d = true)
    (d0 : List Defn) (n : Nat) (hi : d0.length ≤ 2 ^ 64 - 1) :
    parseLines (((defnLines d0.length d).enumFrom n).map fun pr => (pr.1 + 1, pr.2)) d0
      = .ok (d0 ++ [d]) := by
  have hparts : d.local_count ≤ 255 ∧ (∀ k ∈ d.consts, SupportedVal k = true)
      ∧ ∀ i ∈ d.code, SupportedInstr i = true := by
    have h := hd
    unfold SupportedDefn at h
    simp only [Bool.and_eq_true, decide_eq_true_eq, List.all_eq_true] at h
    exact ⟨h.1.1, h.1.2, h.2⟩
  unfold defnLines
  simp only [List.enumFrom_cons, List.map_cons]
  show parseLines ((n + 1, headerText d0.length d.local_count d.consts) :: _) d0 = _
  simp only [parseLines,
    parseLine_header (n + 1) d0.length d.local_count d.consts d0 rfl hi hparts.1
      hparts.2.1, ebind_ok]
  rw [parseLines_instrs d.code (n + 1) (d0 ++ [Defn.mk d.consts [] d.local_count])
    (by simp) hparts.2.2]
  rw [foldl_pushInstr]
  rfl

theorem parse_blocks : ∀ (ds : List Defn) (d0 : List Defn) (n : Nat),
    (∀ d ∈ ds, SupportedDefn d = true) → d0.length + ds.length ≤ 2 ^ 64 →
    parseLines (((progLines d0.length ds).enumFrom n).map fun pr => (pr.1 + 1, pr.2)) d0
      = .ok (d0 ++ ds)
  | [], d0, n, _, _ => by simp [progLines, parseLines]
  | d :: ds, d0, n, hs, hlen => by
    have hd := hs d (List.mem_cons_self _ _)
    have hi : d0.length ≤ 2 ^ 64 - 1 := by
      have := hlen
      simp only [List.length_cons] at this
      omega
    cases hds : ds with
    | nil =>
      show parseLines (((defnLines d0.length d
          ++ (if ([] : List Defn).isEmpty then [] else [] :: progLines (d0.length + 1) []))
            |>.enumFrom n).map fun pr => (pr.1 + 1, pr.2)) d0 = _
      simp only [List.isEmpty_nil, if_true, List.append_nil]
      rw [parseLines_defnLines d hd d0 n hi]
    | cons d' ds' =>
      have hpl : progLines d0.length (d :: d' :: ds')
          = defnLines d0.length d ++ ([] :: progLines (d0.length + 1) (d' :: ds')) := by
        simp [progLines]
      rw [hpl]
      rw [enumFrom_append, List.map_append]
      rw [parseLines_append_ok (parseLines_defnLines d hd d0 n hi)]
      rw [parseLines_blank_cons]
      have hrec := parse_blocks (d' :: ds') (d0 ++ [d])
        (n + (defnLines d0.length d).length + 1)
        (fun x hx => hs x (by rw [hds]; exact List.mem_cons_of_mem _ hx))
        (by
          rw [hds] at hlen
          simp only [List.length_append, List.length_cons, List.length_nil] at hlen ⊢
          omega)
      rw [show (d0 ++ [d]).length = d0.length + 1 by simp] at hrec
      rw [hrec]
      simp

/-! ## From the rendered text back to its lines -/

/-- Join lines with a separator (the shape `Display` writes). -/
def joinSep (sep : List Char) : List (List Char) → List Char
  | [] => []
  | [l] => l
  | l :: l' :: ls => l ++ sep ++ joinSep sep (l' :: ls)

theorem flatten_intersperse (sep : List Char) : ∀ ls : List (List Char),
    (ls.intersperse sep).flatten = joinSep sep ls
  | [] => rfl
  | [l] => by simp [joinSep]
  | l :: l' :: ls => by
    rw [List.intersperse_cons_cons]
    simp only [List.flatten_cons]
    rw [flatten_intersperse sep (l' :: ls)]
    simp [joinSep, List.append_assoc]

theorem joinSep_cons_cons (sep l : List Char) (l' : List Char) (ls : List (List Char)) :
    joinSep sep (l :: l' :: ls) = l ++ sep ++ joinSep sep (l' :: ls) := rfl

theorem joinSep_append (sep : List Char) : ∀ (xs ys : List (List Char)),
    xs ≠ [] → ys ≠ [] →
    joinSep sep (xs ++ ys) = joinSep sep xs ++ sep ++ joinSep sep ys
  | [], _, hx, _ => absurd rfl hx
  | [x], ys, _, hy => by
    cases ys with
    | nil => exact absurd rfl hy
    | cons y ys => rfl
  | x :: x' :: xs, ys, _, hy => by
    rw [show (x :: x' :: xs) ++ ys = x :: ((x' :: xs) ++ ys) from rfl,
        show (x' :: xs) ++ ys = x' :: (xs ++ ys) from rfl]
    rw [joinSep_cons_cons]
    rw [show x' :: (xs ++ ys) = (x' :: xs) ++ ys from rfl,
        joinSep_append sep (x' :: xs) ys (by simp) hy, joinSep_cons_cons]
    simp [List.append_assoc]

theorem joinSep_nl_lines : ∀ (h : List Char) (ls : List (List Char)),
    joinSep ['\n'] (h :: ls) = h ++ (ls.map fun l => '\n' :: l).flatten
  | h, [] => by simp [joinSep]
  | h, l :: ls => by
    rw [joinSep_cons_cons, joinSep_nl_lines l ls]
    simp [List.append_assoc]

theorem joinSep_ne_nil : ∀ (ls : List (List Char)) (llast : List Char),
    ls.getLast? = some llast → llast ≠ [] → joinSep ['\n'] ls ≠ []
  | [], llast, h, _ => by simp at h
  | [l], llast, h, h2 => by
    have : l = llast := by simpa using h
    rw [show joinSep ['\n'] [l] = l from rfl, this]
    exact h2
  | l :: l' :: ls, llast, h, h2 => by
    rw [joinSep_cons_cons]
    intro hc
    rcases List.append_eq_nil.mp (List.append_eq_nil.mp hc).1 with ⟨_, h3⟩
    exact List.noConfusion h3

theorem splitNL_nonl : ∀ (l : List Char), (∀ ch ∈ l, ch ≠ '\n') → splitNL l = [l]
  | [], _ => rfl
  | ch :: cs, h => by
    unfold splitNL
    split
    · rename_i hne
      exact List.noConfusion hne
    · rename_i rest2 heq
      exact absurd (List.cons.inj heq).1 (h ch (List.mem_cons_self _ _))
    · rename_i x1 ch2 rest2 hx heq
      obtain ⟨h1, h2⟩ := List.cons.inj heq
      subst h1
      subst h2
      rw [splitNL_nonl cs (fun y hy => h y (List.mem_cons_of_mem _ hy))]

theorem splitNL_append : ∀ (l rest : List Char), (∀ ch ∈ l, ch ≠ '\n') →
    splitNL (l ++ '\n' :: rest) = l :: splitNL rest
  | [], rest, _ => by
    show splitNL ('\n' :: rest) = [] :: splitNL rest
    rfl
  | ch :: cs, rest, h => by
    show splitNL (ch :: (cs ++ '\n' :: rest)) = _
    conv_lhs => unfold splitNL
    split
    · rename_i hne
      exact List.noConfusion hne
    · rename_i rest2 heq
      exact absurd (List.cons.inj heq).1 (h ch (List.mem_cons_self _ _))
    · rename_i x1 ch2 rest2 hx heq
      obtain ⟨h1, h2⟩ := List.cons.inj heq
      subst h1
      subst h2
      rw [splitNL_append cs rest (fun y hy => h y (List.mem_cons_of_mem _ hy))]

theorem splitNL_joinSep : ∀ (ls : List (List Char)), ls ≠ [] →
    (∀ l ∈ ls, ∀ ch ∈ l, ch ≠ '\n') →
    splitNL (joinSep ['\n'] ls) = ls
  | [], h, _ => absurd rfl h
  | [l], _, h => splitNL_nonl l (h l (List.mem_cons_self _ _))
  | l :: l' :: ls, _, h => by
    rw [joinSep_cons_cons, List.append_assoc,
        show (['\n'] ++ joinSep ['\n'] (l' :: ls)) = '\n' :: joinSep ['\n'] (l' :: ls)
          from rfl,
        splitNL_append l _ (fun ch hch => (h l (List.mem_cons_self _ _)) ch hch),
        splitNL_joinSep (l' :: ls) (by simp)
          (fun x hx => h x (List.mem_cons_of_mem _ hx))]

theorem rustLines_joinSep (ls : List (List Char)) (hne : ls ≠ [])
    (hnl : ∀ l ∈ ls, ∀ ch ∈ l, ch ≠ '\n' ∧ ch ≠ '\r')
    (llast : List Char) (hl1 : ls.getLast? = some llast) (hl2 : llast ≠ []) :
    rustLines (joinSep ['\n'] ls) = ls := by
  have hjne : joinSep ['\n'] ls ≠ [] := joinSep_ne_nil ls llast hl1 hl2
  have hsplit : splitNL (joinSep ['\n'] ls) = ls :=
    splitNL_joinSep ls hne (fun l hl ch hch => (hnl l hl ch hch).1)
  have hmap : ls.map stripCR = ls := by
    have hcong : ∀ l ∈ ls, stripCR l = id l := by
      intro l hl
      unfold stripCR
      rw [if_neg]
      · rfl
      · intro hr
        exact (hnl l hl '\r' (mem_of_getLast? hr)).2 rfl
    rw [List.map_congr_left hcong, List.map_id]
  unfold rustLines
  cases hc : joinSep ['\n'] ls with
  | nil => exact absurd hc hjne
  | cons c cs =>
    rw [← hc]
    simp only [hsplit]
    rw [if_neg (by rw [hl1]; exact fun hx => hl2 (Option.some.inj hx))]
    exact hmap

/-! ## The rendered program, line by line -/

theorem nonws_ne_nlcr {ch : Char} (h : ch.isWhitespace = false) :
    ch ≠ '\n' ∧ ch ≠ '\r' := by
  constructor
  · intro he
    rw [he] at h
    exact absurd h (by decide)
  · intro he
    rw [he] at h
    exact absurd h (by decide)

theorem noNL_renderNat (n : Nat) : ∀ ch ∈ renderNat n, ch ≠ '\n' ∧ ch ≠ '\r' :=
  fun ch hch => nonws_ne_nlcr (isDigit_not_ws (renderNat_all_digit n ch hch))

theorem chars_or {l₁ l₂ : List Char} {P : Char → Prop}
    (h₁ : ∀ ch ∈ l₁, P ch) (h₂ : ∀ ch ∈ l₂, P ch) : ∀ ch ∈ l₁ ++ l₂, P ch :=
  fun ch hch => (List.mem_append.mp hch).elim (h₁ ch) (h₂ ch)

theorem noNL_renderInstr (ins : Instr) (h : SupportedInstr ins = true) :
    ∀ ch ∈ renderInstr ins, ch ≠ '\n' ∧ ch ≠ '\r' := by
  cases ins with
  | Const a b =>
    exact chars_or (chars_or (chars_or (by decide) (noNL_renderNat a)) (by decide))
      (noNL_renderNat b)
  | Copy a b =>
    exact chars_or (chars_or (chars_or (by decide) (noNL_renderNat a)) (by decide))
      (noNL_renderNat b)
  | Add a b c =>
    exact chars_or (chars_or (chars_or (chars_or (chars_or (by decide) (noNL_renderNat a))
      (by decide)) (noNL_renderNat b)) (by decide)) (noNL_renderNat c)
  | Sub a b c =>
    exact chars_or (chars_or (chars_or (chars_or (chars_or (by decide) (noNL_renderNat a))
      (by decide)) (noNL_renderNat b)) (by decide)) (noNL_renderNat c)
  | Mul a b c =>
    exact chars_or (chars_or (chars_or (chars_or (chars_or (by decide) (noNL_renderNat a))
      (by decide)) (noNL_renderNat b)) (by decide)) (noNL_renderNat c)
  | Div a b c =>
    exact chars_or (chars_or (chars_or (chars_or (chars_or (by decide) (noNL_renderNat a))
      (by decide)) (noNL_renderNat b)) (by decide)) (noNL_renderNat c)
  | Rem a b c =>
    exact chars_or (chars_or (chars_or (chars_or (chars_or (by decide) (noNL_renderNat a))
      (by decide)) (noNL_renderNat b)) (by decide)) (noNL_renderNat c)
  | IdxTup a b c =>
    exact chars_or (chars_or (chars_or (chars_or (chars_or (chars_or (by decide)
      (noNL_renderNat a)) (by decide)) (noNL_renderNat b)) (by decide))
      (noNL_renderNat c)) (by decide)
  | Call a b c =>
    exact chars_or (chars_or (chars_or (chars_or (chars_or (chars_or (by decide)
      (noNL_renderNat a)) (by decide)) (noNL_renderNat b)) (by decide))
      (noNL_renderNat c)) (by decide)
  | Return a =>
    cases a with
    | none => exact by decide
    | some a => exact chars_or (by decide) (noNL_renderNat a)
  | Read a => exact chars_or (chars_or (by decide) (noNL_renderNat a)) (by decide)
  | Write a => exact chars_or (by decide) (noNL_renderNat a)
  | And a b c => simp [SupportedInstr] at h
  | Orr a b c => simp [SupportedInstr] at h
  | Xor a b c => simp [SupportedInstr] at h
  | Eq a b c => simp [SupportedInstr] at h
  | Neq a b c => simp [SupportedInstr] at h
  | Lt a b c => simp [SupportedInstr] at h
  | Gt a b c => simp [SupportedInstr] at h
  | Leq a b c => simp [SupportedInstr] at h
  | Geq a b c => simp [SupportedInstr] at h
  | Jump off => simp [SupportedInstr] at h
  | CondJump a b c => simp [SupportedInstr] at h
  | MkTup a b c => simp [SupportedInstr] at h

theorem noNL_renderVal {v : Val} (hv : SupportedVal v = true) :
    ∀ ch ∈ renderVal v, ch ≠ '\n' ∧ ch ≠ '\r' :=
  fun ch hch => nonws_ne_nlcr (renderVal_nonws hv ch hch)

theorem noNL_constsText : ∀ (ks : List Val), (∀ k ∈ ks, SupportedVal k = true) →
    ∀ ch ∈ constsText ks, ch ≠ '\n' ∧ ch ≠ '\r'
  | [], _ => by
    intro ch hch
    simp [constsText] at hch
  | k :: ks, hks => by
    have hct : constsText (k :: ks) = (' ' :: renderVal k) ++ constsText ks := by
      simp [constsText]
    rw [hct]
    refine chars_or ?_ (noNL_constsText ks (fun x hx => hks x (List.mem_cons_of_mem _ hx)))
    intro ch hch
    rcases List.mem_cons.mp hch with rfl | hm
    · exact ⟨by decide, by decide⟩
    · exact noNL_renderVal (hks k (List.mem_cons_self _ _)) ch hm

theorem noNL_headerText (i lcnt : Nat) (ks : List Val)
    (hks : ∀ k ∈ ks, SupportedVal k = true) :
    ∀ ch ∈ headerText i lcnt ks, ch ≠ '\n' ∧ ch ≠ '\r' := by
  unfold headerText
  refine chars_or (by decide) ?_
  intro ch hch
  rcases List.mem_cons.mp hch with rfl | hch2
  · exact ⟨by decide, by decide⟩
  rcases List.mem_cons.mp hch2 with rfl | hch3
  · exact ⟨by decide, by decide⟩
  refine chars_or (noNL_renderNat i) ?_ ch hch3
  intro x hx
  rcases List.mem_cons.mp hx with rfl | hx2
  · exact ⟨by decide, by decide⟩
  refine chars_or (noNL_renderNat lcnt) ?_ x hx2
  intro y hy
  rcases List.mem_cons.mp hy with rfl | hy2
  · exact ⟨by decide, by decide⟩
  rcases List.mem_cons.mp hy2 with rfl | hy3
  · exact ⟨by decide, by decide⟩
  exact noNL_constsText ks hks y hy3

theorem supportedDefn_parts {d : Defn} (hd : SupportedDefn d = true) :
    d.local_count ≤ 255 ∧ (∀ k ∈ d.consts, SupportedVal k = true)
      ∧ ∀ i ∈ d.code, SupportedInstr i = true := by
  have h := hd
  unfold SupportedDefn at h
  simp only [Bool.and_eq_true, decide_eq_true_eq, List.all_eq_true] at h
  exact ⟨h.1.1, h.1.2, h.2⟩

theorem defnLines_no_nlcr (i : Nat) (d : Defn) (hd : SupportedDefn d = true) :
    ∀ l ∈ defnLines i d, ∀ ch ∈ l, ch ≠ '\n' ∧ ch ≠ '\r' := by
  obtain ⟨h1, h2, h3⟩ := supportedDefn_parts hd
  intro l hl
  rcases List.mem_cons.mp hl with rfl | hm
  · exact noNL_headerText i d.local_count d.consts h2
  · obtain ⟨ins, hins, rfl⟩ := List.mem_map.mp hm
    exact chars_or (by decide) (noNL_renderInstr ins (h3 ins hins))

theorem headerText_ne_nil (i lcnt : Nat) (ks : List Val) : headerText i lcnt ks ≠ [] := by
  unfold headerText
  intro h
  rcases List.append_eq_nil.mp h with ⟨h1, _⟩
  exact List.noConfusion h1

theorem defnLines_lines_ne_nil (i : Nat) (d : Defn) :
    ∀ l ∈ defnLines i d, l ≠ [] := by
  intro l hl
  rcases List.mem_cons.mp hl with rfl | hm
  · exact headerText_ne_nil _ _ _
  · obtain ⟨ins, _, rfl⟩ := List.mem_map.mp hm
    intro h
    rcases List.append_eq_nil.mp h with ⟨h1, _⟩
    exact List.noConfusion h1

theorem progLines_ne_nil (i : Nat) (d : Defn) (ds : List Defn) :
    progLines i (d :: ds) ≠ [] := by
  simp [progLines, defnLines]

theorem progLines_no_nlcr : ∀ (ds : List Defn) (i : Nat),
    (∀ d ∈ ds, SupportedDefn d = true) →
    ∀ l ∈ progLines i ds, ∀ ch ∈ l, ch ≠ '\n' ∧ ch ≠ '\r'
  | [], _, _ => by
    intro l hl
    simp [progLines] at hl
  | d :: ds, i, hs => by
    intro l hl
    unfold progLines at hl
    rcases List.mem_append.mp hl with h1 | h2
    · exact defnLines_no_nlcr i d (hs d (List.mem_cons_self _ _)) l h1
    · by_cases he : ds.isEmpty = true
      · rw [if_pos he] at h2
        simp at h2
      · rw [if_neg he] at h2
        rcases List.mem_cons.mp h2 with rfl | h3
        · intro ch hch
          simp at hch
        · exact progLines_no_nlcr ds (i + 1)
            (fun x hx => hs x (List.mem_cons_of_mem _ hx)) l h3

theorem progLines_getLast : ∀ (ds : List Defn) (i : Nat), ds ≠ [] →
    ∃ llast, (progLines i ds).getLast? = some llast ∧ llast ≠ []
  | [], _, h => absurd rfl h
  | [d], i, _ => by
    have hp : progLines i [d] = defnLines i d := by simp [progLines]
    rw [hp]
    cases hgl : (defnLines i d).getLast? with
    | none =>
      exact absurd (getLast?_none_imp_nil hgl) (by simp [defnLines])
    | some x =>
      exact ⟨x, rfl, defnLines_lines_ne_nil i d x (mem_of_getLast? hgl)⟩
  | d :: d' :: ds, i, _ => by
    have hpl : progLines i (d :: d' :: ds)
        = defnLines i d ++ ([] :: progLines (i + 1) (d' :: ds)) := by
      simp [progLines]
    rw [hpl]
    obtain ⟨llast, h1, h2⟩ := progLines_getLast (d' :: ds) (i + 1) (by simp)
    have hinner : (([[]] : List (List Char)) ++ progLines (i + 1) (d' :: ds)).getLast?
        = some llast := getLast?_append_right h1
    exact ⟨llast, getLast?_append_right hinner, h2⟩

theorem renderDefn_eq (i : Nat) (d : Defn) :
    renderDefn i d = joinSep ['\n'] (defnLines i d) := by
  unfold renderDefn defnLines
  rw [joinSep_nl_lines, List.map_map]
  rw [show ((fun l => '\n' :: l) ∘ instrLine)
        = fun ins => lc "\n    " ++ renderInstr ins from rfl]
  have e1 : lc "defn f" = 'd' :: 'e' :: 'f' :: 'n' :: ' ' :: 'f' :: [] := rfl
  have e2 : lc " " = [' '] := rfl
  have e3 : lc " :" = [' ', ':'] := rfl
  have e4 : lc "defn" = ['d', 'e', 'f', 'n'] := rfl
  rw [show headerText i d.local_count d.consts
        = lc "defn" ++ (' ' :: 'f' :: (renderNat i ++ (' ' :: (renderNat d.local_count
          ++ (' ' :: ':' :: constsText d.consts))))) from rfl]
  unfold constsText
  simp [e1, e2, e3, e4, List.append_assoc]

theorem joinSep_blocks : ∀ (ds : List Defn) (i : Nat), ds ≠ [] →
    joinSep (lc "\n\n") ((ds.enumFrom i).map fun pr => renderDefn pr.1 pr.2)
      = joinSep ['\n'] (progLines i ds)
  | [], _, h => absurd rfl h
  | [d], i, _ => by
    show joinSep (lc "\n\n") [renderDefn (i, d).1 (i, d).2] = _
    have hp : progLines i [d] = defnLines i d := by simp [progLines]
    rw [show joinSep (lc "\n\n") [renderDefn (i, d).1 (i, d).2]
          = renderDefn i d from rfl, hp, renderDefn_eq]
  | d :: d' :: ds, i, _ => by
    show joinSep (lc "\n\n") (renderDefn (i, d).1 (i, d).2
        :: renderDefn (i + 1, d').1 (i + 1, d').2
        :: (ds.enumFrom (i + 2)).map (fun pr => renderDefn pr.1 pr.2)) = _
    rw [joinSep_cons_cons]
    rw [show (renderDefn (i + 1, d').1 (i + 1, d').2
          :: (ds.enumFrom (i + 2)).map (fun pr => renderDefn pr.1 pr.2))
          = ((d' :: ds).enumFrom (i + 1)).map (fun pr => renderDefn pr.1 pr.2) from rfl]
    rw [joinSep_blocks (d' :: ds) (i + 1) (by simp)]
    have hpl : progLines i (d :: d' :: ds)
        = defnLines i d ++ ([] :: progLines (i + 1) (d' :: ds)) := by
      simp [progLines]
    rw [hpl]
    rw [joinSep_append ['\n'] (defnLines i d) ([] :: progLines (i + 1) (d' :: ds))
      (by simp [defnLines]) (by simp)]
    cases hL : progLines (i + 1) (d' :: ds) with
    | nil => exact absurd hL (progLines_ne_nil (i + 1) d' ds)
    | cons l ls =>
      rw [joinSep_cons_cons]
      rw [renderDefn_eq]
      simp [List.append_assoc, lc]

theorem renderProgram_eq (p : Program) (hne : p.defns ≠ []) :
    renderProgram p = joinSep ['\n'] (progLines 0 p.defns) := by
  unfold renderProgram
  rw [flatten_intersperse]
  exact joinSep_blocks p.defns 0 hne

theorem parse_blocks0 (ds : List Defn) (hds : ∀ d ∈ ds, SupportedDefn d = true)
    (hlen : ds.length ≤ 2 ^ 64) :
    parseLines (((progLines 0 ds).enum).map fun pr => (pr.1 + 1, pr.2)) [] = .ok ds := by
  have h := parse_blocks ds [] 0 hds (by simpa using hlen)
  simpa using h

/-- The repository's own `test_format` program restricted to its `MkTup`
instruction: the render/parse counterexample. -/
def c2MkTupProg : Program := ⟨[⟨[], [.MkTup 0 0 0], 1⟩], 0⟩

/-- C2 counterexample: `Display` prints `MkTup(0, 0, 0)` as `(x0; 0)`, but
the parser expects `(x<b>..x<c>)`, so the rendering of this well-formed
one-instruction program fails to reparse: it stops at column 13 of row 2
expecting the token `".."`. -/
theorem C2_counterexample :
    parse (renderProgram c2MkTupProg) = .error ⟨lc "\"..\"", 2, some (13, 13)⟩ := rfl

/-- C2 (amended): rendering round-trips exactly on the supported fragment:
entry point `0`, at most `2^64` definitions, `u8` local counts, boolean /
in-range-integer / function-reference constants, and instructions among
`Const`, `Copy`, `Add`, `Sub`, `Mul`, `Div`, `Rem`, `IdxTup`, `Call`,
`Return`, `Read`, `Write` with `u8` operands.  Outside it the round trip
can fail (`C2_counterexample`). -/
theorem C2_render_parse_roundtrip (p : Program) (hp : SupportedProgram p = true) :
    parse (renderProgram p) = .ok p := by
  cases p with
  | mk ds ep =>
    have hparts : ep = 0 ∧ ds.length ≤ 2 ^ 64 ∧ ∀ d ∈ ds, SupportedDefn d = true := by
      have h := hp
      unfold SupportedProgram at h
      simp only [Bool.and_eq_true, decide_eq_true_eq, List.all_eq_true] at h
      exact ⟨h.1.1, h.1.2, h.2⟩
    obtain ⟨hep, hlen, hds⟩ := hparts
    subst hep
    cases ds with
    | nil => rfl
    | cons d ds' =>
      have hrl : rustLines (renderProgram ⟨d :: ds', 0⟩) = progLines 0 (d :: ds') := by
        rw [renderProgram_eq ⟨d :: ds', 0⟩ (by simp)]
        obtain ⟨llast, h1, h2⟩ := progLines_getLast (d :: ds') 0 (by simp)
        exact rustLines_joinSep (progLines 0 (d :: ds'))
          (progLines_ne_nil 0 d ds') (progLines_no_nlcr (d :: ds') 0 hds) llast h1 h2
      unfold parse
      rw [hrl]
      rw [show (fun ((i, l) : Nat × List Char) => (i + 1, l))
            = fun (pr : Nat × List Char) => (pr.1 + 1, pr.2) from
          funext fun pr => by cases pr; rfl]
      rw [parse_blocks0 (d :: ds') hds hlen]
      rfl

/-- Witness for `C2_render_parse_roundtrip` on a three-instruction
program with two integer constants. -/
theorem C2_render_parse_roundtrip_witness :
    parse (renderProgram ⟨[⟨[.I 1, .I 2], [.Const 0 0, .Add 0 0 1,
        .Return (some 0)], 2⟩], 0⟩)
      = .ok ⟨[⟨[.I 1, .I 2], [.Const 0 0, .Add 0 0 1, .Return (some 0)], 2⟩], 0⟩ :=
  C2_render_parse_roundtrip _ (by decide)

end TicTac
